import Mathlib

/-!
# Hubble local observer

A shallow embedding of `pkg/hubble/observer/local_observer.go`: the query
path (`validateRequest`, `newRingReader`, `newEventsReader`,
`eventsReader.Next` and the three streaming endpoints `GetFlows`,
`GetAgentEvents`, `GetDebugEvents`), the ingest loop `Start` with
`trackNamespaces`, and `ServerStatus` with `getFlowRate`; and of the checks
of `New` in `pkg/hubble/relay/server/server.go`.

Go values are embedded as follows.

* A pointer that may be nil is an `Option`.
* A Go result pair `(*v1.Event, error)` is a pair
  `Option Event × Option Error`; a function that returns either a non-nil
  value or a non-nil error is an `Except Error _`.
* `uint64` is a `Nat`, with `% 2 ^ 64` written where the source increments
  or decrements.
* `time.Time` is an `Int` counting nanoseconds since the Unix epoch, and a
  `time.Duration` an `Int` of nanoseconds within the range of `int64`.
* A `float64` is an IEEE-754 binary64 number; conversions, sums and
  quotients round to nearest, ties to even.
* The ring buffer, the request context and the client stream live outside
  `local_observer.go`; a query reaches them through the operations of `Env`,
  each of which may change the environment state. The hooks and the decoder
  of the ingest loop are state transformers in the same way.
* The unbounded `for` loops take a fuel argument and return `none` when it
  runs out; the loop of `Start` runs over the finite sequence of events
  received before the channel is closed.
-/

namespace Observer

set_option linter.dupNamespace false

/-! ## Errors -/

/-- The reason `timestamppb.Timestamp.CheckValid` rejects a timestamp. -/
inductive TimestampInvalid where
  | Nil
  | Underflow
  | Overflow
  | Nanos
  deriving DecidableEq, Repr

/-- The gRPC status codes used by the observer. -/
inductive Code where
  | InvalidArgument
  | Unimplemented
  | Internal
  | Unknown
  deriving DecidableEq, Repr

/-- Go `error` values that can reach the observer code. `EOF` is `io.EOF`,
`Canceled` and `DeadlineExceeded` are the two values of `ctx.Err()`,
`Status` is an error built by `status.Errorf`, `InvalidTimestamp` is the error
of `CheckValid`, `Panic` stands for a nil-pointer dereference, and `Other`
is any other error (transport, hook or ring-reader errors). -/
inductive Error where
  | EOF
  | Canceled
  | DeadlineExceeded
  | Status (code : Code) (msg : String)
  | InvalidTimestamp (why : TimestampInvalid)
  | Panic
  | Other (tag : Nat)
  deriving DecidableEq, Repr

/-! ## Timestamps -/

/-- The message `timestamppb.Timestamp`: seconds (int64) and nanos (int32). -/
structure Timestamp where
  Seconds : Int
  Nanos : Int
  deriving DecidableEq, Repr

/-- The method `(*timestamppb.Timestamp).CheckValid` of the protobuf library:
a nil timestamp, seconds outside years 1 to 9999, and nanos outside
`[0, 1e9)` are invalid. The result is the returned error, `none` for a
nil error. -/
def Timestamp.CheckValid : Option Timestamp → Option Error
  | none => some (.InvalidTimestamp .Nil)
  | some x =>
    if x.Seconds < -62135596800 then some (.InvalidTimestamp .Underflow)
    else if x.Seconds > 253402300799 then some (.InvalidTimestamp .Overflow)
    else if x.Nanos < 0 ∨ x.Nanos ≥ 1000000000 then some (.InvalidTimestamp .Nanos)
    else none

/-- The method `(*timestamppb.Timestamp).AsTime`: `time.Unix(seconds, nanos)`,
as nanoseconds since the epoch. -/
def Timestamp.AsTime (x : Timestamp) : Int :=
  x.Seconds * 1000000000 + x.Nanos

/-- `AsTime` on a possibly nil pointer: the getters of a nil message give 0. -/
def Timestamp.AsTimeOpt : Option Timestamp → Int
  | none => 0
  | some x => x.AsTime

/-! ## Events -/

/-- The enum `flowpb.LostEventSource`. -/
inductive LostEventSource where
  | UNKNOWN_LOST_EVENT_SOURCE
  | PERF_EVENT_RING_BUFFER
  | OBSERVER_EVENTS_QUEUE
  | HUBBLE_RING_BUFFER
  deriving DecidableEq, Repr

/-- The message `flowpb.LostEvent`. -/
structure LostEvent where
  Source : LostEventSource
  NumEventsLost : Nat
  deriving DecidableEq, Repr

/-- The message `flowpb.Endpoint`, with the one field the observer reads. -/
structure Endpoint where
  Namespace : String
  deriving DecidableEq, Repr

/-- The message `flowpb.Flow`: the fields the observer reads, and `Uuid`
standing for every other field. -/
structure Flow where
  Time : Option Timestamp
  NodeName : String
  Source : Option Endpoint
  Destination : Option Endpoint
  Uuid : Nat
  deriving DecidableEq, Repr

/-- The dynamic type of `v1.Event.Event` (declared `any` in Go): the four
payload kinds the observer switches on, and `Other` for anything else,
nil included. -/
inductive Payload where
  | Flow (f : Flow)
  | AgentEvent (a : Nat)
  | DebugEvent (d : Nat)
  | LostEvent (l : LostEvent)
  | Other (tag : Nat)
  deriving DecidableEq, Repr

/-- The struct `v1.Event`. -/
structure Event where
  Timestamp : Option Timestamp
  Event : Payload
  deriving DecidableEq, Repr

/-- The type assertion `_, isLostEvent := e.Event.(*flowpb.LostEvent)`. -/
def Event.isLostEvent (e : Observer.Event) : Bool :=
  match e.Event with
  | .LostEvent _ => true
  | _ => false

/-- The method `(*v1.Event).GetLostEvent`, nil-safe on the receiver. -/
def Event.GetLostEvent : Option Observer.Event → Option LostEvent
  | some ⟨_, .LostEvent l⟩ => some l
  | _ => none

/-- The type assertion `e.Event.(*flowpb.Flow)`. -/
def Event.isFlow (e : Observer.Event) : Bool :=
  match e.Event with
  | .Flow _ => true
  | _ => false

/-! ## Filters -/

/-- The type `filters.FilterFunc`. -/
abbrev FilterFunc := Event → Bool

/-- The type `filters.FilterFuncs`. -/
abbrev FilterFuncs := List FilterFunc

/-- Modelled from the spec: `filters.FilterFuncs.MatchOne` of
`pkg/hubble/filters`, which is not among the sources. The whitelist side of
"whitelist is empty OR any whitelist predicate matches". -/
def FilterFuncs.MatchOne (fs : FilterFuncs) (ev : Event) : Bool :=
  fs.isEmpty || fs.any (fun f => f ev)

/-- Modelled from the spec: `filters.FilterFuncs.MatchNone` of
`pkg/hubble/filters`, which is not among the sources. The blacklist side of
"blacklist is empty OR no blacklist predicate matches". -/
def FilterFuncs.MatchNone (fs : FilterFuncs) (ev : Event) : Bool :=
  fs.isEmpty || !(fs.any (fun f => f ev))

/-- Modelled from the spec: `filters.Apply` of `pkg/hubble/filters`, which is
not among the sources. An event is accepted iff (whitelist is empty or any
whitelist predicate matches) and (blacklist is empty or no blacklist
predicate matches). -/
def filters.Apply (whitelist blacklist : FilterFuncs) (ev : Event) : Bool :=
  whitelist.MatchOne ev && blacklist.MatchNone ev

/-! ## Requests -/

/-- The interface `genericRequest`: what `GetFlowsRequest`,
`GetAgentEventsRequest` and `GetDebugEventsRequest` have in common. -/
structure genericRequest where
  Number : Nat
  Follow : Bool
  Since : Option Timestamp
  Until : Option Timestamp
  First : Bool
  deriving DecidableEq, Repr

/-- The function `validateRequest`. -/
def validateRequest (req : genericRequest) : Option Error :=
  if req.First && req.Follow then
    some (.Status .InvalidArgument "first cannot be specified with follow")
  else none

/-- The message `observerpb.GetFlowsRequest`: the generic part, the two
filter-expression lists and the two field masks (each a list of paths). A
filter expression is opaque to the observer and is a number here. -/
structure GetFlowsRequest extends genericRequest where
  Whitelist : List Nat
  Blacklist : List Nat
  FieldMask : List String
  ExperimentalFieldMask : List String

/-! ## Responses -/

/-- The oneof `ResponseTypes` of `observerpb.GetFlowsResponse`. -/
inductive ResponseTypes where
  | Flow (f : Flow)
  | LostEvents (l : LostEvent)
  deriving DecidableEq, Repr

/-- The message `observerpb.GetFlowsResponse`. -/
structure GetFlowsResponse where
  Time : Option Timestamp
  NodeName : String
  ResponseTypes : ResponseTypes
  deriving DecidableEq, Repr

/-- The message `observerpb.GetAgentEventsResponse`. -/
structure GetAgentEventsResponse where
  Time : Option Timestamp
  NodeName : String
  AgentEvent : Nat
  deriving DecidableEq, Repr

/-- The message `observerpb.GetDebugEventsResponse`. -/
structure GetDebugEventsResponse where
  Time : Option Timestamp
  NodeName : String
  DebugEvent : Nat
  deriving DecidableEq, Repr

/-- A response of the flows endpoint that carries a flow. -/
def GetFlowsResponse.isFlow (r : GetFlowsResponse) : Bool :=
  match r.ResponseTypes with
  | .Flow _ => true
  | .LostEvents _ => false

/-! ## The environment of a query -/

/-- The value `fieldmask.FieldMask`, as the observer uses it: `Active` and
the effect of `Copy` into the reused target flow. -/
structure FieldMask where
  Active : Bool
  Copy : Flow → Flow

/-- The collaborators of a query that are not part of `local_observer.go`,
taken as parameters. The state `σ` is everything outside the observer
code that a query can observe or change: the cursor of its
`container.RingReader`, the `container.Ring` behind it (which the ingest task
may write to at any time), the request context and the client stream.

* `ctxErr` is the non-blocking `select` on `ctx.Done()`: `some (ctx.Err())`
  once the context is cancelled.
* `Next`, `Previous`, `NextFollow` are the methods of the current
  `container.RingReader`; `NewRingReader idx` makes a reader at `idx` the
  current one.
* `OldestWrite`, `LastWriteParallel`, `Len`, `Cap` are the methods of
  `container.Ring`.
* `Send`, `SendAgent`, `SendDebug` are `server.Send` of the three streams.
* `BuildFilterList` is `filters.BuildFilterList` with the default and the
  `OnBuildFilter` filters; `NewFieldMask` is `fieldmask.New`;
  `AbsoluteNodeName` is `nodeTypes.GetAbsoluteNodeName()`. -/
structure Env (σ : Type) where
  ctxErr : σ → Option Error
  Next : σ → (Option Event × Option Error) × σ
  Previous : σ → (Option Event × Option Error) × σ
  NextFollow : σ → Option Event × σ
  NewRingReader : Nat → σ → σ
  OldestWrite : σ → Nat
  LastWriteParallel : σ → Nat
  Len : σ → Nat
  Cap : σ → Nat
  Send : GetFlowsResponse → σ → Option Error × σ
  SendAgent : GetAgentEventsResponse → σ → Option Error × σ
  SendDebug : GetDebugEventsResponse → σ → Option Error × σ
  BuildFilterList : List Nat → Except Error FilterFuncs
  NewFieldMask : List String → Except Error FieldMask
  AbsoluteNodeName : String

/-- The hook chains of `observeroption.Options` that the query path runs.
An `OnGetFlows` hook returns its error (the context it returns is part of
the state); an `OnFlowDelivery` hook returns `(stop, err)`. -/
structure Options (σ : Type) where
  OnGetFlows : List (GetFlowsRequest → σ → Option Error × σ)
  OnFlowDelivery : List (Flow → σ → (Bool × Option Error) × σ)

/-! ## eventsReader -/

/-- The struct `eventsReader`. Its `ringReader` field points to the current
reader of the environment state; `until_` is the field `until`, a reserved
word here. -/
structure eventsReader where
  whitelist : FilterFuncs
  blacklist : FilterFuncs
  maxEvents : Nat
  follow : Bool
  timeRange : Bool
  eventCount : Nat
  since : Option Int
  until_ : Option Int

/-- The function `newEventsReader`. -/
def newEventsReader (req : genericRequest) (whitelist blacklist : FilterFuncs) :
    Except Error eventsReader :=
  let since := req.Since
  let until_ := req.Until
  let reader : eventsReader :=
    { whitelist := whitelist
      blacklist := blacklist
      maxEvents := req.Number
      follow := req.Follow
      timeRange := since.isSome || until_.isSome
      eventCount := 0
      since := none
      until_ := none }
  let afterSince : Except Error eventsReader :=
    match since with
    | none => .ok reader
    | some s =>
      match Timestamp.CheckValid (some s) with
      | some err => .error err
      | none => .ok { reader with since := some s.AsTime }
  match afterSince with
  | .error err => .error err
  | .ok reader =>
    match until_ with
    | none => .ok reader
    | some u =>
      match Timestamp.CheckValid (some u) with
      | some err => .error err
      | none => .ok { reader with until_ := some u.AsTime }

/-- What one pass of the loop of `eventsReader.Next` does once it holds a
candidate event: return it, return an error, or `continue`. -/
inductive Verdict where
  | Return
  | Fail (err : Error)
  | Continue
  deriving DecidableEq, Repr

/-- Lines 639 to 661 of `eventsReader.Next`: the lost-event special case, the
time range and the filters, applied to the candidate `e`. -/
def eventsReader.examine (r : eventsReader) (e : Event) : Verdict :=
  if !e.isLostEvent then
    if r.timeRange then
      match Timestamp.CheckValid e.Timestamp with
      | some err => .Fail err
      | none =>
        let ts := Timestamp.AsTimeOpt e.Timestamp
        if (match r.until_ with | some u => decide (ts > u) | none => false) then
          .Fail .EOF
        else if (match r.since with | some s => decide (ts < s) | none => false) then
          .Continue
        else if !filters.Apply r.whitelist r.blacklist e then .Continue
        else .Return
    else if !filters.Apply r.whitelist r.blacklist e then .Continue
    else .Return
  else .Return

/-- Lines 616 to 631 of `eventsReader.Next`: read the candidate event, from
`NextFollow` in follow mode and from `Next` (after the `maxEvents` check)
otherwise. The result is the candidate, or the error `Next` returns. -/
def eventsReader.read {σ : Type} (env : Env σ) (r : eventsReader) (w : σ) :
    Except Error Event × σ :=
  if r.follow then
    match env.NextFollow w with
    | (none, w1) => (.error .EOF, w1)
    | (some e, w1) => (.ok e, w1)
  else if r.maxEvents > 0 ∧ r.eventCount ≥ r.maxEvents then
    (.error .EOF, w)
  else
    match env.Next w with
    | ((_, some err), w1) => (.error err, w1)
    | ((none, none), w1) => (.error .EOF, w1)
    | ((some e, none), w1) => (.ok e, w1)

/-- The method `eventsReader.Next`. Each unit of fuel pays for one pass of
its `for` loop. -/
def eventsReader.Next {σ : Type} (env : Env σ) (r : eventsReader) :
    Nat → σ → Option (Except Error Event × σ)
  | 0, _ => none
  | fuel + 1, w =>
    match env.ctxErr w with
    | some err => some (.error err, w)
    | none =>
      match r.read env w with
      | (.error err, w1) => some (.error err, w1)
      | (.ok e, w1) =>
        match r.examine e with
        | .Return => some (.ok e, w1)
        | .Fail err => some (.error err, w1)
        | .Continue => eventsReader.Next env r fuel w1

/-! ## newRingReader -/

/-- The statement `idx++` on a `uint64`. -/
def inc64 (x : Nat) : Nat := (x + 1) % 2 ^ 64

/-- The statement `idx-1` on a `uint64`. -/
def dec64 (x : Nat) : Nat := (x + (2 ^ 64 - 1)) % 2 ^ 64

/-- The test `lost != nil && lost.Source == flowpb.LostEventSource_HUBBLE_RING_BUFFER`
on `lost := e.GetLostEvent()`. -/
def isRingOverrun (e : Option Event) : Bool :=
  match Event.GetLostEvent e with
  | some lost => decide (lost.Source = .HUBBLE_RING_BUFFER)
  | none => false

/-- The `for` loop of `newRingReader` (lines 721 to 749). The first argument
is the loop variable `i`, which starts at `ring.Len()`; then `idx` and
`eventCount`. The result is the value of `idx` when the loop is left, or the
error the function returns. -/
def newRingReader.rewind {σ : Type} (env : Env σ) (req : genericRequest)
    (whitelist blacklist : FilterFuncs) (sinceTime : Int) :
    Nat → Nat → Nat → σ → Except Error Nat × σ
  | 0, idx, _, w => (.ok idx, w)
  | i + 1, idx, eventCount, w =>
    match env.Previous w with
    | ((e, err), w1) =>
      if isRingOverrun e then
        (.ok (inc64 idx), w1)
      else
        match err with
        | some err => (.error err, w1)
        | none =>
          match e with
          | none => (.error .Panic, w1)
          | some e =>
            if e.isLostEvent || !filters.Apply whitelist blacklist e then
              newRingReader.rewind env req whitelist blacklist sinceTime i (dec64 idx) eventCount w1
            else
              let eventCount := inc64 eventCount
              if req.Since.isSome then
                match Timestamp.CheckValid e.Timestamp with
                | some err => (.error err, w1)
                | none =>
                  if Timestamp.AsTimeOpt e.Timestamp < sinceTime then
                    (.ok (inc64 idx), w1)
                  else
                    newRingReader.rewind env req whitelist blacklist sinceTime i (dec64 idx)
                      eventCount w1
              else if eventCount = req.Number then
                (.ok idx, w1)
              else
                newRingReader.rewind env req whitelist blacklist sinceTime i (dec64 idx)
                  eventCount w1

/-- The zero value of `time.Time` (`var sinceTime time.Time`): January 1 of
year 1, in nanoseconds since the Unix epoch. -/
def zeroTime : Int := -62135596800 * 1000000000

/-- The function `newRingReader`. The reader it returns is the current reader
of the resulting state; the result is the error it returns. -/
def newRingReader {σ : Type} (env : Env σ) (req : genericRequest)
    (whitelist blacklist : FilterFuncs) (w : σ) : Option Error × σ :=
  let since := req.Since
  if req.First && since.isNone then
    (none, env.NewRingReader (env.OldestWrite w) w)
  else if req.Follow && req.Number == 0 && since.isNone then
    (none, env.NewRingReader (env.LastWriteParallel w) w)
  else
    let checked : Except Error Int :=
      match since with
      | none => .ok zeroTime
      | some s =>
        match Timestamp.CheckValid (some s) with
        | some err => .error err
        | none => .ok s.AsTime
    match checked with
    | .error err => (some err, w)
    | .ok sinceTime =>
      let idx := env.LastWriteParallel w
      let w0 := env.NewRingReader idx w
      match newRingReader.rewind env req whitelist blacklist sinceTime (env.Len w0) idx 0 w0 with
      | (.error err, w1) => (some err, w1)
      | (.ok idx, w1) => (none, env.NewRingReader idx w1)

/-! ## The streaming endpoints -/

/-- What a streaming endpoint has done when it returns: the error it returns
(`none` for nil), the environment state, the responses passed to a
`server.Send` that succeeded, in order, and the final `eventCount` of its
`eventsReader` (0 when none was created). -/
structure Outcome (σ : Type) (ρ : Type) where
  err : Option Error
  world : σ
  sent : List ρ
  eventCount : Nat

/-- The loop over `s.opts.OnGetFlows` in `GetFlows` (lines 271 to 276). -/
def runOnGetFlows {σ : Type} :
    List (GetFlowsRequest → σ → Option Error × σ) → GetFlowsRequest → σ → Option Error × σ
  | [], _, w => (none, w)
  | f :: fs, req, w =>
    match f req w with
    | (some err, w1) => (some err, w1)
    | (none, w1) => runOnGetFlows fs req w1

/-- How the loop over `s.opts.OnFlowDelivery` ends: all hooks passed, one
asked to stop, or one returned an error. -/
inductive Delivery where
  | Pass
  | Stop
  | Fail (err : Error)
  deriving DecidableEq, Repr

/-- The loop over `s.opts.OnFlowDelivery` in `GetFlows` (lines 350 to 358). -/
def runOnFlowDelivery {σ : Type} :
    List (Flow → σ → (Bool × Option Error) × σ) → Flow → σ → Delivery × σ
  | [], _, w => (.Pass, w)
  | f :: fs, ev, w =>
    match f ev w with
    | ((_, some err), w1) => (.Fail err, w1)
    | ((true, none), w1) => (.Stop, w1)
    | ((false, none), w1) => runOnFlowDelivery fs ev w1

/-- The value returned for an error of `eventsReader.Next` or `newRingReader`:
nil when `errors.Is(err, io.EOF)`, the error otherwise. -/
def eofIsNil (err : Error) : Option Error :=
  if err = .EOF then none else some err

/-- The delivery loop of `GetFlows` (lines 335 to 394). `k` is the fuel given
to each call of `eventsReader.Next`; each unit of the next argument pays for
one pass of the loop. -/
def GetFlows.loop {σ : Type} (env : Env σ) (opts : Options σ) (mask : FieldMask) (k : Nat) :
    Nat → eventsReader → σ → List GetFlowsResponse → Option (Outcome σ GetFlowsResponse)
  | 0, _, _, _ => none
  | n + 1, eventsReader, w, sent =>
    match eventsReader.Next env k w with
    | none => none
    | some (.error err, w1) => some ⟨eofIsNil err, w1, sent, eventsReader.eventCount⟩
    | some (.ok e, w1) =>
      match e.Event with
      | .Flow ev =>
        let eventsReader := { eventsReader with eventCount := inc64 eventsReader.eventCount }
        match runOnFlowDelivery opts.OnFlowDelivery ev w1 with
        | (.Fail err, w2) => some ⟨some err, w2, sent, eventsReader.eventCount⟩
        | (.Stop, w2) => GetFlows.loop env opts mask k n eventsReader w2 sent
        | (.Pass, w2) =>
          let ev := if mask.Active then mask.Copy ev else ev
          let resp : GetFlowsResponse :=
            { Time := ev.Time, NodeName := ev.NodeName, ResponseTypes := .Flow ev }
          match env.Send resp w2 with
          | (some err, w3) => some ⟨some err, w3, sent, eventsReader.eventCount⟩
          | (none, w3) => GetFlows.loop env opts mask k n eventsReader w3 (sent ++ [resp])
      | .LostEvent ev =>
        let resp : GetFlowsResponse :=
          { Time := e.Timestamp, NodeName := env.AbsoluteNodeName, ResponseTypes := .LostEvents ev }
        match env.Send resp w1 with
        | (some err, w2) => some ⟨some err, w2, sent, eventsReader.eventCount⟩
        | (none, w2) => GetFlows.loop env opts mask k n eventsReader w2 (sent ++ [resp])
      | _ => GetFlows.loop env opts mask k n eventsReader w1 sent

/-- The method `LocalObserverServer.GetFlows`. -/
def GetFlows {σ : Type} (env : Env σ) (opts : Options σ) (fuel : Nat)
    (req : GetFlowsRequest) (w : σ) : Option (Outcome σ GetFlowsResponse) :=
  match validateRequest req.togenericRequest with
  | some err => some ⟨some err, w, [], 0⟩
  | none =>
    match runOnGetFlows opts.OnGetFlows req w with
    | (some err, w1) => some ⟨some err, w1, [], 0⟩
    | (none, w1) =>
      match env.BuildFilterList req.Whitelist with
      | .error err => some ⟨some err, w1, [], 0⟩
      | .ok whitelist =>
        match env.BuildFilterList req.Blacklist with
        | .error err => some ⟨some err, w1, [], 0⟩
        | .ok blacklist =>
          match newRingReader env req.togenericRequest whitelist blacklist w1 with
          | (some err, w2) => some ⟨eofIsNil err, w2, [], 0⟩
          | (none, w2) =>
            match newEventsReader req.togenericRequest whitelist blacklist with
            | .error err => some ⟨some err, w2, [], 0⟩
            | .ok eventsReader =>
              let fm := if req.FieldMask.length = 0 then req.ExperimentalFieldMask else req.FieldMask
              match env.NewFieldMask fm with
              | .error err => some ⟨some err, w2, [], 0⟩
              | .ok mask => GetFlows.loop env opts mask fuel fuel eventsReader w2 []

/-- The delivery loop of `GetAgentEvents` (lines 440 to 462). -/
def GetAgentEvents.loop {σ : Type} (env : Env σ) (k : Nat) :
    Nat → eventsReader → σ → List GetAgentEventsResponse →
      Option (Outcome σ GetAgentEventsResponse)
  | 0, _, _, _ => none
  | n + 1, eventsReader, w, sent =>
    match eventsReader.Next env k w with
    | none => none
    | some (.error err, w1) => some ⟨eofIsNil err, w1, sent, eventsReader.eventCount⟩
    | some (.ok e, w1) =>
      match e.Event with
      | .AgentEvent ev =>
        let eventsReader := { eventsReader with eventCount := inc64 eventsReader.eventCount }
        let resp : GetAgentEventsResponse :=
          { Time := e.Timestamp, NodeName := env.AbsoluteNodeName, AgentEvent := ev }
        match env.SendAgent resp w1 with
        | (some err, w2) => some ⟨some err, w2, sent, eventsReader.eventCount⟩
        | (none, w2) => GetAgentEvents.loop env k n eventsReader w2 (sent ++ [resp])
      | _ => GetAgentEvents.loop env k n eventsReader w1 sent

/-- The method `LocalObserverServer.GetAgentEvents`. Its whitelist and
blacklist are the nil `filters.FilterFuncs`. -/
def GetAgentEvents {σ : Type} (env : Env σ) (fuel : Nat) (req : genericRequest) (w : σ) :
    Option (Outcome σ GetAgentEventsResponse) :=
  match validateRequest req with
  | some err => some ⟨some err, w, [], 0⟩
  | none =>
    match newRingReader env req [] [] w with
    | (some err, w1) => some ⟨eofIsNil err, w1, [], 0⟩
    | (none, w1) =>
      match newEventsReader req [] [] with
      | .error err => some ⟨some err, w1, [], 0⟩
      | .ok eventsReader => GetAgentEvents.loop env fuel fuel eventsReader w1 []

/-- The delivery loop of `GetDebugEvents` (lines 508 to 530). -/
def GetDebugEvents.loop {σ : Type} (env : Env σ) (k : Nat) :
    Nat → eventsReader → σ → List GetDebugEventsResponse →
      Option (Outcome σ GetDebugEventsResponse)
  | 0, _, _, _ => none
  | n + 1, eventsReader, w, sent =>
    match eventsReader.Next env k w with
    | none => none
    | some (.error err, w1) => some ⟨eofIsNil err, w1, sent, eventsReader.eventCount⟩
    | some (.ok e, w1) =>
      match e.Event with
      | .DebugEvent ev =>
        let eventsReader := { eventsReader with eventCount := inc64 eventsReader.eventCount }
        let resp : GetDebugEventsResponse :=
          { Time := e.Timestamp, NodeName := env.AbsoluteNodeName, DebugEvent := ev }
        match env.SendDebug resp w1 with
        | (some err, w2) => some ⟨some err, w2, sent, eventsReader.eventCount⟩
        | (none, w2) => GetDebugEvents.loop env k n eventsReader w2 (sent ++ [resp])
      | _ => GetDebugEvents.loop env k n eventsReader w1 sent

/-- The method `LocalObserverServer.GetDebugEvents`. Its whitelist and
blacklist are the nil `filters.FilterFuncs`. -/
def GetDebugEvents {σ : Type} (env : Env σ) (fuel : Nat) (req : genericRequest) (w : σ) :
    Option (Outcome σ GetDebugEventsResponse) :=
  match validateRequest req with
  | some err => some ⟨some err, w, [], 0⟩
  | none =>
    match newRingReader env req [] [] w with
    | (some err, w1) => some ⟨eofIsNil err, w1, [], 0⟩
    | (none, w1) =>
      match newEventsReader req [] [] with
      | .error err => some ⟨some err, w1, [], 0⟩
      | .ok eventsReader => GetDebugEvents.loop env fuel fuel eventsReader w1 []

/-! ## The ring buffer and a query's environment on a ring at rest -/

/-- Modelled from the spec: `container.Ring` of `pkg/hubble/container`, which
is not among the sources. A ring has a fixed capacity `C` (`cap`), a
monotonically increasing write sequence `W` (`write`), and `C` slots, the
slot for sequence `s` being `s mod C`. `now` is the timestamp given to the
LostEvents the ring synthesizes. -/
structure Ring where
  cap : Nat
  write : Nat
  data : List (Option Event)
  now : Option Timestamp
  deriving DecidableEq, Repr

/-- Modelled from the spec: `container.NewRing`, not among the sources.
Initial state: `W = 0`, all slots empty. -/
def NewRing (n : Nat) (now : Option Timestamp) : Ring :=
  { cap := n, write := 0, data := List.replicate n none, now := now }

/-- Modelled from the spec: `container.Ring.Write`, not among the sources.
"Append event at current `W`, then increment `W`", overwriting the slot
`W mod C`. -/
def Ring.Write (r : Ring) (e : Event) : Ring :=
  { r with data := r.data.set (r.write % r.cap) (some e), write := r.write + 1 }

/-- Writes the events of a list, first to last. -/
def Ring.WriteAll (r : Ring) (es : List Event) : Ring :=
  es.foldl Ring.Write r

/-- Modelled from the spec: the LostEvent a ring synthesizes, "source =
ring-overrun" (`HUBBLE_RING_BUFFER`). -/
def Ring.getLostEvent (r : Ring) : Event :=
  { Timestamp := r.now, Event := .LostEvent { Source := .HUBBLE_RING_BUFFER, NumEventsLost := 1 } }

/-- Modelled from the spec: whether the sequence number `s` lies below the
overrun floor of the ring, not among the sources. Sequence numbers are 64-bit
and a reader's cursor is decremented modulo `2^64`: a cursor moved back from
sequence 0 is `2^64 - 1`. So besides the numbers with `s < W - C`, the numbers
at least `2^63` ahead of `W` count as behind the ring, below its floor
`max(0, W - C)`, and not as sequences still to be written. -/
def Ring.belowFloor (r : Ring) (s : Nat) : Bool :=
  decide (s + r.cap < r.write) || decide (r.write + 2 ^ 63 ≤ s)

/-- Modelled from the spec: `Read(s)` of the ring, not among the sources.
"If `s >= W`, fails with `NotYetWritten`. If `s < W - C`, returns a
synthesized LostEvent. Otherwise returns the stored event", and "any Read at
a sequence below the current overrun floor returns LostEvent". The failure is
`io.EOF`, the error `getFlowRate` tests a read of an empty ring for. -/
def Ring.Read (r : Ring) (s : Nat) : Option Event × Option Error :=
  if r.belowFloor s then (some r.getLostEvent, none)
  else if s ≥ r.write then (none, some .EOF)
  else (r.data.getD (s % r.cap) none, none)

/-- Modelled from the spec: `container.Ring.OldestWrite`, not among the
sources: "oldest valid sequence = `max(0, W - C)`", with no safety margin. -/
def Ring.OldestWrite (r : Ring) : Nat := r.write - r.cap

/-- Modelled from the spec: `container.Ring.LastWriteParallel`, not among the
sources: "the most recently completed write", sequence `W - 1`, and 0 on an
empty ring, so that `OldestWrite() ≤ LastWriteParallel() ≤ W`. -/
def Ring.LastWriteParallel (r : Ring) : Nat := r.write - 1

/-- Modelled from the spec: `container.Ring.Len`, not among the sources: the
number of events the ring holds, at most `Cap()`. -/
def Ring.Len (r : Ring) : Nat := min r.write r.cap

/-- Modelled from the spec: `container.Ring.Cap`, not among the sources. -/
def Ring.Cap (r : Ring) : Nat := r.cap

/-- The state of a query on a ring that is not written to while the query
runs: the ring, the cursor `idx` of the current `container.RingReader`, the
value `ctx` of `ctx.Err()`, and `cause`, the error the context takes when the
query is cancelled while its reader is parked in `NextFollow`. -/
structure World where
  ring : Ring
  idx : Nat
  ctx : Option Error
  cause : Error
  deriving DecidableEq, Repr

/-- Modelled from the spec: `container.RingReader.Next`, not among the
sources. "Returns event at cursor and advances; end-of-stream when cursor
reaches `W`." -/
def World.Next (w : World) : (Option Event × Option Error) × World :=
  match w.ring.Read w.idx with
  | (_, some err) => ((none, some err), w)
  | (e, none) => ((e, none), { w with idx := inc64 w.idx })

/-- Modelled from the spec: `container.RingReader.Previous`, not among the
sources. It returns the event at the cursor and moves the cursor one back,
the convention `newRingReader` relies on (section 4.5 of the spec: the rewind
starts "from `LastWriteParallel()`" and stops "at the current position").
Below `OldestWrite()` it "returns LostEvent (ring-overrun) and pins the
cursor at the floor"; this is also what a call gets after the event of
sequence 0 has been read, when the cursor is `2^64 - 1`. -/
def World.Previous (w : World) : (Option Event × Option Error) × World :=
  match w.ring.Read w.idx with
  | (_, some err) => ((none, some err), w)
  | (e, none) =>
    if w.ring.belowFloor w.idx then
      ((e, none), { w with idx := w.ring.OldestWrite })
    else ((e, none), { w with idx := dec64 w.idx })

/-- Modelled from the spec: `container.RingReader.NextFollow`, not among the
sources. "If `s < W`, return immediately; else park the caller until `W > s`
or a cancellation signal fires": on a ring that is not written to, a parked
caller returns only when the query is cancelled, without an event. -/
def World.NextFollow (w : World) : Option Event × World :=
  match w.ring.Read w.idx with
  | (_, some _) => (none, { w with ctx := some w.cause })
  | (e, none) => (e, { w with idx := inc64 w.idx })

/-- The environment of a query on a ring at rest: the ring and its reader as
modelled from the spec, a context that is cancelled only as `World` says, and
a client stream on which every `Send` succeeds. The filter compiler and the
field-mask constructor are parameters. -/
def ringEnv (build : List Nat → Except Error FilterFuncs)
    (newMask : List String → Except Error FieldMask) (nodeName : String) : Env World :=
  { ctxErr := fun w => w.ctx
    Next := World.Next
    Previous := World.Previous
    NextFollow := World.NextFollow
    NewRingReader := fun idx w => { w with idx := idx }
    OldestWrite := fun w => w.ring.OldestWrite
    LastWriteParallel := fun w => w.ring.LastWriteParallel
    Len := fun w => w.ring.Len
    Cap := fun w => w.ring.Cap
    Send := fun _ w => (none, w)
    SendAgent := fun _ w => (none, w)
    SendDebug := fun _ w => (none, w)
    BuildFilterList := build
    NewFieldMask := newMask
    AbsoluteNodeName := nodeName }

/-- A field-mask constructor for a request without field mask: the mask is
not active. -/
def noMask : List String → Except Error FieldMask :=
  fun _ => .ok { Active := false, Copy := fun f => f }

/-- A filter compiler for the tests below: expression 0 accepts every event,
expression `n + 1` accepts the flows whose `Uuid` is at most `n`. -/
def buildTest : List Nat → Except Error FilterFuncs :=
  fun xs => .ok (xs.map fun n e =>
    match n, e.Event with
    | 0, _ => true
    | n + 1, .Flow f => decide (f.Uuid ≤ n)
    | _, _ => false)

/-- The environment used by the concrete examples. -/
def testEnv : Env World := ringEnv buildTest noMask "node"

/-- A timestamp of whole seconds. -/
def tsec (n : Int) : Timestamp := { Seconds := n, Nanos := 0 }

/-- A flow event with the ring timestamp and flow time `n` seconds and
`Uuid` `n`. -/
def flowAt (n : Nat) : Event :=
  { Timestamp := some (tsec n)
    Event := .Flow { Time := some (tsec n), NodeName := "node", Source := none,
                     Destination := none, Uuid := n } }

/-- An agent event with ring timestamp `n` seconds. -/
def agentAt (n : Nat) : Event :=
  { Timestamp := some (tsec n), Event := .AgentEvent n }

/-- A world on the ring of capacity `cap` after writing `es`, with the
cursor at 0 and a live context. -/
def worldOf (cap : Nat) (es : List Event) : World :=
  { ring := (NewRing cap none).WriteAll es, idx := 0, ctx := none, cause := .Canceled }

/-- The flow responses among the responses sent. -/
def flowResponses (sent : List GetFlowsResponse) : List GetFlowsResponse :=
  sent.filter GetFlowsResponse.isFlow

/-- A LostEvent written to the ring by the ingest (its source is the perf
ring buffer), with ring timestamp `n` seconds. -/
def lostAt (n : Nat) : Event :=
  { Timestamp := some (tsec n)
    Event := .LostEvent { Source := .PERF_EVENT_RING_BUFFER, NumEventsLost := 1 } }

/-- An `eventsReader` that is not in follow mode, with a blacklist that
rejects every event and the time window `[5 s, 0 s]`, which no event is in. -/
def rejectAll : eventsReader :=
  { whitelist := [], blacklist := [fun _ => true], maxEvents := 1, follow := false,
    timeRange := true, eventCount := 0, since := some 5000000000, until_ := some 0 }

/-- The generic request with the given `number`, `since` and `until`,
neither `first` nor `follow`. -/
def requestOf (number : Nat) (since until_ : Option Timestamp) : genericRequest :=
  { Number := number, Follow := false, Since := since, Until := until_, First := false }

/-- The `eventsReader` of a non-follow query without filters, with the given
`maxEvents` and time window in seconds. -/
def plainReader (maxEvents : Nat) (since until_ : Option Int) : eventsReader :=
  { whitelist := [], blacklist := [], maxEvents := maxEvents, follow := false,
    timeRange := since.isSome || until_.isSome, eventCount := 0,
    since := since.map (· * 1000000000), until_ := until_.map (· * 1000000000) }

/-- The flows request with the given generic part, no filters and no field
mask. -/
def flowsRequest (req : genericRequest) : GetFlowsRequest :=
  { togenericRequest := req, Whitelist := [], Blacklist := [], FieldMask := [],
    ExperimentalFieldMask := [] }

/-- The response `GetFlows` sends for `flowAt n`. -/
def flowResponse (n : Nat) : GetFlowsResponse :=
  { Time := some (tsec n), NodeName := "node"
    ResponseTypes := .Flow { Time := some (tsec n), NodeName := "node", Source := none,
                             Destination := none, Uuid := n } }

/-- No hooks. -/
def noHooks : Options World := { OnGetFlows := [], OnFlowDelivery := [] }

/-- The `eventsReader` of a follow query without filters, count limit or
time window. -/
def followReader : eventsReader :=
  { whitelist := [], blacklist := [], maxEvents := 0, follow := true, timeRange := false,
    eventCount := 0, since := none, until_ := none }

/-- The result of `eventsReader.Next` when it hands on what the ring
reader's `Next` returned: the error if there is one, `io.EOF` for a nil event,
the event otherwise. -/
def ofRingNext {σ : Type} (x : (Option Event × Option Error) × σ) : Except Error Event × σ :=
  match x with
  | ((_, some err), w1) => (.error err, w1)
  | ((none, none), w1) => (.error .EOF, w1)
  | ((some e, none), w1) => (.ok e, w1)

/-- The candidate passes the time-range stage of the loop body: no time range
is configured, or its timestamp is valid and not after `until`. -/
def eventsReader.ReachesFilters (r : eventsReader) (e : Event) : Prop :=
  r.timeRange = false ∨
    (Timestamp.CheckValid e.Timestamp = none ∧
      ∀ u, r.until_ = some u → Timestamp.AsTimeOpt e.Timestamp ≤ u)

/-- An `eventsReader` that is not in follow mode, with a whitelist that
accepts only flows with `Uuid` at most 1, no time window and no count limit. -/
def uuidAtMostOne : eventsReader :=
  { whitelist := [fun e => match e.Event with | .Flow f => decide (f.Uuid ≤ 1) | _ => false],
    blacklist := [], maxEvents := 0, follow := false, timeRange := false, eventCount := 0,
    since := none, until_ := none }

/-- The ring `R` holds the history `hist`: `hist` is the sequence of all
events written so far, and every sequence number of the last `cap` writes is
stored in its slot. -/
def Ring.Holds (R : Ring) (hist : List Event) : Prop :=
  R.write = hist.length ∧ R.data.length = R.cap ∧
    ∀ s, s < hist.length → hist.length ≤ s + R.cap →
      R.data.getD (s % R.cap) none = hist[s]?

/-- The state of a query on the ring `R` with the cursor at `p` and a live
context. -/
def World.at (R : Ring) (cause : Error) (p : Nat) : World :=
  { ring := R, idx := p, ctx := none, cause := cause }

/-- Repeated calls of `eventsReader.Next`, as a caller that only collects
makes them: the events returned, in order, up to the first error, and that
error. `k` is the fuel of each call, the next argument bounds the number of
calls. -/
def eventsReader.drain {σ : Type} (env : Env σ) (r : eventsReader) (k : Nat) :
    Nat → σ → Option (List Event × Error × σ)
  | 0, _ => none
  | n + 1, w =>
    match r.Next env k w with
    | none => none
    | some (.error err, w1) => some ([], err, w1)
    | some (.ok e, w1) =>
      match eventsReader.drain env r k n w1 with
      | none => none
      | some (es, err, w2) => some (e :: es, err, w2)

/-- The request of a query from the oldest event: `first` set, not `follow`,
`number = 0`, no time window. -/
def firstRequest : genericRequest :=
  { Number := 0, Follow := false, Since := none, Until := none, First := true }

/-- The loop body of `eventsReader.Next` returns `e` when no time range is
configured: `e` is a LostEvent or the filter chain accepts it. -/
def eventsReader.hit (r : eventsReader) (e : Event) : Bool :=
  e.isLostEvent || filters.Apply r.whitelist r.blacklist e

/-- The first event of a list that `eventsReader.hit` holds of, and the
sequence number after it, when the list starts at sequence number `p`. -/
def eventsReader.firstHit (r : eventsReader) : List Event → Nat → Option (Event × Nat)
  | [], _ => none
  | e :: l, p => if r.hit e then some (e, p + 1) else eventsReader.firstHit r l (p + 1)

/-- The events the rewind of `newRingReader` counts: not a LostEvent and
accepted by the filter chain, whatever the payload kind. -/
def counted (whitelist blacklist : FilterFuncs) (e : Event) : Bool :=
  !e.isLostEvent && filters.Apply whitelist blacklist e

/-- The number of Flow events of a list that the filter chain accepts. -/
def acceptedFlows (whitelist blacklist : FilterFuncs) (l : List Event) : Nat :=
  l.countP fun e => e.isFlow && filters.Apply whitelist blacklist e

/-- The events a ring of capacity `C` still holds after the writes `hist`:
the last `C` of them. -/
def readable (C : Nat) (hist : List Event) : List Event :=
  hist.drop (hist.length - C)

/-- The `eventsReader` of a non-follow query without time window: the given
filters, `maxEvents` and `eventCount`. -/
def numberReader (whitelist blacklist : FilterFuncs) (maxEvents eventCount : Nat) :
    eventsReader :=
  { whitelist := whitelist, blacklist := blacklist, maxEvents := maxEvents, follow := false,
    timeRange := false, eventCount := eventCount, since := none, until_ := none }

/-- The candidate of one pass of the loop of `eventsReader.Next` in state `w`
is `e`, read from the ring reader, which leaves the state `w1`: in follow
mode `NextFollow` returned `e`; otherwise the `maxEvents` check passed and
`Next` returned `e` and a nil error. -/
def eventsReader.Candidate {σ : Type} (env : Env σ) (r : eventsReader) (w : σ) (e : Event)
    (w1 : σ) : Prop :=
  (r.follow = true ∧ env.NextFollow w = (some e, w1)) ∨
  (r.follow = false ∧ ¬ (r.maxEvents > 0 ∧ r.eventCount ≥ r.maxEvents) ∧
    env.Next w = ((some e, none), w1))

/-- The instant of an event's ring timestamp is `t`, and the timestamp is
valid. -/
def Event.HasTime (e : Observer.Event) (t : Int) : Prop :=
  Timestamp.CheckValid e.Timestamp = none ∧ Timestamp.AsTimeOpt e.Timestamp = t

/-- The results of the first `k` calls of `Previous` on the current ring
reader, in order, and the state after them. -/
def Env.previousN {σ : Type} (env : Env σ) : Nat → σ → List (Option Event × Option Error) × σ
  | 0, w => ([], w)
  | k + 1, w =>
    match env.Previous w with
    | (r, w1) =>
      match Env.previousN env k w1 with
      | (rs, w2) => (r :: rs, w2)

/-- Lines 712 to 750 of `newRingReader`: a reader is created at
`LastWriteParallel()`, the loop rewinds it at most `Len()` times, and the
reader returned starts at the `idx` the loop ends with. -/
def newRingReader.rewound {σ : Type} (env : Env σ) (req : genericRequest)
    (whitelist blacklist : FilterFuncs) (sinceTime : Int) (w : σ) : Option Error × σ :=
  match newRingReader.rewind env req whitelist blacklist sinceTime
      (env.Len (env.NewRingReader (env.LastWriteParallel w) w)) (env.LastWriteParallel w) 0
      (env.NewRingReader (env.LastWriteParallel w) w) with
  | (.error err, w1) => (some err, w1)
  | (.ok idx, w1) => (none, env.NewRingReader idx w1)

/-- A flows request with the given generic part and whitelist expressions. -/
def flowsRequestWith (req : genericRequest) (whitelist : List Nat) : GetFlowsRequest :=
  { togenericRequest := req, Whitelist := whitelist, Blacklist := [], FieldMask := [],
    ExperimentalFieldMask := [] }

/-- The response `GetFlows` sends for `lostAt n`. -/
def lostResponse (n : Nat) : GetFlowsResponse :=
  { Time := some (tsec n), NodeName := "node"
    ResponseTypes := .LostEvents { Source := .PERF_EVENT_RING_BUFFER, NumEventsLost := 1 } }

/-- A debug event with ring timestamp `n` seconds. -/
def debugAt (n : Nat) : Event :=
  { Timestamp := some (tsec n), Event := .DebugEvent n }

/-! ## The ingest loop -/

/-- The type `observerTypes.MonitorEvent`, opaque to the observer. -/
structure MonitorEvent where
  Id : Nat
  deriving DecidableEq, Repr

/-- The error `payloadParser.Decode` returns, as the `switch` of `Start`
classifies it: `errors.Is(err, parserErrors.ErrUnknownEventType)`,
`errors.Is(err, parserErrors.ErrEventSkipped)`,
`parserErrors.IsErrInvalidType(err)`, and any other error. -/
inductive DecodeError where
  | ErrUnknownEventType
  | ErrEventSkipped
  | ErrInvalidType
  | Other (err : Error)
  deriving DecidableEq, Repr

/-- The message `observerpb.Namespace`. -/
structure Namespace where
  Namespace : String
  Cluster : String
  deriving DecidableEq, Repr

/-- The level of a log call of the ingest loop. -/
inductive LogLevel where
  | Debug
  | Info
  | Warn
  deriving DecidableEq, Repr

/-- A call of `s.log.Info`, `s.log.Debug` or `s.log.Warn`: the message and the
error logged. -/
structure LogEntry where
  level : LogLevel
  msg : String
  err : Error
  deriving DecidableEq, Repr

/-- The collaborators of the ingest loop that are not part of
`local_observer.go`, taken as parameters. The state `η` is everything the
hooks and the decoder can observe or change. `Decode` is
`s.payloadParser.Decode`, which returns an event or an error; `ClusterName`
is `nodeTypes.GetClusterName()`. -/
structure IngestEnv (η : Type) where
  Decode : MonitorEvent → η → Except DecodeError Event × η
  ClusterName : String

/-- The hook chains of `observeroption.Options` that `Start` runs. A hook
returns `(stop, err)`. -/
structure IngestOptions (η : Type) where
  OnMonitorEvent : List (MonitorEvent → η → (Bool × Option Error) × η)
  OnDecodedFlow : List (Flow → η → (Bool × Option Error) × η)
  OnDecodedEvent : List (Event → η → (Bool × Option Error) × η)

/-- The struct `LocalObserverServer`, as the ingest loop sees it. `ring` is
the sequence of events passed to `Write` of the ring buffer,
`namespaceManager` the sequence of arguments of `AddNamespace`, `log` the
log calls made, `stopped` whether the channel `stopped` is closed, `ext` the
state of the hooks and the decoder. `decoded` is not a field of the source:
it records the events `Decode` has returned, in order. -/
structure LocalObserverServer (η : Type) where
  ext : η
  ring : List Event
  numObservedFlows : Nat
  namespaceManager : List Namespace
  log : List LogEntry
  decoded : List Event
  stopped : Bool

/-- The statement `if err != nil { s.log.Info(msg, ...) }` after a hook call. -/
def logHookError (msg : String) (log : List LogEntry) : Option Error → List LogEntry
  | some e => log ++ [⟨.Info, msg, e⟩]
  | none => log

/-- The `switch` on a decode error (lines 141 to 155): the three recognized
errors are ignored, any other error is logged at debug level. -/
def logDecodeError (log : List LogEntry) : DecodeError → List LogEntry
  | .Other e => log ++ [⟨.Debug, "failed to decode payload", e⟩]
  | _ => log

/-- The three hook loops of `Start` (lines 125 to 137, 162 to 174 and 179 to
191), which differ in the hook chain and the log message: each hook runs in
the order of the chain, a non-nil error is logged at info level, and the
first hook that returns `stop` ends the loop. The result is whether a hook
asked to stop (`continue nextEvent`), the state and the log. -/
def runHooks {α η : Type} (msg : String) :
    List (α → η → (Bool × Option Error) × η) → α → η → List LogEntry →
      Bool × η × List LogEntry
  | [], _, h, log => (false, h, log)
  | f :: fs, x, h, log =>
    match f x h with
    | ((stop, err), h1) =>
      let log1 := logHookError msg log err
      if stop then (true, h1, log1) else runHooks msg fs x h1 log1

/-- The getter chain `flow.GetSource().GetNamespace()`, nil-safe. -/
def Endpoint.GetNamespace : Option Endpoint → String
  | some e => e.Namespace
  | none => ""

/-- The method `LocalObserverServer.trackNamespaces`. -/
def LocalObserverServer.trackNamespaces {η : Type} (env : IngestEnv η)
    (s : LocalObserverServer η) (flow : Flow) : LocalObserverServer η :=
  let srcNs := Endpoint.GetNamespace flow.Source
  let s1 :=
    if srcNs ≠ "" then
      { s with namespaceManager := s.namespaceManager ++ [⟨srcNs, env.ClusterName⟩] }
    else s
  let dstNs := Endpoint.GetNamespace flow.Destination
  if dstNs ≠ "" then
    { s1 with namespaceManager := s1.namespaceManager ++ [⟨dstNs, env.ClusterName⟩] }
  else s1

/-- Lines 179 to 192 of `Start`: the `OnDecodedEvent` hooks and the write to
the ring. -/
def LocalObserverServer.writeDecoded {η : Type} (opts : IngestOptions η)
    (s : LocalObserverServer η) (ev : Event) : LocalObserverServer η :=
  match runHooks "failed in OnDecodedEvent" opts.OnDecodedEvent ev s.ext s.log with
  | (true, h, log) => { s with ext := h, log := log }
  | (false, h, log) => { s with ext := h, log := log, ring := s.ring ++ [ev] }

/-- The body of the `for` loop of `Start` (lines 125 to 192), for one monitor
event. -/
def LocalObserverServer.handle {η : Type} (env : IngestEnv η) (opts : IngestOptions η)
    (s : LocalObserverServer η) (monitorEvent : MonitorEvent) : LocalObserverServer η :=
  match runHooks "failed in OnMonitorEvent" opts.OnMonitorEvent monitorEvent s.ext s.log with
  | (true, h, log) => { s with ext := h, log := log }
  | (false, h, log) =>
    match env.Decode monitorEvent h with
    | (.error err, h1) => { s with ext := h1, log := logDecodeError log err }
    | (.ok ev, h1) =>
      let s1 := { s with ext := h1, log := log, decoded := s.decoded ++ [ev] }
      match ev.Event with
      | .Flow flow =>
        let s2 := s1.trackNamespaces env flow
        match runHooks "failed in OnDecodedFlow" opts.OnDecodedFlow flow s2.ext s2.log with
        | (true, h2, log2) => { s2 with ext := h2, log := log2 }
        | (false, h2, log2) =>
          LocalObserverServer.writeDecoded opts
            { s2 with ext := h2, log := log2, numObservedFlows := inc64 s2.numObservedFlows } ev
      | _ => LocalObserverServer.writeDecoded opts s1 ev

/-- The `for` loop of `Start` over the monitor events received from the
channel, in order. -/
def LocalObserverServer.ingest {η : Type} (env : IngestEnv η) (opts : IngestOptions η)
    (s : LocalObserverServer η) (events : List MonitorEvent) : LocalObserverServer η :=
  events.foldl (LocalObserverServer.handle env opts) s

/-- The method `LocalObserverServer.Start`, for a channel that delivers
`events` and is then closed: the loop, then `close(s.GetStopped())`. -/
def LocalObserverServer.Start {η : Type} (env : IngestEnv η) (opts : IngestOptions η)
    (s : LocalObserverServer η) (events : List MonitorEvent) : LocalObserverServer η :=
  { LocalObserverServer.ingest env opts s events with stopped := true }

/-- The server as `NewLocalServer` leaves it: nothing written, counted,
tracked or logged. -/
def LocalObserverServer.fresh {η : Type} (h : η) : LocalObserverServer η :=
  { ext := h, ring := [], numObservedFlows := 0, namespaceManager := [], log := [],
    decoded := [], stopped := false }

/-- The number of Flow events of a list. -/
def flowCount (l : List Event) : Nat := l.countP Event.isFlow

/-- Two hooks return the same `stop` flag and leave the same state on every
input; their errors may differ. -/
def SameStop {α η : Type} (f g : α → η → (Bool × Option Error) × η) : Prop :=
  ∀ x h, (f x h).1.1 = (g x h).1.1 ∧ (f x h).2 = (g x h).2

/-- Everything of the server but its log. -/
def LocalObserverServer.effects {η : Type} (s : LocalObserverServer η) :
    η × List Event × Nat × List Namespace × List Event × Bool :=
  (s.ext, s.ring, s.numObservedFlows, s.namespaceManager, s.decoded, s.stopped)

/-- A decoder for the examples, which records its calls: event 0 is of an
unknown type, event 1 fails to decode, event 2 is an agent event, any other
event `n` is the flow `flowAt n`. -/
def decodeTest : MonitorEvent → List String → Except DecodeError Event × List String :=
  fun m h =>
    (match m.Id with
      | 0 => .error .ErrUnknownEventType
      | 1 => .error (.Other (.Other 1))
      | 2 => .ok (agentAt 2)
      | n + 3 => .ok (flowAt (n + 3)),
     h ++ ["Decode"])

/-- The ingest environment of the examples. -/
def testIngest : IngestEnv (List String) := { Decode := decodeTest, ClusterName := "default" }

/-- A hook for the examples that records its name and returns the given
`stop` and `err`. -/
def namedHook {α : Type} (name : String) (stop : Bool) (err : Option Error) :
    α → List String → (Bool × Option Error) × List String :=
  fun _ h => ((stop, err), h ++ [name])

/-- A flow with the given source and destination namespaces. -/
def flowBetween (src dst : Option String) : Flow :=
  { Time := none, NodeName := "node", Source := src.map Endpoint.mk,
    Destination := dst.map Endpoint.mk, Uuid := 0 }

/-! ## Status and flow rate -/

/-- The Go type `float64`, an IEEE-754 binary64 number. Every finite
`float64` is an integer multiple of `2^-1074`, the smallest positive
`float64`: `Finite v` is the number `v * 2^-1074`, so `Finite 0` is zero and
`Finite (2 ^ 1074)` is one. The sign of zero is not kept: no operand of the
divisions in the observer is a negative zero. -/
inductive Float64 where
  | Finite (v : Int)
  | PosInf
  | NegInf
  | NaN
  deriving DecidableEq, Repr

/-- The position of the leading binary digit of `n`, for `0 < n < 2^4096`:
the largest `l` with `2^l ≤ n`, found by bisection; 0 for `n = 0`. -/
def Float64.log2 (n : Nat) : Nat :=
  [2048, 1024, 512, 256, 128, 64, 32, 16, 8, 4, 2, 1].foldl
    (fun l j => if 1 <<< (l + j) ≤ n then l + j else l) 0

/-- The `float64` nearest to the rational `a / d` (`0 < d`), negated when
`neg` is set: IEEE-754 rounding to nearest, ties to even, which Go uses for
conversions and arithmetic. In units of `2^-1074` the number is `n / d` with
`n = a * 2^1074`; with `l` the position of its leading binary digit, the
`float64` values around it are the multiples of `2^s`, `s = l - 52` (of 1
below `2^52`, the subnormal numbers), 53 significant digits. The quotient
`q` of `n` by `d * 2^s` is rounded up when the remainder `r` is more than
half the divisor, or is half of it and `q` is odd. Numbers that round to
`2^1024` or more become an infinity. -/
def Float64.round (neg : Bool) (a d : Nat) : Float64 :=
  let n := a <<< 1074
  let inf : Float64 := if neg then .NegInf else .PosInf
  if 1 <<< 2098 ≤ n / d then inf
  else
    let s := Float64.log2 (n / d) - 52
    let q := n / (d <<< s)
    let r := n % (d <<< s)
    let m := if d <<< s < 2 * r ∨ (2 * r = d <<< s ∧ q % 2 = 1) then q + 1 else q
    if 1 <<< 2098 ≤ m <<< s then inf
    else .Finite (if neg then -((m <<< s : Nat) : Int) else ((m <<< s : Nat) : Int))

/-- The conversion `float64(n)` of an integer. -/
def Float64.ofInt (n : Int) : Float64 :=
  Float64.round (decide (n < 0)) n.natAbs 1

/-- The sum `x + y` of two `float64`. -/
def Float64.add : Float64 → Float64 → Float64
  | .Finite a, .Finite b => Float64.round (decide (a + b < 0)) (a + b).natAbs (1 <<< 1074)
  | .NaN, _ => .NaN
  | _, .NaN => .NaN
  | .PosInf, .NegInf => .NaN
  | .NegInf, .PosInf => .NaN
  | .PosInf, _ => .PosInf
  | .NegInf, _ => .NegInf
  | _, .PosInf => .PosInf
  | _, .NegInf => .NegInf

/-- The quotient `x / y` of two `float64`. A zero divisor is a positive
zero. -/
def Float64.div : Float64 → Float64 → Float64
  | .Finite a, .Finite b =>
    if b = 0 then
      if a = 0 then .NaN else if a < 0 then .NegInf else .PosInf
    else Float64.round (decide ((a < 0) ≠ (b < 0))) a.natAbs b.natAbs
  | .NaN, _ => .NaN
  | _, .NaN => .NaN
  | .Finite _, _ => .Finite 0
  | .PosInf, .Finite b => if b < 0 then .NegInf else .PosInf
  | .NegInf, .Finite b => if b < 0 then .PosInf else .NegInf
  | _, _ => .NaN

/-- Whether the `float64` is exactly the rational `n / d` (`d ≠ 0`). -/
def Float64.isRatio (x : Float64) (n d : Int) : Bool :=
  match x with
  | .Finite v => decide (v * d = n * ((1 <<< 1074 : Nat) : Int))
  | _ => false

/-- The `float64` with the value `m * 2^e`, for `-1074 ≤ e` and `m` of at
most 53 binary digits. -/
def Float64.dyadic (m : Int) (e : Int) : Float64 :=
  .Finite (m * ((1 <<< (e + 1074).toNat : Nat) : Int))

/-- The constant `time.Minute`, a `time.Duration` in nanoseconds. -/
def Minute : Int := 60 * 1000000000

/-- The smallest `time.Duration`, an `int64`. -/
def minDuration : Int := -(2 ^ 63)

/-- The largest `time.Duration`, an `int64`. -/
def maxDuration : Int := 2 ^ 63 - 1

/-- The method `time.Time.Sub` of the Go library: the duration `t - u`, and
the smallest or largest duration when `t - u` does not fit an `int64`. -/
def Time.Sub (t u : Int) : Int :=
  if t - u < minDuration then minDuration
  else if maxDuration < t - u then maxDuration
  else t - u

/-- The method `time.Duration.Seconds` of the Go library:
`sec := d / Second; nsec := d % Second;
return float64(sec) + float64(nsec)/1e9`, with the truncating division and
remainder of Go. -/
def Duration.Seconds (d : Int) : Float64 :=
  Float64.add (Float64.ofInt (d.tdiv 1000000000))
    (Float64.div (Float64.ofInt (d.tmod 1000000000)) (Float64.ofInt 1000000000))

/-- The `for` loop of `getFlowRate` (lines 758 to 789), over `count`, `since`
and `lastSeenEvent`. Each unit of fuel pays for one pass. The result is
`count` and `since` when the loop is left by `break`, or the error the
function returns. `count` is a Go `int`, which a scan cannot overflow. -/
def getFlowRate.scan {σ : Type} (env : Env σ) :
    Nat → Nat → Int → Option Event → σ → Option (Except Error (Nat × Int) × σ)
  | 0, _, _, _, _ => none
  | fuel + 1, count, since, lastSeenEvent, w =>
    match env.Previous w with
    | ((e, err), w1) =>
      if isRingOverrun e then
        match lastSeenEvent with
        | some l => some (.ok (count, Timestamp.AsTimeOpt l.Timestamp), w1)
        | none => some (.ok (count, since), w1)
      else if err = some .EOF then some (.ok (count, since), w1)
      else
        match err with
        | some err => some (.error err, w1)
        | none =>
          match e with
          | none => some (.error .Panic, w1)
          | some e =>
            if !e.isFlow then getFlowRate.scan env fuel count since lastSeenEvent w1
            else
              match Timestamp.CheckValid e.Timestamp with
              | some err => some (.error err, w1)
              | none =>
                if Timestamp.AsTimeOpt e.Timestamp < since then some (.ok (count, since), w1)
                else getFlowRate.scan env fuel (count + 1) since (some e) w1

/-- The function `getFlowRate`. `at_` is its parameter `at`, a reserved word
here. The result is the pair it returns and the environment state. -/
def getFlowRate {σ : Type} (env : Env σ) (fuel : Nat) (at_ : Int) (w : σ) :
    Option ((Float64 × Option Error) × σ) :=
  match getFlowRate.scan env fuel 0 (at_ - Minute) none
      (env.NewRingReader (env.LastWriteParallel w) w) with
  | none => none
  | some (.error err, w1) => some ((.Finite 0, some err), w1)
  | some (.ok (count, since), w1) =>
    some ((Float64.div (Float64.ofInt count) (Duration.Seconds (Time.Sub at_ since)), none), w1)

/-- The message `observerpb.ServerStatusResponse`, with the fields
`ServerStatus` sets. -/
structure ServerStatusResponse where
  Version : String
  MaxFlows : Nat
  NumFlows : Nat
  SeenFlows : Nat
  UptimeNs : Nat
  FlowsRate : Float64
  deriving DecidableEq, Repr

/-- What `ServerStatus` has done when it returns: the response and the error
it returns, the log calls it made and the environment state. -/
structure StatusOutcome (σ : Type) where
  resp : Option ServerStatusResponse
  err : Option Error
  log : List LogEntry
  world : σ

/-- The method `LocalObserverServer.ServerStatus`. `version` is
`build.ServerVersion.String()`, `startTime` and `numObservedFlows` are the
fields of the server, `now` is the value of `time.Now()` passed to
`getFlowRate` and `later` the one read by `time.Since(s.startTime)`. -/
def ServerStatus {σ : Type} (env : Env σ) (version : String) (startTime : Int)
    (numObservedFlows : Nat) (fuel : Nat) (now later : Int) (w : σ) :
    Option (StatusOutcome σ) :=
  match getFlowRate env fuel now w with
  | none => none
  | some ((rate, err), w1) =>
    let log : List LogEntry :=
      match err with
      | some e => [⟨.Warn, "Failed to get flow rate", e⟩]
      | none => []
    some
      { resp := some
          { Version := version
            MaxFlows := env.Cap w1
            NumFlows := env.Len w1
            SeenFlows := numObservedFlows
            UptimeNs := ((Time.Sub later startTime) % 2 ^ 64).toNat
            FlowsRate := rate }
        err := none
        log := log
        world := w1 }

/-- A flow event whose ring timestamp is invalid (negative nanos). -/
def badFlow : Event :=
  { Timestamp := some { Seconds := 0, Nanos := -1 }
    Event := .Flow { Time := none, NodeName := "node", Source := none, Destination := none,
                     Uuid := 0 } }

/-- The test `status.Code(err) == codes.InvalidArgument` of the gRPC library:
the code of an error built by `status.Errorf` is the code given to it, and
any other error has the code `Unknown`. -/
def Error.isInvalidArgument : Error → Bool
  | .Status .InvalidArgument _ => true
  | _ => false

/-- The subtraction `x - y` on `uint64`. -/
def sub64 (x y : Nat) : Nat := (x + (2 ^ 64 - y % 2 ^ 64)) % 2 ^ 64

/-- The rewind of `newRingReader` goes on after reading `x` when `since` is
set: `x` is not a ring-overrun marker, and when it is counted (not a
LostEvent, accepted by the filters) its timestamp is valid and not before
`sinceTime`. -/
def newRingReader.inRange (whitelist blacklist : FilterFuncs) (sinceTime : Int) (x : Event) :
    Bool :=
  !isRingOverrun (some x) &&
    (!counted whitelist blacklist x ||
      (decide (Timestamp.CheckValid x.Timestamp = none) &&
        decide (sinceTime ≤ Timestamp.AsTimeOpt x.Timestamp)))

/-- Delivery hooks for the examples: one hook that stops every flow. -/
def stopEveryFlow : Options World :=
  { OnGetFlows := [], OnFlowDelivery := [fun _ w => ((true, none), w)] }

/-- The `lastSeenEvent` of `getFlowRate` after the scan has read the events
`pre`, all of which it skipped or counted: the last Flow among them, and
`last` when there is none. -/
def lastSeen (last : Option Event) (pre : List Event) : Option Event :=
  pre.foldl (fun acc x => if x.isFlow then some x else acc) last

/-- The scan of `getFlowRate` goes on after reading `x`: `x` is not a
ring-overrun marker, and when it is a Flow its timestamp is valid and not
before `since`. -/
def getFlowRate.inMinute (since : Int) (x : Event) : Bool :=
  !isRingOverrun (some x) &&
    (!x.isFlow ||
      (decide (Timestamp.CheckValid x.Timestamp = none) &&
        decide (since ≤ Timestamp.AsTimeOpt x.Timestamp)))

/-! ## The ingest loop, as the sequence of surviving events -/

/-- Whether a hook chain stops its argument, and the state the hooks leave. -/
def stops {α η : Type} (hooks : List (α → η → (Bool × Option Error) × η)) (x : α) (h : η) :
    Bool × η :=
  ((runHooks "" hooks x h []).1, (runHooks "" hooks x h []).2.1)

/-- What becomes of one raw event: the decoded event when no `OnMonitorEvent`
hook stops the raw event, it decodes, no `OnDecodedFlow` hook stops it (for
a Flow) and no `OnDecodedEvent` hook stops it; nothing otherwise. The second
component is the state of the hooks and the decoder afterwards. -/
def survivor {η : Type} (env : IngestEnv η) (opts : IngestOptions η) (m : MonitorEvent)
    (h : η) : Option Event × η :=
  match stops opts.OnMonitorEvent m h with
  | (true, h1) => (none, h1)
  | (false, h1) =>
    match env.Decode m h1 with
    | (.error _, h2) => (none, h2)
    | (.ok ev, h2) =>
      match (match ev.Event with
        | .Flow flow => stops opts.OnDecodedFlow flow h2
        | _ => (false, h2)) with
      | (true, h3) => (none, h3)
      | (false, h3) =>
        match stops opts.OnDecodedEvent ev h3 with
        | (true, h4) => (none, h4)
        | (false, h4) => (some ev, h4)

/-- The surviving events of a sequence of raw events, in channel order. -/
def survivors {η : Type} (env : IngestEnv η) (opts : IngestOptions η) :
    List MonitorEvent → η → List Event × η
  | [], h => ([], h)
  | m :: ms, h =>
    match survivor env opts m h with
    | (r, h1) =>
      match survivors env opts ms h1 with
      | (l, h2) => (r.toList ++ l, h2)

/-! ## The relay server -/

/-- The struct `options` of the relay server (`relay/server/option.go`, which
is not among the sources): the four fields `New` tests before it builds the
server, and `rest` for all other fields. A TLS configuration is opaque. -/
structure server.options where
  clientTLSConfig : Option Nat
  serverTLSConfig : Option Nat
  insecureClient : Bool
  insecureServer : Bool
  rest : Nat
  deriving DecidableEq, Repr

/-- The type `Option` of the relay server, `func(o *options) error`: the
error returned and the options as the function leaves them. -/
abbrev server.Option_ := server.options → Option Error × server.options

/-- The errors `New` returns. `ErrNoClientTLSConfig` and
`ErrNoServerTLSConfig` are the two variables of the package; `ApplyOption` is
`fmt.Errorf("failed to apply option: %w", err)`; `Build` is an error of the
construction that follows the checks (`pool.NewPeerManager`,
`observer.NewServer`), which comes from packages the relay server imports and
so is neither of the two variables. -/
inductive server.Failure where
  | ErrNoClientTLSConfig
  | ErrNoServerTLSConfig
  | ApplyOption (err : Error)
  | Build (err : Error)
  deriving DecidableEq, Repr

/-- The loop of `New` over the options (lines 65 to 69): each is applied in
order to the options so far, and the first error ends the loop. -/
def server.applyOptions :
    List server.Option_ → server.options → Except Error server.options
  | [], opts => .ok opts
  | opt :: rest, opts =>
    match opt opts with
    | (some err, _) => .error err
    | (none, opts1) => server.applyOptions rest opts1

/-- The function `New` of the relay server. `defaultOptions` and
`DefaultOptions` are the two package variables of `option.go`; `construct`
is the construction of the `Server` from the checked options (lines 77 to
151), made of calls into other packages; `S` is the type `Server`. -/
def server.New {S : Type} (defaultOptions : server.options)
    (DefaultOptions : List server.Option_) (construct : server.options → Except Error S)
    (options : List server.Option_) : Except server.Failure S :=
  match server.applyOptions (options ++ DefaultOptions) defaultOptions with
  | .error err => .error (.ApplyOption err)
  | .ok opts =>
    if opts.clientTLSConfig.isNone && !opts.insecureClient then .error .ErrNoClientTLSConfig
    else if opts.serverTLSConfig.isNone && !opts.insecureServer then .error .ErrNoServerTLSConfig
    else
      match construct opts with
      | .error err => .error (.Build err)
      | .ok s => .ok s

/-- Options without TLS configuration and without the insecure flags. -/
def server.noTLS : server.options :=
  { clientTLSConfig := none, serverTLSConfig := none, insecureClient := false,
    insecureServer := false, rest := 0 }

/-- An option that sets the insecure-client flag. -/
def server.setInsecureClient : server.Option_ :=
  fun o => (none, { o with insecureClient := true })

/-- An option that sets the insecure-server flag. -/
def server.setInsecureServer : server.Option_ :=
  fun o => (none, { o with insecureServer := true })

/-- An option that sets a client TLS configuration. -/
def server.setClientTLS (c : Nat) : server.Option_ :=
  fun o => (none, { o with clientTLSConfig := some c })

/-- An option that sets a server TLS configuration. -/
def server.setServerTLS (c : Nat) : server.Option_ :=
  fun o => (none, { o with serverTLSConfig := some c })

/-- An option that fails. -/
def server.failing (tag : Nat) : server.Option_ :=
  fun o => (some (.Other tag), o)

/-! ## Theorems -/

section Lemmas

variable {σ : Type}

theorem eventsReader.read_of_candidate (env : Env σ) (r : eventsReader) (w w1 : σ) (e : Event)
    (h : r.Candidate env w e w1) : r.read env w = (.ok e, w1) := by
  rcases h with ⟨hf, hn⟩ | ⟨hf, hc, hn⟩
  · simp [eventsReader.read, hf, hn]
  · simp only [eventsReader.read, hf, hn]
    simp [hc]

theorem eventsReader.candidate_of_read (env : Env σ) (r : eventsReader) (w w1 : σ) (e : Event)
    (h : r.read env w = (.ok e, w1)) : r.Candidate env w e w1 := by
  unfold eventsReader.read at h
  unfold eventsReader.Candidate
  by_cases hf : r.follow = true
  · left
    refine ⟨hf, ?_⟩
    simp only [hf, if_true] at h
    rcases hN : env.NextFollow w with ⟨_ | e', w'⟩
    · simp [hN] at h
    · simp [hN] at h
      rw [h.1, h.2]
  · right
    have hf' : r.follow = false := by simpa using hf
    simp only [hf', Bool.false_eq_true, if_false] at h
    by_cases hc : r.maxEvents > 0 ∧ r.eventCount ≥ r.maxEvents
    · simp [hc] at h
    · refine ⟨hf', hc, ?_⟩
      simp only [hc, if_false] at h
      rcases hN : env.Next w with ⟨⟨_ | e', _ | err⟩, w'⟩ <;> simp [hN] at h
      rw [h.1, h.2]

theorem eventsReader.Next_step (env : Env σ) (r : eventsReader) (fuel : Nat) (w w1 : σ)
    (e : Event) (hctx : env.ctxErr w = none) (h : r.Candidate env w e w1) :
    r.Next env (fuel + 1) w =
      match r.examine e with
      | .Return => some (.ok e, w1)
      | .Fail err => some (.error err, w1)
      | .Continue => r.Next env fuel w1 := by
  have hr := eventsReader.read_of_candidate env r w w1 e h
  simp only [eventsReader.Next, hctx, hr]

theorem eventsReader.examine_lost (r : eventsReader) (e : Event) (h : e.isLostEvent = true) :
    r.examine e = .Return := by
  simp [eventsReader.examine, h]

theorem eventsReader.examine_return_accepts (r : eventsReader) (e : Event)
    (hl : e.isLostEvent = false) (h : r.examine e = .Return) :
    filters.Apply r.whitelist r.blacklist e = true := by
  unfold eventsReader.examine at h
  simp only [hl, Bool.not_false, if_true] at h
  by_contra hA
  have hA' : filters.Apply r.whitelist r.blacklist e = false := by simpa using hA
  split at h
  · split at h
    · cases h
    · split at h
      · cases h
      · split at h
        · cases h
        · simp [hA'] at h
  · simp [hA'] at h

theorem eventsReader.examine_return_time (r : eventsReader) (e : Event)
    (hl : e.isLostEvent = false) (ht : r.timeRange = true) (h : r.examine e = .Return) :
    Timestamp.CheckValid e.Timestamp = none ∧
      (∀ u, r.until_ = some u → Timestamp.AsTimeOpt e.Timestamp ≤ u) ∧
      (∀ s, r.since = some s → s ≤ Timestamp.AsTimeOpt e.Timestamp) := by
  unfold eventsReader.examine at h
  simp only [hl, Bool.not_false, if_true, ht] at h
  cases hv : Timestamp.CheckValid e.Timestamp with
  | some err => simp [hv] at h
  | none =>
    simp only [hv] at h
    refine ⟨rfl, ?_, ?_⟩
    · intro u hu
      simp only [hu] at h
      by_contra hgt
      have : Timestamp.AsTimeOpt e.Timestamp > u := by omega
      simp [this] at h
    · intro s hs
      simp only [hs] at h
      by_contra hlt
      have : Timestamp.AsTimeOpt e.Timestamp < s := by omega
      simp only [this, decide_True, if_true] at h
      split at h <;> cases h

theorem eventsReader.Next_ok_examine (env : Env σ) (r : eventsReader) :
    ∀ (fuel : Nat) (w w1 : σ) (e : Event),
      r.Next env fuel w = some (.ok e, w1) → r.examine e = .Return := by
  intro fuel
  induction fuel with
  | zero => intro w w1 e h; simp [eventsReader.Next] at h
  | succ n ih =>
    intro w w1 e h
    unfold eventsReader.Next at h
    cases hc : env.ctxErr w with
    | some err => simp [hc] at h
    | none =>
      simp only [hc] at h
      rcases hr : r.read env w with ⟨_ | e', w'⟩
      · simp [hr] at h
      · simp only [hr] at h
        cases hx : r.examine e' with
        | Return =>
          simp only [hx, Option.some.injEq, Prod.mk.injEq, Except.ok.injEq] at h
          rw [← h.1]; exact hx
        | Fail err => simp [hx] at h
        | Continue =>
          simp only [hx] at h
          exact ih w' w1 e h

theorem newEventsReader_fields (req : genericRequest) (wl bl : FilterFuncs) (r : eventsReader)
    (h : newEventsReader req wl bl = .ok r) :
    r.whitelist = wl ∧ r.blacklist = bl ∧ r.maxEvents = req.Number ∧ r.follow = req.Follow ∧
      r.timeRange = (req.Since.isSome || req.Until.isSome) ∧ r.eventCount = 0 ∧
      r.since = req.Since.map Timestamp.AsTime ∧ r.until_ = req.Until.map Timestamp.AsTime ∧
      (∀ s, req.Since = some s → Timestamp.CheckValid (some s) = none) ∧
      (∀ u, req.Until = some u → Timestamp.CheckValid (some u) = none) := by
  unfold newEventsReader at h
  rcases hs : req.Since with _ | s <;> rcases hu : req.Until with _ | u <;>
    simp only [hs, hu] at h
  · cases h; simp
  · cases hv : Timestamp.CheckValid (some u) with
    | some err => simp [hv] at h
    | none => simp only [hv] at h; cases h; simp [hv]
  · cases hv : Timestamp.CheckValid (some s) with
    | some err => simp [hv] at h
    | none => simp only [hv] at h; cases h; simp [hv]
  · cases hv : Timestamp.CheckValid (some s) with
    | some err => simp [hv] at h
    | none =>
      simp only [hv] at h
      cases hv' : Timestamp.CheckValid (some u) with
      | some err => simp [hv'] at h
      | none => simp only [hv'] at h; cases h; simp [hv, hv']

theorem filters.Apply_iff (wl bl : FilterFuncs) (e : Event) :
    filters.Apply wl bl e = true ↔
      (wl = [] ∨ ∃ f ∈ wl, f e = true) ∧ (bl = [] ∨ ∀ f ∈ bl, f e = false) := by
  simp only [filters.Apply, FilterFuncs.MatchOne, FilterFuncs.MatchNone, Bool.and_eq_true,
    Bool.or_eq_true, List.isEmpty_iff, List.any_eq_true, Bool.not_eq_true', List.any_eq_false,
    Bool.not_eq_true]

theorem eventsReader.examine_reject (r : eventsReader) (e : Event)
    (hl : e.isLostEvent = false) (hA : filters.Apply r.whitelist r.blacklist e = false)
    (ht : r.ReachesFilters e) : r.examine e = .Continue := by
  unfold eventsReader.examine
  simp only [hl, Bool.not_false, if_true, hA]
  rcases ht with ht | ⟨hv, hu⟩
  · simp [ht]
  · simp only [hv]
    have hno : (match r.until_ with
        | some u => decide (Timestamp.AsTimeOpt e.Timestamp > u) | none => false) = false := by
      cases hq : r.until_ with
      | none => rfl
      | some u =>
        have := hu u hq
        simp only [decide_eq_false_iff_not]
        omega
    split
    · simp [hno]
    · simp

theorem inc64_of_lt (x : Nat) (h : x + 1 < 2 ^ 64) : inc64 x = x + 1 := by
  unfold inc64
  exact Nat.mod_eq_of_lt h

theorem dec64_succ (x : Nat) (h : x + 1 < 2 ^ 64) : dec64 (x + 1) = x := by
  unfold dec64
  have : x + 1 + (2 ^ 64 - 1) = x + 2 ^ 64 := by omega
  rw [this, Nat.add_mod_right]
  exact Nat.mod_eq_of_lt (by omega)

theorem Nat.mod_ne_of_lt_of_lt (s W C : Nat) (h1 : s < W) (h2 : W < s + C) :
    W % C ≠ s % C := by
  intro h
  have h0 := Nat.sub_mod_eq_zero_of_mod_eq h
  have hd : C ∣ W - s := Nat.dvd_of_mod_eq_zero h0
  have := Nat.le_of_dvd (by omega) hd
  omega

theorem NewRing_holds (n : Nat) (now : Option Timestamp) : (NewRing n now).Holds [] := by
  refine ⟨rfl, by simp [NewRing], ?_⟩
  intro s hs
  simp at hs

theorem Ring.Write_holds (R : Ring) (hist : List Event) (e : Event) (h : R.Holds hist) :
    (R.Write e).Holds (hist ++ [e]) := by
  obtain ⟨hw, hl, hs⟩ := h
  refine ⟨by simp [Ring.Write, hw], by simp [Ring.Write, hl], ?_⟩
  intro s hs1 hs2
  simp only [List.length_append, List.length_singleton] at hs1 hs2
  have hcap : (R.Write e).cap = R.cap := rfl
  have hC : 0 < R.cap := by rw [hcap] at hs2; omega
  rw [hcap] at hs2 ⊢
  simp only [Ring.Write, List.getD_eq_getElem?_getD, List.getElem?_set, hw]
  by_cases hsW : s = hist.length
  · subst hsW
    have hlt : hist.length % R.cap < R.data.length := by
      rw [hl]; exact Nat.mod_lt _ hC
    simp [hlt]
  · have hlt : s < hist.length := by omega
    have hne := Nat.mod_ne_of_lt_of_lt s hist.length R.cap hlt (by omega)
    simp only [hne, if_false]
    have := hs s hlt (by omega)
    rw [List.getD_eq_getElem?_getD] at this
    rw [this, List.getElem?_append_left hlt]

theorem Ring.WriteAll_holds (es : List Event) :
    ∀ (R : Ring) (hist : List Event), R.Holds hist → (R.WriteAll es).Holds (hist ++ es) := by
  induction es with
  | nil => intro R hist h; simpa [Ring.WriteAll] using h
  | cons e es ih =>
    intro R hist h
    have h1 := ih (R.Write e) (hist ++ [e]) (Ring.Write_holds R hist e h)
    simpa [Ring.WriteAll] using h1

theorem Ring.Write_cap (R : Ring) (e : Event) : (R.Write e).cap = R.cap := rfl

theorem Ring.WriteAll_cap (es : List Event) : ∀ (R : Ring), (R.WriteAll es).cap = R.cap := by
  induction es with
  | nil => intro R; rfl
  | cons e es ih =>
    intro R
    have := ih (R.Write e)
    simpa [Ring.WriteAll] using this

theorem NewRing_WriteAll_holds (n : Nat) (now : Option Timestamp) (es : List Event) :
    ((NewRing n now).WriteAll es).Holds es ∧ ((NewRing n now).WriteAll es).cap = n := by
  refine ⟨?_, ?_⟩
  · simpa using Ring.WriteAll_holds es (NewRing n now) [] (NewRing_holds n now)
  · rw [Ring.WriteAll_cap]; rfl

theorem Ring.belowFloor_of_stored (R : Ring) (p : Nat) (h1 : R.write ≤ p + R.cap)
    (h2 : p < R.write) : R.belowFloor p = false := by
  unfold Ring.belowFloor
  rw [Bool.or_eq_false_iff]
  exact ⟨decide_eq_false (by omega), decide_eq_false (by omega)⟩

theorem Ring.belowFloor_of_ahead (R : Ring) (p : Nat) (h1 : R.write ≤ p)
    (h2 : p < R.write + 2 ^ 63) : R.belowFloor p = false := by
  unfold Ring.belowFloor
  rw [Bool.or_eq_false_iff]
  exact ⟨decide_eq_false (by omega), decide_eq_false (by omega)⟩

theorem Ring.Read_stored (R : Ring) (hist : List Event) (h : R.Holds hist) (p : Nat)
    (e : Event) (l : List Event) (hd : hist.drop p = e :: l) (hp : R.write - R.cap ≤ p) :
    R.Read p = (some e, none) := by
  obtain ⟨hw, hl, hs⟩ := h
  have hlt : p < hist.length := by
    by_contra hge
    rw [List.drop_eq_nil_of_le (by omega)] at hd
    cases hd
  have he : hist[p]? = some e := by
    have := List.getElem?_drop hist p 0
    rw [hd] at this
    simpa using this.symm
  have hb : R.belowFloor p = false := Ring.belowFloor_of_stored R p (by omega) (by omega)
  unfold Ring.Read
  have h1 : ¬ (p ≥ R.write) := by omega
  simp only [hb, h1, if_false, Bool.false_eq_true]
  rw [hs p hlt (by omega), he]

theorem Ring.Read_end (R : Ring) (hist : List Event) (h : R.Holds hist) (p : Nat)
    (hp : hist.length ≤ p) (hp2 : p < hist.length + 2 ^ 63) :
    R.Read p = (none, some .EOF) := by
  obtain ⟨hw, -, -⟩ := h
  have hb : R.belowFloor p = false := Ring.belowFloor_of_ahead R p (by omega) (by omega)
  unfold Ring.Read
  have h1 : p ≥ R.write := by omega
  simp [hb, h1]

theorem Ring.belowFloor_of_lost (R : Ring) (p : Nat) (hp : p + R.cap < R.write) :
    R.belowFloor p = true := by
  unfold Ring.belowFloor
  rw [Bool.or_eq_true]
  exact Or.inl (decide_eq_true hp)

theorem Ring.belowFloor_of_wrapped (R : Ring) (p : Nat) (hp : R.write + 2 ^ 63 ≤ p) :
    R.belowFloor p = true := by
  unfold Ring.belowFloor
  rw [Bool.or_eq_true]
  exact Or.inr (decide_eq_true hp)

theorem Ring.Read_below (R : Ring) (p : Nat) (hb : R.belowFloor p = true) :
    R.Read p = (some R.getLostEvent, none) := by
  rw [Ring.Read, hb]
  rfl

theorem Ring.Read_lost (R : Ring) (p : Nat) (hp : p + R.cap < R.write) :
    R.Read p = (some R.getLostEvent, none) :=
  Ring.Read_below R p (Ring.belowFloor_of_lost R p hp)

theorem Ring.Read_wrapped (R : Ring) (p : Nat) (hp : R.write + 2 ^ 63 ≤ p) :
    R.Read p = (some R.getLostEvent, none) :=
  Ring.Read_below R p (Ring.belowFloor_of_wrapped R p hp)

/-- On a ring that holds at least one event, a read one position before
`OldestWrite()` (position `2^64 - 1` when the ring has not wrapped) returns
the ring-overrun LostEvent, and the next position is `OldestWrite()`. -/
theorem Ring.Read_before_floor (R : Ring) (hist : List Event) (hR : R.Holds hist) (C : Nat)
    (hcap : R.cap = C) (h63 : hist.length < 2 ^ 63) (hne : hist ≠ []) :
    R.Read (dec64 (hist.length - C)) = (some R.getLostEvent, none) ∧
      inc64 (dec64 (hist.length - C)) = hist.length - C := by
  have hw : R.write = hist.length := hR.1
  have hW : 1 ≤ hist.length := by
    rcases Nat.eq_zero_or_pos hist.length with h | h
    · exact absurd (List.length_eq_zero.mp h) hne
    · exact h
  by_cases hC : C < hist.length
  · have hp : dec64 (hist.length - C) = hist.length - C - 1 := by
      have := dec64_succ (hist.length - C - 1) (by omega)
      rwa [Nat.sub_add_cancel (by omega)] at this
    rw [hp]
    refine ⟨Ring.Read_lost R _ (by rw [hw, hcap]; omega), ?_⟩
    rw [inc64_of_lt _ (by omega)]
    omega
  · have h0 : hist.length - C = 0 := by omega
    have hp : dec64 0 = 2 ^ 64 - 1 := by
      unfold dec64
      norm_num
    rw [h0, hp]
    refine ⟨Ring.Read_wrapped R _ (by rw [hw]; omega), ?_⟩
    unfold inc64
    norm_num

theorem List.drop_succ_of_drop_cons {α : Type} (hist : List α) (p : Nat) (e : α) (l : List α)
    (hd : hist.drop p = e :: l) : hist.drop (p + 1) = l := by
  have := List.drop_drop 1 p hist
  rw [hd] at this
  simpa using this.symm

theorem List.lt_length_of_drop_cons {α : Type} (hist : List α) (p : Nat) (e : α) (l : List α)
    (hd : hist.drop p = e :: l) : p + l.length + 1 = hist.length := by
  have := congrArg List.length hd
  simp only [List.length_drop, List.length_cons] at this
  omega

theorem eventsReader.examine_of_hit (r : eventsReader) (e : Event) (ht : r.timeRange = false) :
    r.examine e = if r.hit e then .Return else .Continue := by
  unfold eventsReader.examine eventsReader.hit
  cases hl : e.isLostEvent <;> cases hA : filters.Apply r.whitelist r.blacklist e <;>
    simp [ht]

/-- On a ring at rest and without a time range, a call of `Next` that passes
the count check returns the first event from the cursor on that is a
LostEvent or accepted by the filters, and `io.EOF` if there is none. -/
theorem eventsReader.Next_on_ring (build : List Nat → Except Error FilterFuncs)
    (newMask : List String → Except Error FieldMask) (nodeName : String) (R : Ring)
    (cause : Error) (hist : List Event) (hR : R.Holds hist) (h64 : hist.length < 2 ^ 64)
    (r : eventsReader) (hf : r.follow = false) (ht : r.timeRange = false)
    (hc : ¬ (r.maxEvents > 0 ∧ r.eventCount ≥ r.maxEvents)) :
    ∀ (l : List Event) (p k : Nat), hist.drop p = l → R.write - R.cap ≤ p →
      p ≤ hist.length → l.length + 1 ≤ k →
      r.Next (ringEnv build newMask nodeName) k (World.at R cause p) =
        some (match r.firstHit l p with
          | some (e, q) => (.ok e, World.at R cause q)
          | none => (.error .EOF, World.at R cause (p + l.length))) := by
  intro l
  induction l with
  | nil =>
    intro p k hd hp hple hk
    obtain ⟨k', rfl⟩ : ∃ k', k = k' + 1 := ⟨k - 1, by simp at hk; omega⟩
    have hlen : hist.length ≤ p := by
      by_contra hlt
      have := congrArg List.length hd
      simp only [List.length_drop, List.length_nil] at this
      omega
    have hread := Ring.Read_end R hist hR p hlen (by omega)
    simp [eventsReader.Next, eventsReader.read, ringEnv, World.at, World.Next, hf, hc, hread,
      eventsReader.firstHit]
  | cons e l ih =>
    intro p k hd hp _ hk
    obtain ⟨k', rfl⟩ : ∃ k', k = k' + 1 := ⟨k - 1, by simp at hk; omega⟩
    have hlen := List.lt_length_of_drop_cons hist p e l hd
    have hread := Ring.Read_stored R hist hR p e l hd hp
    have hinc : inc64 p = p + 1 := inc64_of_lt p (by omega)
    have hcand : r.Candidate (ringEnv build newMask nodeName) (World.at R cause p) e
        (World.at R cause (p + 1)) := by
      right
      refine ⟨hf, hc, ?_⟩
      simp [ringEnv, World.at, World.Next, hread, hinc]
    rw [eventsReader.Next_step _ r k' _ _ e rfl hcand, eventsReader.examine_of_hit r e ht]
    by_cases hh : r.hit e = true
    · simp [hh, eventsReader.firstHit]
    · have hh' : r.hit e = false := by simpa using hh
      simp only [hh', Bool.false_eq_true, if_false, eventsReader.firstHit]
      have := ih (p + 1) k' (List.drop_succ_of_drop_cons hist p e l hd) (by omega) (by omega)
        (by simp only [List.length_cons] at hk; omega)
      rw [this]
      have harith : p + 1 + l.length = p + (e :: l).length := by
        simp only [List.length_cons]; omega
      rw [harith]

theorem newEventsReader_plain (req : genericRequest) (wl bl : FilterFuncs)
    (hs : req.Since = none) (hu : req.Until = none) :
    newEventsReader req wl bl =
      .ok { whitelist := wl, blacklist := bl, maxEvents := req.Number, follow := req.Follow,
            timeRange := false, eventCount := 0, since := none, until_ := none } := by
  simp [newEventsReader, hs, hu]

theorem countP_counted_cons (wl bl : FilterFuncs) (e : Event) (l : List Event) :
    (e :: l).countP (counted wl bl) = l.countP (counted wl bl) +
      (if counted wl bl e = true then 1 else 0) :=
  List.countP_cons _ _ _

/-- The rewind of `newRingReader` on a ring at rest, without `since`: started
with `i` events left to read below the cursor and with every accepted event
above the cursor counted, it stops at the position from which exactly
`Number` counted events lie ahead, or, when the ring holds fewer, one
position before `OldestWrite()`. -/
theorem newRingReader.rewind_on_ring (build : List Nat → Except Error FilterFuncs)
    (newMask : List String → Except Error FieldMask) (nodeName : String) (R : Ring)
    (cause : Error) (hist : List Event) (hR : R.Holds hist) (h64 : hist.length < 2 ^ 64)
    (req : genericRequest) (wl bl : FilterFuncs) (sinceTime : Int)
    (hs : req.Since = none) (hN64 : req.Number < 2 ^ 64)
    (hover : ∀ e ∈ hist.drop (R.write - R.cap), isRingOverrun (some e) = false) :
    ∀ (i : Nat), R.write - R.cap + i ≤ hist.length →
      (hist.drop (R.write - R.cap + i)).countP (counted wl bl) < req.Number →
      ∃ p q, newRingReader.rewind (ringEnv build newMask nodeName) req wl bl sinceTime i
            (dec64 (R.write - R.cap + i))
            ((hist.drop (R.write - R.cap + i)).countP (counted wl bl))
            (World.at R cause (dec64 (R.write - R.cap + i))) =
          (.ok p, World.at R cause q) ∧
        (((hist.drop (R.write - R.cap)).countP (counted wl bl) < req.Number ∧
            p = dec64 (R.write - R.cap)) ∨
          (R.write - R.cap ≤ p ∧ p < hist.length ∧
            (hist.drop p).countP (counted wl bl) = req.Number)) := by
  intro i
  induction i with
  | zero =>
    intro _ hc
    exact ⟨_, _, rfl, Or.inl ⟨by simpa using hc, rfl⟩⟩
  | succ i ih =>
    intro hi hc
    have hlt : R.write - R.cap + i < hist.length := by omega
    have hd := List.drop_eq_getElem_cons hlt
    generalize hist[R.write - R.cap + i] = e at hd
    have hd1 : hist.drop (R.write - R.cap + (i + 1)) = hist.drop (R.write - R.cap + i + 1) := rfl
    rw [hd1] at hc ⊢
    generalize hist.drop (R.write - R.cap + i + 1) = l at hd hc ⊢
    have hcur : dec64 (R.write - R.cap + (i + 1)) = R.write - R.cap + i :=
      dec64_succ (R.write - R.cap + i) (by omega)
    rw [hcur]
    have hread := Ring.Read_stored R hist hR _ e l hd (by omega)
    have hmem : e ∈ hist.drop (R.write - R.cap) := by
      have h1 : e ∈ hist.drop (R.write - R.cap + i) := by rw [hd]; exact List.mem_cons_self _ _
      rw [← List.drop_drop] at h1
      exact List.mem_of_mem_drop h1
    have hov := hover e hmem
    have hnl : R.belowFloor (R.write - R.cap + i) = false :=
      Ring.belowFloor_of_stored R _ (by omega) (by have := hR.1; omega)
    have hprev : (ringEnv build newMask nodeName).Previous
        (World.at R cause (R.write - R.cap + i)) =
        ((some e, none), World.at R cause (dec64 (R.write - R.cap + i))) := by
      simp [ringEnv, World.Previous, World.at, hread, hnl]
    have hcount := countP_counted_cons wl bl e l
    rw [hd] at ih
    by_cases hce : counted wl bl e = true
    · have hce' : (e.isLostEvent || !filters.Apply wl bl e) = false := by
        simp only [counted, Bool.and_eq_true, Bool.not_eq_true'] at hce
        simp [hce.1, hce.2]
      have hinc : inc64 (l.countP (counted wl bl)) = l.countP (counted wl bl) + 1 :=
        inc64_of_lt _ (by omega)
      simp only [hce, if_true] at hcount
      by_cases hN : l.countP (counted wl bl) + 1 = req.Number
      · refine ⟨R.write - R.cap + i, dec64 (R.write - R.cap + i), ?_, Or.inr ⟨by omega, hlt, ?_⟩⟩
        · simp [newRingReader.rewind, hprev, hov, hce', hinc, hs, hN]
        · rw [hd, hcount]; exact hN
      · obtain ⟨p, q, hrw, hres⟩ := ih (by omega) (by rw [hcount]; omega)
        refine ⟨p, q, ?_, hres⟩
        rw [hcount] at hrw
        simp [newRingReader.rewind, hprev, hov, hce', hinc, hs, hN, hrw]
    · have hce' : (e.isLostEvent || !filters.Apply wl bl e) = true := by
        simp only [counted, Bool.and_eq_true, Bool.not_eq_true', not_and,
          Bool.not_eq_false] at hce
        cases hl : e.isLostEvent
        · simp [hce hl]
        · simp
      simp only [hce, Bool.false_eq_true, if_false, Nat.add_zero] at hcount
      obtain ⟨p, q, hrw, hres⟩ := ih (by omega) (by rw [hcount]; exact hc)
      refine ⟨p, q, ?_, hres⟩
      rw [hcount] at hrw
      simp [newRingReader.rewind, hprev, hov, hce', hrw]

theorem eventsReader.firstHit_none (r : eventsReader) :
    ∀ (l : List Event) (p : Nat), r.firstHit l p = none →
      l.countP (counted r.whitelist r.blacklist) = 0 := by
  intro l
  induction l with
  | nil => intro p _; rfl
  | cons x l ih =>
    intro p h
    unfold eventsReader.firstHit at h
    by_cases hx : r.hit x = true
    · simp [hx] at h
    · simp only [hx, if_false] at h
      have hx' : counted r.whitelist r.blacklist x = false := by
        simp only [eventsReader.hit, Bool.or_eq_true, not_or, Bool.not_eq_true] at hx
        simp [counted, hx.2]
      rw [List.countP_cons, ih (p + 1) h, hx']
      simp

theorem eventsReader.firstHit_some (r : eventsReader) :
    ∀ (l : List Event) (p : Nat) (e : Event) (q : Nat), r.firstHit l p = some (e, q) →
      p < q ∧ q ≤ p + l.length ∧ r.hit e = true ∧ e ∈ l ∧
        l.countP (counted r.whitelist r.blacklist) =
          (l.drop (q - p)).countP (counted r.whitelist r.blacklist) +
            (if counted r.whitelist r.blacklist e = true then 1 else 0) := by
  intro l
  induction l with
  | nil => intro p e q h; simp [eventsReader.firstHit] at h
  | cons x l ih =>
    intro p e q h
    unfold eventsReader.firstHit at h
    by_cases hx : r.hit x = true
    · simp only [hx, if_true, Option.some.injEq, Prod.mk.injEq] at h
      obtain ⟨rfl, rfl⟩ := h
      refine ⟨by omega, by simp, hx, List.mem_cons_self _ _, ?_⟩
      have : p + 1 - p = 1 := by omega
      rw [this, List.countP_cons]
      simp
    · simp only [hx, if_false] at h
      obtain ⟨h1, h2, h3, h4, h5⟩ := ih (p + 1) e q h
      have hx' : counted r.whitelist r.blacklist x = false := by
        simp only [eventsReader.hit, Bool.or_eq_true, not_or, Bool.not_eq_true] at hx
        simp [counted, hx.2]
      refine ⟨by omega, by simp only [List.length_cons]; omega, h3,
        List.mem_cons_of_mem _ h4, ?_⟩
      have : q - p = (q - (p + 1)) + 1 := by omega
      rw [this, List.drop_succ_cons, List.countP_cons, hx', h5]
      simp

theorem flowResponses_append_flow (sent : List GetFlowsResponse) (t : Option Timestamp)
    (name : String) (f : Flow) :
    (flowResponses (sent ++ [⟨t, name, .Flow f⟩])).length = (flowResponses sent).length + 1 := by
  simp [flowResponses, List.filter_append, GetFlowsResponse.isFlow]

theorem flowResponses_append_lost (sent : List GetFlowsResponse) (t : Option Timestamp)
    (name : String) (l : LostEvent) :
    (flowResponses (sent ++ [⟨t, name, .LostEvents l⟩])).length = (flowResponses sent).length := by
  simp [flowResponses, List.filter_append, GetFlowsResponse.isFlow]

/-- The delivery loop of `GetFlows` on a ring at rest, for a query with
`number = N > 0` and no time window or delivery hooks, when every counted
event ahead is a Flow: it returns nil after sending as many flow responses
as `N - eventCount` allows and the events ahead provide. -/
theorem GetFlows.loop_on_ring (build : List Nat → Except Error FilterFuncs)
    (newMask : List String → Except Error FieldMask) (nodeName : String)
    (opts : Options World) (hdel : opts.OnFlowDelivery = []) (mask : FieldMask) (R : Ring)
    (cause : Error) (hist : List Event) (hR : R.Holds hist) (h64 : hist.length < 2 ^ 64)
    (wl bl : FilterFuncs) (N : Nat) (hN0 : 0 < N) (hN64 : N < 2 ^ 64) (k : Nat)
    (hk : hist.length + 1 ≤ k)
    (hflows : ∀ e ∈ hist.drop (R.write - R.cap), counted wl bl e = true → e.isFlow = true) :
    ∀ (n : Nat) (l : List Event) (p c : Nat) (sent : List GetFlowsResponse),
      hist.drop p = l → R.write - R.cap ≤ p → p ≤ hist.length → c ≤ N → l.length + 1 ≤ n →
      ∃ o, GetFlows.loop (ringEnv build newMask nodeName) opts mask k n
            (numberReader wl bl N c) (World.at R cause p) sent = some o ∧
        o.err = none ∧
        (flowResponses o.sent).length =
          (flowResponses sent).length + min (N - c) (l.countP (counted wl bl)) := by
  intro n
  induction n with
  | zero => intro l p c sent _ _ _ _ hn; omega
  | succ n ih =>
    intro l p c sent hd hp hple hc hn
    have hll : l.length = hist.length - p := by
      rw [← hd, List.length_drop]
    have hlk : l.length + 1 ≤ k := by omega
    by_cases hcN : c < N
    · have hcheck : ¬ ((numberReader wl bl N c).maxEvents > 0 ∧
          (numberReader wl bl N c).eventCount ≥ (numberReader wl bl N c).maxEvents) := by
        simp only [numberReader]; omega
      have hNext := eventsReader.Next_on_ring build newMask nodeName R cause hist hR h64
        (numberReader wl bl N c) rfl rfl hcheck l p k hd hp hple hlk
      cases hfh : (numberReader wl bl N c).firstHit l p with
      | none =>
        have h0 := eventsReader.firstHit_none (numberReader wl bl N c) l p hfh
        have h0' : l.countP (counted wl bl) = 0 := h0
        rw [hfh] at hNext
        refine ⟨_, by simp only [GetFlows.loop, hNext]; rfl, by simp [eofIsNil], ?_⟩
        simp [h0']
      | some eq =>
        obtain ⟨e, q⟩ := eq
        obtain ⟨hq1, hq2, hhit, hmem, hcnt⟩ :=
          eventsReader.firstHit_some (numberReader wl bl N c) l p e q hfh
        have hcnt' : l.countP (counted wl bl) =
            (l.drop (q - p)).countP (counted wl bl) +
              (if counted wl bl e = true then 1 else 0) := hcnt
        rw [hfh] at hNext
        have hdq : hist.drop q = l.drop (q - p) := by
          rw [← hd, List.drop_drop]
          congr 1
          omega
        have hlen' : (l.drop (q - p)).length + 1 ≤ n := by
          simp only [List.length_drop]
          omega
        have hmemW : e ∈ hist.drop (R.write - R.cap) := by
          have h1 : e ∈ hist.drop p := by rw [hd]; exact hmem
          have h2 : hist.drop p = (hist.drop (R.write - R.cap)).drop (p - (R.write - R.cap)) := by
            rw [List.drop_drop]
            congr 1
            omega
          rw [h2] at h1
          exact List.mem_of_mem_drop h1
        by_cases hl : e.isLostEvent = true
        · have hce : counted wl bl e = false := by simp [counted, hl]
          obtain ⟨ev, hev⟩ : ∃ ev, e.Event = .LostEvent ev := by
            unfold Event.isLostEvent at hl
            split at hl
            · exact ⟨_, ‹_›⟩
            · cases hl
          obtain ⟨o, ho, herr, hsent⟩ := ih (l.drop (q - p)) q c
            (sent ++ [⟨e.Timestamp, nodeName, .LostEvents ev⟩]) hdq (by omega) (by omega) hc
            hlen'
          refine ⟨o, ?_, herr, ?_⟩
          · simp only [GetFlows.loop, hNext, hev]
            simpa [ringEnv] using ho
          · rw [hsent, flowResponses_append_lost, hcnt', hce]
            simp
        · have hl' : e.isLostEvent = false := by simpa using hl
          have hA : filters.Apply wl bl e = true := by
            simpa [eventsReader.hit, hl', numberReader] using hhit
          have hce : counted wl bl e = true := by simp [counted, hl', hA]
          have hfl := hflows e hmemW hce
          obtain ⟨f, hf⟩ : ∃ f, e.Event = .Flow f := by
            unfold Event.isFlow at hfl
            split at hfl
            · exact ⟨_, ‹_›⟩
            · cases hfl
          have hinc : inc64 c = c + 1 := inc64_of_lt c (by omega)
          obtain ⟨o, ho, herr, hsent⟩ := ih (l.drop (q - p)) q (c + 1)
            (sent ++ [⟨(if mask.Active then mask.Copy f else f).Time,
              (if mask.Active then mask.Copy f else f).NodeName,
              .Flow (if mask.Active then mask.Copy f else f)⟩]) hdq (by omega) (by omega)
            (by omega) hlen'
          refine ⟨o, ?_, herr, ?_⟩
          · simp only [GetFlows.loop, hNext, hf, hdel, runOnFlowDelivery]
            simpa [ringEnv, numberReader, hinc] using ho
          · rw [hsent, flowResponses_append_flow, hcnt', hce]
            simp only [if_true]
            omega
    · have hcN' : c = N := by omega
      obtain ⟨k', rfl⟩ : ∃ k', k = k' + 1 := ⟨k - 1, by omega⟩
      have hNext : (numberReader wl bl N c).Next (ringEnv build newMask nodeName) (k' + 1)
          (World.at R cause p) = some (.error .EOF, World.at R cause p) := by
        simp [eventsReader.Next, eventsReader.read, numberReader, ringEnv, World.at, hcN', hN0]
      refine ⟨_, by simp only [GetFlows.loop, hNext]; rfl, by simp [eofIsNil], ?_⟩
      simp [hcN']

theorem Event.not_lost_of_isFlow (e : Observer.Event) (h : e.isFlow = true) :
    e.isLostEvent = false := by
  unfold Event.isFlow at h
  unfold Event.isLostEvent
  cases hE : e.Event <;> simp [hE] at h ⊢

theorem acceptedFlows_eq_counted (wl bl : FilterFuncs) (l : List Event)
    (h : ∀ e ∈ l, e.isLostEvent = false → filters.Apply wl bl e = true → e.isFlow = true) :
    acceptedFlows wl bl l = l.countP (counted wl bl) := by
  unfold acceptedFlows
  apply List.countP_congr
  intro e he
  simp only [Bool.and_eq_true, counted, Bool.not_eq_true']
  constructor
  · rintro ⟨h1, h2⟩
    exact ⟨Event.not_lost_of_isFlow e h1, h2⟩
  · rintro ⟨h1, h2⟩
    exact ⟨h e he h1 h2, h2⟩

theorem countP_drop_le {α : Type} (f : α → Bool) (l : List α) (n : Nat) :
    (l.drop n).countP f ≤ l.countP f :=
  List.Sublist.countP_le f (List.drop_sublist n l)

section IngestLemmas

variable {η : Type}

theorem runHooks_append {α : Type} (msg : String)
    (pre rest : List (α → η → (Bool × Option Error) × η)) :
    ∀ (x : α) (h : η) (log : List LogEntry),
      runHooks msg (pre ++ rest) x h log =
        match runHooks msg pre x h log with
        | (true, h1, log1) => (true, h1, log1)
        | (false, h1, log1) => runHooks msg rest x h1 log1 := by
  induction pre with
  | nil => intro x h log; simp [runHooks]
  | cons f fs ih =>
    intro x h log
    simp only [List.cons_append, runHooks]
    rcases hf : f x h with ⟨⟨stop, err⟩, h1⟩
    cases stop
    · simp only [Bool.false_eq_true, if_false]
      exact ih x h1 _
    · simp

theorem runHooks_stop {α : Type} (msg : String) (f : α → η → (Bool × Option Error) × η)
    (fs : List (α → η → (Bool × Option Error) × η)) (x : α) (h h1 : η)
    (log : List LogEntry) (err : Option Error) (hf : f x h = ((true, err), h1)) :
    runHooks msg (f :: fs) x h log = (true, h1, logHookError msg log err) := by
  simp [runHooks, hf]

theorem runHooks_continue {α : Type} (msg : String) (f : α → η → (Bool × Option Error) × η)
    (fs : List (α → η → (Bool × Option Error) × η)) (x : α) (h h1 : η)
    (log : List LogEntry) (err : Option Error) (hf : f x h = ((false, err), h1)) :
    runHooks msg (f :: fs) x h log = runHooks msg fs x h1 (logHookError msg log err) := by
  simp [runHooks, hf]

theorem runHooks_stops_at {α : Type} (msg : String)
    (pre post : List (α → η → (Bool × Option Error) × η))
    (f : α → η → (Bool × Option Error) × η) (x : α) (h h0 h1 : η) (log log0 : List LogEntry)
    (err : Option Error) (hpre : runHooks msg pre x h log = (false, h0, log0))
    (hf : f x h0 = ((true, err), h1)) :
    runHooks msg (pre ++ f :: post) x h log = (true, h1, logHookError msg log0 err) := by
  rw [runHooks_append, hpre]
  exact runHooks_stop msg f post x h0 h1 log0 err hf

theorem LocalObserverServer.handle_monitor_stop (env : IngestEnv η) (opts : IngestOptions η)
    (s : LocalObserverServer η) (m : MonitorEvent) (h : η) (log : List LogEntry)
    (hstop : runHooks "failed in OnMonitorEvent" opts.OnMonitorEvent m s.ext s.log =
      (true, h, log)) :
    s.handle env opts m = { s with ext := h, log := log } := by
  simp [LocalObserverServer.handle, hstop]

theorem LocalObserverServer.handle_decode_error (env : IngestEnv η) (opts : IngestOptions η)
    (s : LocalObserverServer η) (m : MonitorEvent) (h h1 : η) (log : List LogEntry)
    (err : DecodeError)
    (hrun : runHooks "failed in OnMonitorEvent" opts.OnMonitorEvent m s.ext s.log =
      (false, h, log))
    (hdec : env.Decode m h = (.error err, h1)) :
    s.handle env opts m = { s with ext := h1, log := logDecodeError log err } := by
  simp [LocalObserverServer.handle, hrun, hdec]

theorem LocalObserverServer.ingest_cons (env : IngestEnv η) (opts : IngestOptions η)
    (s : LocalObserverServer η) (m : MonitorEvent) (ms : List MonitorEvent) :
    s.ingest env opts (m :: ms) = (s.handle env opts m).ingest env opts ms := rfl

theorem LocalObserverServer.ingest_append (env : IngestEnv η) (opts : IngestOptions η)
    (s : LocalObserverServer η) (ms1 ms2 : List MonitorEvent) :
    s.ingest env opts (ms1 ++ ms2) = (s.ingest env opts ms1).ingest env opts ms2 := by
  simp [LocalObserverServer.ingest, List.foldl_append]

theorem LocalObserverServer.trackNamespaces_eq (env : IngestEnv η)
    (s : LocalObserverServer η) (flow : Flow) :
    s.trackNamespaces env flow =
      { s with namespaceManager := s.namespaceManager ++
          (if Endpoint.GetNamespace flow.Source ≠ "" then
            [⟨Endpoint.GetNamespace flow.Source, env.ClusterName⟩] else []) ++
          (if Endpoint.GetNamespace flow.Destination ≠ "" then
            [⟨Endpoint.GetNamespace flow.Destination, env.ClusterName⟩] else []) } := by
  unfold LocalObserverServer.trackNamespaces
  by_cases h1 : Endpoint.GetNamespace flow.Source = "" <;>
    by_cases h2 : Endpoint.GetNamespace flow.Destination = "" <;>
    simp [h1, h2]

theorem LocalObserverServer.writeDecoded_cases (opts : IngestOptions η)
    (s : LocalObserverServer η) (ev : Event) :
    (s.writeDecoded opts ev).numObservedFlows = s.numObservedFlows ∧
    (s.writeDecoded opts ev).decoded = s.decoded ∧
    (s.writeDecoded opts ev).namespaceManager = s.namespaceManager ∧
    (s.writeDecoded opts ev).stopped = s.stopped ∧
    ((s.writeDecoded opts ev).ring = s.ring ∨ (s.writeDecoded opts ev).ring = s.ring ++ [ev]) := by
  unfold LocalObserverServer.writeDecoded
  rcases runHooks "failed in OnDecodedEvent" opts.OnDecodedEvent ev s.ext s.log with ⟨b, h, log⟩
  cases b <;> simp

/-- What one pass of the ingest loop does to the counter, the ring and the
record of decoded events: nothing (the event was stopped before decoding or
failed to decode); or an event that is not a Flow was decoded, and written or
not; or a Flow was decoded and stopped by an `OnDecodedFlow` hook; or a Flow
was decoded and counted, and written or not. -/
theorem LocalObserverServer.handle_cases (env : IngestEnv η) (opts : IngestOptions η)
    (s : LocalObserverServer η) (m : MonitorEvent) :
    ((s.handle env opts m).ring = s.ring ∧
        (s.handle env opts m).numObservedFlows = s.numObservedFlows ∧
        (s.handle env opts m).decoded = s.decoded) ∨
    (∃ ev, ev.isFlow = false ∧ (s.handle env opts m).decoded = s.decoded ++ [ev] ∧
        (s.handle env opts m).numObservedFlows = s.numObservedFlows ∧
        ((s.handle env opts m).ring = s.ring ∨ (s.handle env opts m).ring = s.ring ++ [ev])) ∨
    (∃ ev, ev.isFlow = true ∧ (s.handle env opts m).decoded = s.decoded ++ [ev] ∧
        (s.handle env opts m).numObservedFlows = s.numObservedFlows ∧
        (s.handle env opts m).ring = s.ring) ∨
    (∃ ev, ev.isFlow = true ∧ (s.handle env opts m).decoded = s.decoded ++ [ev] ∧
        (s.handle env opts m).numObservedFlows = inc64 s.numObservedFlows ∧
        ((s.handle env opts m).ring = s.ring ∨ (s.handle env opts m).ring = s.ring ++ [ev])) := by
  unfold LocalObserverServer.handle
  rcases runHooks "failed in OnMonitorEvent" opts.OnMonitorEvent m s.ext s.log with ⟨b, h, log⟩
  cases b
  · simp only
    rcases env.Decode m h with ⟨_ | ev, h1⟩
    · left; simp
    · simp only
      cases hE : ev.Event with
      | Flow flow =>
        simp only [LocalObserverServer.trackNamespaces_eq]
        have hfl : ev.isFlow = true := by simp [Event.isFlow, hE]
        rcases runHooks "failed in OnDecodedFlow" opts.OnDecodedFlow flow _ _ with ⟨b2, h2, log2⟩
        cases b2
        · right; right; right
          refine ⟨ev, hfl, ?_⟩
          simp only
          obtain ⟨w1, w2, -, -, w5⟩ := LocalObserverServer.writeDecoded_cases opts
            ({ ext := h2, ring := s.ring, numObservedFlows := inc64 s.numObservedFlows,
               namespaceManager := s.namespaceManager ++
                (if Endpoint.GetNamespace flow.Source ≠ "" then
                  [⟨Endpoint.GetNamespace flow.Source, env.ClusterName⟩] else []) ++
                (if Endpoint.GetNamespace flow.Destination ≠ "" then
                  [⟨Endpoint.GetNamespace flow.Destination, env.ClusterName⟩] else []),
               log := log2, decoded := s.decoded ++ [ev], stopped := s.stopped } :
              LocalObserverServer η) ev
          exact ⟨w2, w1, w5⟩
        · right; right; left
          exact ⟨ev, hfl, rfl, rfl, rfl⟩
      | AgentEvent a =>
        right; left
        have hfl : ev.isFlow = false := by simp [Event.isFlow, hE]
        obtain ⟨w1, w2, -, -, w5⟩ := LocalObserverServer.writeDecoded_cases opts
          ({ s with ext := h1, log := log, decoded := s.decoded ++ [ev] }) ev
        exact ⟨ev, hfl, w2, w1, w5⟩
      | DebugEvent a =>
        right; left
        have hfl : ev.isFlow = false := by simp [Event.isFlow, hE]
        obtain ⟨w1, w2, -, -, w5⟩ := LocalObserverServer.writeDecoded_cases opts
          ({ s with ext := h1, log := log, decoded := s.decoded ++ [ev] }) ev
        exact ⟨ev, hfl, w2, w1, w5⟩
      | LostEvent a =>
        right; left
        have hfl : ev.isFlow = false := by simp [Event.isFlow, hE]
        obtain ⟨w1, w2, -, -, w5⟩ := LocalObserverServer.writeDecoded_cases opts
          ({ s with ext := h1, log := log, decoded := s.decoded ++ [ev] }) ev
        exact ⟨ev, hfl, w2, w1, w5⟩
      | Other a =>
        right; left
        have hfl : ev.isFlow = false := by simp [Event.isFlow, hE]
        obtain ⟨w1, w2, -, -, w5⟩ := LocalObserverServer.writeDecoded_cases opts
          ({ s with ext := h1, log := log, decoded := s.decoded ++ [ev] }) ev
        exact ⟨ev, hfl, w2, w1, w5⟩
  · left; simp

theorem flowCount_append_singleton (l : List Event) (ev : Event) :
    flowCount (l ++ [ev]) = flowCount l + (if ev.isFlow = true then 1 else 0) := by
  simp [flowCount, List.countP_append, List.countP_cons]

theorem runHooks_sameStop {α : Type} (msg1 msg2 : String)
    (hs1 hs2 : List (α → η → (Bool × Option Error) × η))
    (hh : List.Forall₂ SameStop hs1 hs2) :
    ∀ (x : α) (h : η) (l1 l2 : List LogEntry),
      (runHooks msg1 hs1 x h l1).1 = (runHooks msg2 hs2 x h l2).1 ∧
        (runHooks msg1 hs1 x h l1).2.1 = (runHooks msg2 hs2 x h l2).2.1 := by
  induction hh with
  | nil => intro x h l1 l2; simp [runHooks]
  | @cons f g fs gs hfg _ ih =>
    intro x h l1 l2
    obtain ⟨hs, hst⟩ := hfg x h
    simp only [runHooks]
    rcases hf : f x h with ⟨⟨stop1, err1⟩, h1⟩
    rcases hg : g x h with ⟨⟨stop2, err2⟩, h2⟩
    rw [hf, hg] at hs hst
    simp only at hs hst
    subst hs hst
    cases stop1
    · simp only [Bool.false_eq_true, if_false]
      exact ih x h1 _ _
    · simp

theorem LocalObserverServer.writeDecoded_effects (opts1 opts2 : IngestOptions η)
    (h3 : List.Forall₂ SameStop opts1.OnDecodedEvent opts2.OnDecodedEvent)
    (s1 s2 : LocalObserverServer η) (ev : Event) (hs : s1.effects = s2.effects) :
    (s1.writeDecoded opts1 ev).effects = (s2.writeDecoded opts2 ev).effects := by
  simp only [LocalObserverServer.effects, Prod.mk.injEq] at hs
  obtain ⟨e1, e2, e3, e4, e5, e6⟩ := hs
  have hr := runHooks_sameStop "failed in OnDecodedEvent" "failed in OnDecodedEvent" _ _ h3 ev
    s1.ext s1.log s2.log
  rw [e1] at hr
  unfold LocalObserverServer.writeDecoded
  rw [e1]
  rcases hr1 : runHooks "failed in OnDecodedEvent" opts1.OnDecodedEvent ev s2.ext s1.log with
    ⟨b1, x1, l1⟩
  rcases hr2 : runHooks "failed in OnDecodedEvent" opts2.OnDecodedEvent ev s2.ext s2.log with
    ⟨b2, x2, l2⟩
  rw [hr1, hr2] at hr
  simp only at hr
  obtain ⟨rfl, rfl⟩ := hr
  cases b1 <;> simp [LocalObserverServer.effects, e2, e3, e4, e5, e6]

theorem LocalObserverServer.handle_effects (env : IngestEnv η) (opts1 opts2 : IngestOptions η)
    (h1 : List.Forall₂ SameStop opts1.OnMonitorEvent opts2.OnMonitorEvent)
    (h2 : List.Forall₂ SameStop opts1.OnDecodedFlow opts2.OnDecodedFlow)
    (h3 : List.Forall₂ SameStop opts1.OnDecodedEvent opts2.OnDecodedEvent)
    (s1 s2 : LocalObserverServer η) (m : MonitorEvent) (hs : s1.effects = s2.effects) :
    (s1.handle env opts1 m).effects = (s2.handle env opts2 m).effects := by
  have hs' := hs
  simp only [LocalObserverServer.effects, Prod.mk.injEq] at hs'
  obtain ⟨e1, e2, e3, e4, e5, e6⟩ := hs'
  have hr := runHooks_sameStop "failed in OnMonitorEvent" "failed in OnMonitorEvent" _ _ h1 m
    s1.ext s1.log s2.log
  rw [e1] at hr
  unfold LocalObserverServer.handle
  rw [e1]
  rcases hr1 : runHooks "failed in OnMonitorEvent" opts1.OnMonitorEvent m s2.ext s1.log with
    ⟨b1, x1, l1⟩
  rcases hr2 : runHooks "failed in OnMonitorEvent" opts2.OnMonitorEvent m s2.ext s2.log with
    ⟨b2, x2, l2⟩
  rw [hr1, hr2] at hr
  simp only at hr
  obtain ⟨rfl, rfl⟩ := hr
  cases b1
  · simp only
    rcases env.Decode m x1 with ⟨err | ev, y⟩
    · simp [LocalObserverServer.effects, e2, e3, e4, e5, e6]
    · simp only
      cases hE : ev.Event with
      | Flow flow =>
        simp only [LocalObserverServer.trackNamespaces_eq]
        have hq := runHooks_sameStop "failed in OnDecodedFlow" "failed in OnDecodedFlow" _ _ h2
          flow y l1 l2
        rcases hq1 : runHooks "failed in OnDecodedFlow" opts1.OnDecodedFlow flow y l1 with
          ⟨c1, z1, k1⟩
        rcases hq2 : runHooks "failed in OnDecodedFlow" opts2.OnDecodedFlow flow y l2 with
          ⟨c2, z2, k2⟩
        rw [hq1, hq2] at hq
        simp only at hq
        obtain ⟨rfl, rfl⟩ := hq
        cases c1
        · simp only
          apply LocalObserverServer.writeDecoded_effects opts1 opts2 h3
          simp [LocalObserverServer.effects, e2, e3, e4, e5, e6]
        · simp [LocalObserverServer.effects, e2, e3, e4, e5, e6]
      | AgentEvent a =>
        apply LocalObserverServer.writeDecoded_effects opts1 opts2 h3
        simp [LocalObserverServer.effects, e2, e3, e4, e5, e6]
      | DebugEvent a =>
        apply LocalObserverServer.writeDecoded_effects opts1 opts2 h3
        simp [LocalObserverServer.effects, e2, e3, e4, e5, e6]
      | LostEvent a =>
        apply LocalObserverServer.writeDecoded_effects opts1 opts2 h3
        simp [LocalObserverServer.effects, e2, e3, e4, e5, e6]
      | Other a =>
        apply LocalObserverServer.writeDecoded_effects opts1 opts2 h3
        simp [LocalObserverServer.effects, e2, e3, e4, e5, e6]
  · simp [LocalObserverServer.effects, e2, e3, e4, e5, e6]

end IngestLemmas

theorem Env.previousN_succ (env : Env σ) (k : Nat) (w : σ) :
    env.previousN (k + 1) w =
      ((env.Previous w).1 :: (env.previousN k (env.Previous w).2).1,
        (env.previousN k (env.Previous w).2).2) := rfl

/-- The rewind calls `Previous` at most `i` times: the state it ends in is
the state after some `k ≤ i` calls. -/
theorem newRingReader.rewind_calls (env : Env σ) (req : genericRequest) (wl bl : FilterFuncs)
    (sinceTime : Int) :
    ∀ (i idx c : Nat) (w : σ), ∃ k, k ≤ i ∧
      (newRingReader.rewind env req wl bl sinceTime i idx c w).2 = (env.previousN k w).2 := by
  intro i
  induction i with
  | zero => intro idx c w; exact ⟨0, Nat.le_refl _, rfl⟩
  | succ i ih =>
    intro idx c w
    have one : (env.previousN 1 w).2 = (env.Previous w).2 := rfl
    have more : ∀ (idx' c' : Nat), ∃ k, k ≤ i + 1 ∧
        (newRingReader.rewind env req wl bl sinceTime i idx' c' (env.Previous w).2).2 =
          (env.previousN k w).2 := by
      intro idx' c'
      obtain ⟨k, hk, hst⟩ := ih idx' c' (env.Previous w).2
      exact ⟨k + 1, by omega, by rw [hst, Env.previousN_succ]⟩
    unfold newRingReader.rewind
    rcases hP : env.Previous w with ⟨⟨e, err⟩, w1⟩
    rw [hP] at one more
    simp only
    split
    · exact ⟨1, by omega, one.symm⟩
    · cases err with
      | some err => exact ⟨1, by omega, one.symm⟩
      | none =>
        cases e with
        | none => exact ⟨1, by omega, one.symm⟩
        | some e =>
          simp only
          split
          · exact more _ _
          · split
            · split
              · exact ⟨1, by omega, one.symm⟩
              · split
                · exact ⟨1, by omega, one.symm⟩
                · exact more _ _
            · split
              · exact ⟨1, by omega, one.symm⟩
              · exact more _ _

/-- The rewind without `since`: when the calls of `Previous` return the
events `pre` and then `e`, none a ring-overrun marker and all with a nil
error, and `e` is the event that brings the count to `Number`, the loop ends
when it has read `e`, with `idx` moved back once for every event of `pre`. -/
theorem newRingReader.rewind_counts (env : Env σ) (req : genericRequest) (wl bl : FilterFuncs)
    (sinceTime : Int) (hs : req.Since = none) (hN64 : req.Number < 2 ^ 64) (e : Event)
    (he : counted wl bl e = true) (hov : isRingOverrun (some e) = false) :
    ∀ (pre : List Event) (i idx c : Nat) (w : σ),
      (env.previousN (pre.length + 1) w).1 = (pre ++ [e]).map (fun x => (some x, none)) →
      (∀ x ∈ pre, isRingOverrun (some x) = false) →
      c + pre.countP (counted wl bl) + 1 = req.Number → pre.length < i →
      newRingReader.rewind env req wl bl sinceTime i idx c w =
        (.ok (dec64^[pre.length] idx), (env.previousN (pre.length + 1) w).2) := by
  have hce : (e.isLostEvent || !filters.Apply wl bl e) = false := by
    simp only [counted, Bool.and_eq_true, Bool.not_eq_true'] at he
    simp [he.1, he.2]
  intro pre
  induction pre with
  | nil =>
    intro i idx c w hprev _ hc hi
    obtain ⟨i', rfl⟩ : ∃ i', i = i' + 1 := ⟨i - 1, by simp at hi; omega⟩
    rw [Env.previousN_succ] at hprev ⊢
    simp only [List.length_nil, Env.previousN, List.nil_append, List.map_cons, List.map_nil,
      List.cons.injEq, and_true] at hprev
    have hinc : inc64 c = req.Number := by
      rw [inc64_of_lt c (by simp at hc; omega)]
      simpa using hc
    rcases hP : env.Previous w with ⟨r, w1⟩
    rw [hP] at hprev
    simp only at hprev
    subst hprev
    simp [newRingReader.rewind, hP, hov, hce, hs, hinc, Env.previousN]
  | cons x pre ih =>
    intro i idx c w hprev hover hc hi
    obtain ⟨i', rfl⟩ : ∃ i', i = i' + 1 := ⟨i - 1, by simp at hi; omega⟩
    have hlen : (x :: pre).length + 1 = (pre.length + 1) + 1 := by simp
    rw [hlen, Env.previousN_succ] at hprev ⊢
    simp only [List.cons_append, List.map_cons, List.cons.injEq] at hprev
    obtain ⟨hr, hrest⟩ := hprev
    rcases hP : env.Previous w with ⟨r, w1⟩
    rw [hP] at hr hrest
    simp only at hr hrest ⊢
    subst hr
    have hovx := hover x (List.mem_cons_self _ _)
    have hover' : ∀ y ∈ pre, isRingOverrun (some y) = false :=
      fun y hy => hover y (List.mem_cons_of_mem _ hy)
    have hi' : pre.length < i' := by simp only [List.length_cons] at hi; omega
    have hiter : dec64^[(x :: pre).length] idx = dec64^[pre.length] (dec64 idx) :=
      Function.iterate_succ_apply dec64 pre.length idx
    rw [hiter]
    rw [List.countP_cons] at hc
    by_cases hcx : counted wl bl x = true
    · have hcx' : (x.isLostEvent || !filters.Apply wl bl x) = false := by
        simp only [counted, Bool.and_eq_true, Bool.not_eq_true'] at hcx
        simp [hcx.1, hcx.2]
      simp only [hcx, if_true] at hc
      have hinc : inc64 c = c + 1 := inc64_of_lt c (by omega)
      have hne : ¬ (c + 1 = req.Number) := by omega
      have := ih i' (dec64 idx) (c + 1) w1 hrest hover' (by omega) hi'
      simp [newRingReader.rewind, hP, hovx, hcx', hs, hinc, hne, this]
    · have hcx' : (x.isLostEvent || !filters.Apply wl bl x) = true := by
        simp only [counted, Bool.and_eq_true, Bool.not_eq_true', not_and,
          Bool.not_eq_false] at hcx
        cases hl : x.isLostEvent
        · simp [hcx hl]
        · simp
      simp only [hcx, Bool.false_eq_true, if_false, Nat.add_zero] at hc
      have := ih i' (dec64 idx) c w1 hrest hover' hc hi'
      simp [newRingReader.rewind, hP, hovx, hcx', this]

theorem eventsReader.Next_ok_count (env : Env σ) (r : eventsReader) (fuel : Nat) (w w1 : σ)
    (e : Event) (hf : r.follow = false) (h : r.Next env fuel w = some (.ok e, w1)) :
    ¬ (r.maxEvents > 0 ∧ r.eventCount ≥ r.maxEvents) := by
  cases fuel with
  | zero => simp [eventsReader.Next] at h
  | succ n =>
    unfold eventsReader.Next at h
    cases hc : env.ctxErr w with
    | some err => simp [hc] at h
    | none =>
      simp only [hc] at h
      rcases hr : r.read env w with ⟨_ | e', w'⟩
      · simp [hr] at h
      · rcases eventsReader.candidate_of_read env r w w' e' hr with ⟨hf', -⟩ | ⟨-, hcheck, -⟩
        · rw [hf] at hf'; cases hf'
        · exact hcheck

/-- In a query that is not in follow mode and has `maxEvents > 0`, the flow
responses the delivery loop of `GetFlows` adds are at most as many as the
increments of `eventCount`, and `eventCount` stays within `maxEvents`. -/
theorem GetFlows.loop_count_bound (env : Env σ) (opts : Options σ) (mask : FieldMask)
    (k : Nat) :
    ∀ (n : Nat) (r : eventsReader) (w : σ) (sent : List GetFlowsResponse)
      (o : Outcome σ GetFlowsResponse),
      r.follow = false → 0 < r.maxEvents → r.maxEvents < 2 ^ 64 → r.eventCount ≤ r.maxEvents →
      GetFlows.loop env opts mask k n r w sent = some o →
        (flowResponses o.sent).length + r.eventCount ≤
            (flowResponses sent).length + o.eventCount ∧
          o.eventCount ≤ r.maxEvents := by
  intro n
  induction n with
  | zero => intro r w sent o _ _ _ _ h; simp [GetFlows.loop] at h
  | succ n ih =>
    intro r w sent o hf h0 h64 hle hloop
    unfold GetFlows.loop at hloop
    cases hN : r.Next env k w with
    | none => simp [hN] at hloop
    | some res =>
      rcases res with ⟨err | e, w1⟩
      · simp only [hN, Option.some.injEq] at hloop
        subst hloop
        exact ⟨Nat.le_refl _, hle⟩
      · have hlt := eventsReader.Next_ok_count env r k w w1 e hf hN
        have hlt' : r.eventCount < r.maxEvents := by omega
        have hinc : inc64 r.eventCount = r.eventCount + 1 := inc64_of_lt _ (by omega)
        simp only [hN] at hloop
        cases hE : e.Event with
        | Flow ev =>
          simp only [hE] at hloop
          rcases hD : runOnFlowDelivery opts.OnFlowDelivery ev w1 with ⟨d, w2⟩
          rw [hD] at hloop
          cases d with
          | Fail err =>
            simp only [Option.some.injEq] at hloop
            subst hloop
            simp only [hinc]
            omega
          | Stop =>
            simp only at hloop
            have := ih { r with eventCount := inc64 r.eventCount } w2 sent o hf h0 h64
              (by simp only [hinc]; omega) hloop
            simp only [hinc] at this
            omega
          | Pass =>
            simp only at hloop
            rcases hS : env.Send ⟨(if mask.Active then mask.Copy ev else ev).Time,
              (if mask.Active then mask.Copy ev else ev).NodeName,
              .Flow (if mask.Active then mask.Copy ev else ev)⟩ w2 with ⟨serr, w3⟩
            rw [hS] at hloop
            cases serr with
            | some err =>
              simp only [Option.some.injEq] at hloop
              subst hloop
              simp only [hinc]
              omega
            | none =>
              simp only at hloop
              have := ih { r with eventCount := inc64 r.eventCount } w3 _ o hf h0 h64
                (by simp only [hinc]; omega) hloop
              rw [flowResponses_append_flow] at this
              simp only [hinc] at this
              omega
        | LostEvent ev =>
          simp only [hE] at hloop
          rcases hS : env.Send ⟨e.Timestamp, env.AbsoluteNodeName, .LostEvents ev⟩ w1 with
            ⟨serr, w2⟩
          rw [hS] at hloop
          cases serr with
          | some err =>
            simp only [Option.some.injEq] at hloop
            subst hloop
            exact ⟨Nat.le_refl _, hle⟩
          | none =>
            simp only at hloop
            have := ih r w2 _ o hf h0 h64 hle hloop
            rw [flowResponses_append_lost] at this
            exact this
        | AgentEvent a =>
          simp only [hE] at hloop
          exact ih r w1 sent o hf h0 h64 hle hloop
        | DebugEvent a =>
          simp only [hE] at hloop
          exact ih r w1 sent o hf h0 h64 hle hloop
        | Other a =>
          simp only [hE] at hloop
          exact ih r w1 sent o hf h0 h64 hle hloop

theorem lastSeen_cons (last : Option Event) (x : Event) (pre : List Event) :
    lastSeen last (x :: pre) = lastSeen (if x.isFlow then some x else last) pre := rfl

theorem getFlowRate.inMinute_iff (since : Int) (x : Event) :
    getFlowRate.inMinute since x = true ↔
      isRingOverrun (some x) = false ∧
        (x.isFlow = true →
          Timestamp.CheckValid x.Timestamp = none ∧ since ≤ Timestamp.AsTimeOpt x.Timestamp) := by
  unfold getFlowRate.inMinute
  cases isRingOverrun (some x) <;> cases x.isFlow <;> simp

/-- The scan of `getFlowRate` passes over events that are in the last minute
or are not flows: it counts the flows among them and remembers the last. -/
theorem getFlowRate.scan_pass (env : Env σ) (since : Int) :
    ∀ (pre : List Event) (fuel count : Nat) (last : Option Event) (w : σ),
      (env.previousN pre.length w).1 = pre.map (fun x => (some x, none)) →
      (∀ x ∈ pre, getFlowRate.inMinute since x = true) →
      getFlowRate.scan env (pre.length + fuel) count since last w =
        getFlowRate.scan env fuel (count + flowCount pre) since (lastSeen last pre)
          (env.previousN pre.length w).2 := by
  intro pre
  induction pre with
  | nil =>
    intro fuel count last w _ _
    simp [flowCount, lastSeen, Env.previousN]
  | cons x pre ih =>
    intro fuel count last w hprev hin
    have hlen : (x :: pre).length + fuel = (pre.length + fuel) + 1 := by
      simp only [List.length_cons]; omega
    rw [hlen]
    simp only [List.length_cons] at hprev ⊢
    rw [Env.previousN_succ] at hprev ⊢
    simp only [List.map_cons, List.cons.injEq] at hprev
    obtain ⟨hr, hrest⟩ := hprev
    rcases hP : env.Previous w with ⟨r, w1⟩
    rw [hP] at hr hrest
    simp only at hr hrest ⊢
    subst hr
    obtain ⟨hov, hfl⟩ := (getFlowRate.inMinute_iff since x).1 (hin x (List.mem_cons_self _ _))
    have hin' : ∀ y ∈ pre, getFlowRate.inMinute since y = true :=
      fun y hy => hin y (List.mem_cons_of_mem _ hy)
    have hcount : flowCount (x :: pre) = flowCount pre + (if x.isFlow = true then 1 else 0) := by
      simp [flowCount, List.countP_cons]
    rw [lastSeen_cons, hcount]
    cases hx : x.isFlow with
    | false =>
      have := ih fuel count last w1 hrest hin'
      simp [getFlowRate.scan, hP, hov, hx, this]
    | true =>
      obtain ⟨hv, hs⟩ := hfl hx
      have hlt : ¬ (Timestamp.AsTimeOpt x.Timestamp < since) := by omega
      have := ih fuel (count + 1) (some x) w1 hrest hin'
      simp only [getFlowRate.scan, hP, hov, hx, hv, hlt, this]
      simp
      congr 1
      omega

theorem Env.previousN_length (env : Env σ) :
    ∀ (k : Nat) (w : σ), (env.previousN k w).1.length = k := by
  intro k
  induction k with
  | zero => intro w; rfl
  | succ k ih => intro w; rw [Env.previousN_succ]; simp [ih]

theorem Env.previousN_snoc (env : Env σ) :
    ∀ (k : Nat) (w : σ),
      env.previousN (k + 1) w =
        ((env.previousN k w).1 ++ [(env.Previous (env.previousN k w).2).1],
          (env.Previous (env.previousN k w).2).2) := by
  intro k
  induction k with
  | zero => intro w; rfl
  | succ k ih =>
    intro w
    rw [Env.previousN_succ, ih (env.Previous w).2, Env.previousN_succ]
    simp

/-- When the first `pre.length + 1` calls of `Previous` return the events
`pre` and then `stop`, the first `pre.length` return `pre`, and the next call
returns `stop`. -/
theorem Env.previousN_split (env : Env σ) (pre : List Event)
    (stop : Option Event × Option Error) (w : σ)
    (h : (env.previousN (pre.length + 1) w).1 = pre.map (fun x => (some x, none)) ++ [stop]) :
    (env.previousN pre.length w).1 = pre.map (fun x => (some x, none)) ∧
      env.Previous (env.previousN pre.length w).2 =
        (stop, (env.previousN (pre.length + 1) w).2) := by
  rw [Env.previousN_snoc] at h ⊢
  simp only at h ⊢
  have hl : (env.previousN pre.length w).1.length =
      (pre.map (fun x => ((some x, none) : Option Event × Option Error))).length := by
    rw [Env.previousN_length, List.length_map]
  obtain ⟨h1, h2⟩ := List.append_inj h hl
  refine ⟨h1, ?_⟩
  simp only [List.cons.injEq, and_true] at h2
  rw [← h2]

theorem Time.Sub_minute (a : Int) : Time.Sub a (a - Minute) = Minute := by
  have h : a - (a - Minute) = Minute := by omega
  unfold Time.Sub
  rw [h]
  simp [Minute, minDuration, maxDuration]

theorem Duration.Seconds_minute (a : Int) :
    Duration.Seconds (Time.Sub a (a - Minute)) = Float64.ofInt 60 := by
  rw [Time.Sub_minute]
  decide

theorem Time.Sub_of_range (t u : Int) (h1 : minDuration ≤ t - u) (h2 : t - u ≤ maxDuration) :
    Time.Sub t u = t - u := by
  unfold Time.Sub
  have a1 : ¬ (t - u < minDuration) := by omega
  have a2 : ¬ (maxDuration < t - u) := by omega
  simp [a1, a2]

theorem lastSeen_eq (pre : List Event) :
    ∀ (last : Option Event), lastSeen last pre =
      match (pre.filter Event.isFlow).getLast? with
      | some l => some l
      | none => last := by
  induction pre with
  | nil => intro last; rfl
  | cons x pre ih =>
    intro last
    rw [lastSeen_cons, ih]
    cases hx : x.isFlow with
    | false => simp [List.filter_cons, hx]
    | true =>
      simp only [List.filter_cons, hx, if_true, List.getLast?_cons]
      cases (pre.filter Event.isFlow).getLast? <;> simp

theorem Event.not_overrun_of_isFlow (e : Observer.Event) (h : e.isFlow = true) :
    isRingOverrun (some e) = false := by
  obtain ⟨t, p⟩ := e
  cases p <;> simp [Event.isFlow] at h
  simp [isRingOverrun, Event.GetLostEvent]

/-- The scan of `getFlowRate` from the reader at `LastWriteParallel()`, when
the calls of `Previous` return the events `pre`, which the scan passes over,
and then `stop`: the scan reaches the call that returns `stop` with `count`
the number of flows in `pre` and `lastSeenEvent` the last of them. -/
theorem getFlowRate.scan_reaches (env : Env σ) (since : Int) (w : σ) (pre : List Event)
    (stop : Option Event × Option Error) (j : Nat)
    (hprev : (env.previousN (pre.length + 1) w).1 = pre.map (fun x => (some x, none)) ++ [stop])
    (hpre : ∀ x ∈ pre, getFlowRate.inMinute since x = true) :
    getFlowRate.scan env (pre.length + (j + 1)) 0 since none w =
        getFlowRate.scan env (j + 1) (flowCount pre) since (lastSeen none pre)
          (env.previousN pre.length w).2 ∧
      env.Previous (env.previousN pre.length w).2 =
        (stop, (env.previousN (pre.length + 1) w).2) := by
  obtain ⟨h1, h2⟩ := Env.previousN_split env pre stop w hprev
  refine ⟨?_, h2⟩
  have := getFlowRate.scan_pass env since pre (j + 1) 0 none w h1 hpre
  simpa using this

theorem Timestamp.CheckValid_error (t : Option Timestamp) (err : Error)
    (h : Timestamp.CheckValid t = some err) : ∃ why, err = .InvalidTimestamp why := by
  unfold Timestamp.CheckValid at h
  split at h
  · exact ⟨_, by simpa using h.symm⟩
  · split at h
    · exact ⟨_, by simpa using h.symm⟩
    · split at h
      · exact ⟨_, by simpa using h.symm⟩
      · split at h
        · exact ⟨_, by simpa using h.symm⟩
        · cases h

/-- A request whose `since` or `until` is set and invalid. -/
theorem newEventsReader_invalid (req : genericRequest) (wl bl : FilterFuncs)
    (h : (∃ s, req.Since = some s ∧ Timestamp.CheckValid (some s) ≠ none) ∨
      (∃ u, req.Until = some u ∧ Timestamp.CheckValid (some u) ≠ none)) :
    ∃ err, newEventsReader req wl bl = .error err := by
  cases hr : newEventsReader req wl bl with
  | error err => exact ⟨err, rfl⟩
  | ok r =>
    obtain ⟨-, -, -, -, -, -, -, -, hs, hu⟩ := newEventsReader_fields req wl bl r hr
    rcases h with ⟨s, h1, h2⟩ | ⟨u, h1, h2⟩
    · exact absurd (hs s h1) h2
    · exact absurd (hu u h1) h2

section SurvivorLemmas

variable {η : Type}

theorem stops_eq {α : Type} (msg : String) (hooks : List (α → η → (Bool × Option Error) × η))
    (x : α) (h : η) (log : List LogEntry) :
    stops hooks x h = ((runHooks msg hooks x h log).1, (runHooks msg hooks x h log).2.1) := by
  have hsame : List.Forall₂ SameStop hooks hooks :=
    List.forall₂_same.2 (fun f _ y k => ⟨rfl, rfl⟩)
  obtain ⟨h1, h2⟩ := runHooks_sameStop "" msg hooks hooks hsame x h [] log
  unfold stops
  rw [h1, h2]

/-- One pass of the ingest loop appends the survivor of the raw event, if
there is one, to the ring, and leaves the hooks and the decoder in the state
`survivor` computes; the survivor is the event `Decode` returned. -/
theorem LocalObserverServer.handle_survivor (env : IngestEnv η) (opts : IngestOptions η)
    (s : LocalObserverServer η) (m : MonitorEvent) :
    (s.handle env opts m).ring = s.ring ++ (survivor env opts m s.ext).1.toList ∧
      (s.handle env opts m).ext = (survivor env opts m s.ext).2 ∧
      ∃ d, (s.handle env opts m).decoded = s.decoded ++ d ∧
        (survivor env opts m s.ext).1.toList.Sublist d := by
  unfold LocalObserverServer.handle survivor
  rw [stops_eq "failed in OnMonitorEvent" opts.OnMonitorEvent m s.ext s.log]
  rcases runHooks "failed in OnMonitorEvent" opts.OnMonitorEvent m s.ext s.log with ⟨b, h, log⟩
  cases b
  · simp only
    rcases env.Decode m h with ⟨err | ev, h1⟩
    · exact ⟨by simp, rfl, [], by simp, by simp⟩
    · simp only
      have hwrite : ∀ (t : LocalObserverServer η), t.ring = s.ring →
          t.decoded = s.decoded ++ [ev] →
          (t.writeDecoded opts ev).ring = s.ring ++
              (match stops opts.OnDecodedEvent ev t.ext with
                | (true, h4) => ((none : Option Event), h4)
                | (false, h4) => (some ev, h4)).1.toList ∧
            (t.writeDecoded opts ev).ext =
              (match stops opts.OnDecodedEvent ev t.ext with
                | (true, h4) => ((none : Option Event), h4)
                | (false, h4) => (some ev, h4)).2 ∧
            ∃ d, (t.writeDecoded opts ev).decoded = s.decoded ++ d ∧
              (match stops opts.OnDecodedEvent ev t.ext with
                | (true, h4) => ((none : Option Event), h4)
                | (false, h4) => (some ev, h4)).1.toList.Sublist d := by
        intro t ht hd
        unfold LocalObserverServer.writeDecoded
        rw [stops_eq "failed in OnDecodedEvent" opts.OnDecodedEvent ev t.ext t.log]
        rcases runHooks "failed in OnDecodedEvent" opts.OnDecodedEvent ev t.ext t.log with
          ⟨b3, h3, log3⟩
        cases b3
        · exact ⟨by simp [ht], rfl, [ev], hd, by simp⟩
        · exact ⟨by simp [ht], rfl, [ev], hd, by simp⟩
      cases hE : ev.Event with
      | Flow flow =>
        simp only [LocalObserverServer.trackNamespaces_eq]
        rw [stops_eq "failed in OnDecodedFlow" opts.OnDecodedFlow flow h1 log]
        rcases runHooks "failed in OnDecodedFlow" opts.OnDecodedFlow flow h1 log with
          ⟨b2, h2, log2⟩
        cases b2
        · exact hwrite _ rfl rfl
        · exact ⟨by simp, rfl, [ev], rfl, by simp⟩
      | AgentEvent a => exact hwrite _ rfl rfl
      | DebugEvent a => exact hwrite _ rfl rfl
      | LostEvent a => exact hwrite _ rfl rfl
      | Other a => exact hwrite _ rfl rfl
  · exact ⟨by simp, rfl, [], by simp, by simp⟩

theorem LocalObserverServer.handle_stopped (env : IngestEnv η) (opts : IngestOptions η)
    (s : LocalObserverServer η) (m : MonitorEvent) :
    (s.handle env opts m).stopped = s.stopped := by
  unfold LocalObserverServer.handle
  rcases runHooks "failed in OnMonitorEvent" opts.OnMonitorEvent m s.ext s.log with ⟨b, h, log⟩
  cases b
  · simp only
    rcases env.Decode m h with ⟨err | ev, h1⟩
    · rfl
    · simp only
      cases hE : ev.Event with
      | Flow flow =>
        simp only [LocalObserverServer.trackNamespaces_eq]
        rcases runHooks "failed in OnDecodedFlow" opts.OnDecodedFlow flow h1 log with
          ⟨b2, h2, log2⟩
        cases b2
        · exact (LocalObserverServer.writeDecoded_cases opts _ ev).2.2.2.1
        · rfl
      | AgentEvent a => exact (LocalObserverServer.writeDecoded_cases opts _ ev).2.2.2.1
      | DebugEvent a => exact (LocalObserverServer.writeDecoded_cases opts _ ev).2.2.2.1
      | LostEvent a => exact (LocalObserverServer.writeDecoded_cases opts _ ev).2.2.2.1
      | Other a => exact (LocalObserverServer.writeDecoded_cases opts _ ev).2.2.2.1
  · rfl

theorem LocalObserverServer.ingest_survivors (env : IngestEnv η) (opts : IngestOptions η)
    (events : List MonitorEvent) :
    ∀ (s : LocalObserverServer η),
      (s.ingest env opts events).ring = s.ring ++ (survivors env opts events s.ext).1 ∧
        (s.ingest env opts events).ext = (survivors env opts events s.ext).2 ∧
        (s.ingest env opts events).stopped = s.stopped ∧
        ∃ d, (s.ingest env opts events).decoded = s.decoded ++ d ∧
          (survivors env opts events s.ext).1.Sublist d := by
  induction events with
  | nil => intro s; exact ⟨by simp [LocalObserverServer.ingest, survivors], rfl, rfl, [], by
      simp [LocalObserverServer.ingest], by simp [survivors]⟩
  | cons m ms ih =>
    intro s
    obtain ⟨h1, h2, d1, h3, h4⟩ := LocalObserverServer.handle_survivor env opts s m
    obtain ⟨i1, i2, i3, d2, i4, i5⟩ := ih (s.handle env opts m)
    have hst := LocalObserverServer.handle_stopped env opts s m
    rw [LocalObserverServer.ingest_cons]
    simp only [survivors]
    rw [h2] at i1 i2 i5
    refine ⟨?_, i2, ?_, d1 ++ d2, ?_, ?_⟩
    · rw [i1, h1, List.append_assoc]
    · rw [i3, hst]
    · rw [i4, h3, List.append_assoc]
    · exact List.Sublist.append h4 i5

end SurvivorLemmas

/-- A query of `GetFlows` that returns has either ended before the delivery
loop, with nothing sent, or is a run of the delivery loop with the
`eventsReader` that `newEventsReader` made for the request. -/
theorem GetFlows_of_some (env : Env σ) (opts : Options σ) (fuel : Nat) (req : GetFlowsRequest)
    (w : σ) (o : Outcome σ GetFlowsResponse) (h : GetFlows env opts fuel req w = some o) :
    (o.sent = [] ∧ o.eventCount = 0) ∨
      ∃ (wl bl : FilterFuncs) (r : eventsReader) (mask : FieldMask) (w2 : σ),
        newEventsReader req.togenericRequest wl bl = .ok r ∧
          GetFlows.loop env opts mask fuel fuel r w2 [] = some o := by
  have early : ∀ (err : Option Error) (w' : σ),
      (some (⟨err, w', [], 0⟩ : Outcome σ GetFlowsResponse) = some o) →
      (o.sent = [] ∧ o.eventCount = 0) := by
    intro err w' h
    simp only [Option.some.injEq] at h
    subst h
    exact ⟨rfl, rfl⟩
  unfold GetFlows at h
  cases hv : validateRequest req.togenericRequest with
  | some err => simp only [hv] at h; exact Or.inl (early _ _ h)
  | none =>
    simp only [hv] at h
    rcases hg : runOnGetFlows opts.OnGetFlows req w with ⟨_ | err, w1⟩
    · simp only [hg] at h
      cases hb1 : env.BuildFilterList req.Whitelist with
      | error err => simp only [hb1] at h; exact Or.inl (early _ _ h)
      | ok whitelist =>
        simp only [hb1] at h
        cases hb2 : env.BuildFilterList req.Blacklist with
        | error err => simp only [hb2] at h; exact Or.inl (early _ _ h)
        | ok blacklist =>
          simp only [hb2] at h
          rcases hrr : newRingReader env req.togenericRequest whitelist blacklist w1 with
            ⟨_ | err, w2⟩
          · simp only [hrr] at h
            cases hr : newEventsReader req.togenericRequest whitelist blacklist with
            | error err => simp only [hr] at h; exact Or.inl (early _ _ h)
            | ok r =>
              simp only [hr] at h
              generalize (if req.FieldMask.length = 0 then req.ExperimentalFieldMask
                else req.FieldMask) = fm at h
              cases hm : env.NewFieldMask fm with
              | error err => simp only [hm] at h; exact Or.inl (early _ _ h)
              | ok mask =>
                simp only [hm] at h
                exact Or.inr ⟨whitelist, blacklist, r, mask, w2, hr, h⟩
          · simp only [hrr] at h; exact Or.inl (early _ _ h)
    · simp only [hg] at h; exact Or.inl (early _ _ h)

/-- When the delivery hooks stop every flow, the delivery loop of `GetFlows`
sends no flow response. -/
theorem GetFlows.loop_all_stopped (env : Env σ) (opts : Options σ) (mask : FieldMask) (k : Nat)
    (hstop : ∀ (f : Flow) (w : σ), (runOnFlowDelivery opts.OnFlowDelivery f w).1 = .Stop) :
    ∀ (n : Nat) (r : eventsReader) (w : σ) (sent : List GetFlowsResponse)
      (o : Outcome σ GetFlowsResponse),
      GetFlows.loop env opts mask k n r w sent = some o →
        flowResponses o.sent = flowResponses sent := by
  intro n
  induction n with
  | zero => intro r w sent o h; simp [GetFlows.loop] at h
  | succ n ih =>
    intro r w sent o hloop
    unfold GetFlows.loop at hloop
    cases hN : r.Next env k w with
    | none => simp [hN] at hloop
    | some res =>
      rcases res with ⟨err | e, w1⟩
      · simp only [hN, Option.some.injEq] at hloop
        subst hloop
        rfl
      · simp only [hN] at hloop
        cases hE : e.Event with
        | Flow ev =>
          simp only [hE] at hloop
          have hs := hstop ev w1
          rcases hD : runOnFlowDelivery opts.OnFlowDelivery ev w1 with ⟨d, w2⟩
          rw [hD] at hloop hs
          simp only at hs
          subst hs
          simp only at hloop
          exact ih _ w2 sent o hloop
        | LostEvent ev =>
          simp only [hE] at hloop
          rcases hS : env.Send ⟨e.Timestamp, env.AbsoluteNodeName, .LostEvents ev⟩ w1 with
            ⟨serr, w2⟩
          rw [hS] at hloop
          cases serr with
          | some err =>
            simp only [Option.some.injEq] at hloop
            subst hloop
            rfl
          | none =>
            simp only at hloop
            have := ih r w2 _ o hloop
            rw [this]
            simp [flowResponses, List.filter_append, GetFlowsResponse.isFlow]
        | AgentEvent a =>
          simp only [hE] at hloop
          exact ih r w1 sent o hloop
        | DebugEvent a =>
          simp only [hE] at hloop
          exact ih r w1 sent o hloop
        | Other a =>
          simp only [hE] at hloop
          exact ih r w1 sent o hloop

theorem newRingReader.inRange_iff (wl bl : FilterFuncs) (sinceTime : Int) (x : Event) :
    newRingReader.inRange wl bl sinceTime x = true ↔
      isRingOverrun (some x) = false ∧
        (counted wl bl x = true →
          Timestamp.CheckValid x.Timestamp = none ∧
            sinceTime ≤ Timestamp.AsTimeOpt x.Timestamp) := by
  unfold newRingReader.inRange
  cases isRingOverrun (some x) <;> cases counted wl bl x <;> simp

theorem counted_eq_false_iff (wl bl : FilterFuncs) (x : Event) :
    counted wl bl x = false ↔ (x.isLostEvent || !filters.Apply wl bl x) = true := by
  unfold counted
  cases x.isLostEvent <;> cases filters.Apply wl bl x <;> simp

/-- The rewind of `newRingReader` passes over the events `pre` that the
calls of `Previous` return, none of them a ring-overrun marker: with `since`
set, when every counted event among them has a valid timestamp not before
`sinceTime`; with `since` unset, when `number` is 0 or more than the count
reached. It moves `idx` back once for each of them. -/
theorem newRingReader.rewind_pass (env : Env σ) (req : genericRequest) (wl bl : FilterFuncs)
    (sinceTime : Int) :
    ∀ (pre : List Event) (i idx c : Nat) (w : σ),
      (env.previousN pre.length w).1 = pre.map (fun x => (some x, none)) →
      (∀ x ∈ pre, isRingOverrun (some x) = false) →
      (req.Since.isSome = true → ∀ x ∈ pre, newRingReader.inRange wl bl sinceTime x = true) →
      (req.Since = none → c + pre.countP (counted wl bl) < 2 ^ 64 ∧
        (req.Number = 0 ∨ c + pre.countP (counted wl bl) < req.Number)) →
      ∃ c', newRingReader.rewind env req wl bl sinceTime (pre.length + i) idx c w =
        newRingReader.rewind env req wl bl sinceTime i (dec64^[pre.length] idx) c'
          (env.previousN pre.length w).2 := by
  intro pre
  induction pre with
  | nil => intro i idx c w _ _ _ _; exact ⟨c, by simp [Env.previousN]⟩
  | cons x pre ih =>
    intro i idx c w hprev hover hsince hnum
    have hlen : (x :: pre).length + i = (pre.length + i) + 1 := by
      simp only [List.length_cons]; omega
    rw [hlen]
    simp only [List.length_cons] at hprev ⊢
    rw [Env.previousN_succ] at hprev ⊢
    simp only [List.map_cons, List.cons.injEq] at hprev
    obtain ⟨hr, hrest⟩ := hprev
    rcases hP : env.Previous w with ⟨r, w1⟩
    rw [hP] at hr hrest
    simp only at hr hrest ⊢
    subst hr
    have hovx := hover x (List.mem_cons_self _ _)
    have hover' : ∀ y ∈ pre, isRingOverrun (some y) = false :=
      fun y hy => hover y (List.mem_cons_of_mem _ hy)
    have hsince' : req.Since.isSome = true →
        ∀ y ∈ pre, newRingReader.inRange wl bl sinceTime y = true :=
      fun h y hy => hsince h y (List.mem_cons_of_mem _ hy)
    have hiter : dec64^[pre.length + 1] idx = dec64^[pre.length] (dec64 idx) :=
      Function.iterate_succ_apply dec64 pre.length idx
    rw [hiter]
    by_cases hcx : counted wl bl x = true
    · have hcx' : (x.isLostEvent || !filters.Apply wl bl x) = false := by
        simp only [counted, Bool.and_eq_true, Bool.not_eq_true'] at hcx
        simp [hcx.1, hcx.2]
      cases hS : req.Since with
      | some s =>
        have hin := (newRingReader.inRange_iff wl bl sinceTime x).1
          (hsince (by rw [hS]; rfl) x (List.mem_cons_self _ _))
        obtain ⟨hv, hge⟩ := hin.2 hcx
        have hlt : ¬ (Timestamp.AsTimeOpt x.Timestamp < sinceTime) := by omega
        obtain ⟨c', hc'⟩ := ih i (dec64 idx) (inc64 c) w1 hrest hover' hsince'
          (by intro h; rw [hS] at h; cases h)
        refine ⟨c', ?_⟩
        rw [← hc']
        simp [newRingReader.rewind, hP, hovx, hcx', hS, hv, hlt]
      | none =>
        obtain ⟨h64, hN⟩ := hnum hS
        rw [List.countP_cons] at h64 hN
        simp only [hcx, if_true] at h64 hN
        have hinc : inc64 c = c + 1 := inc64_of_lt c (by omega)
        have hne : ¬ (c + 1 = req.Number) := by omega
        obtain ⟨c', hc'⟩ := ih i (dec64 idx) (c + 1) w1 hrest hover' hsince'
          (by intro _; exact ⟨by omega, by omega⟩)
        refine ⟨c', ?_⟩
        rw [← hc']
        simp [newRingReader.rewind, hP, hovx, hcx', hS, hinc, hne]
    · have hcx' : (x.isLostEvent || !filters.Apply wl bl x) = true := by
        rw [← counted_eq_false_iff]
        simpa using hcx
      obtain ⟨c', hc'⟩ := ih i (dec64 idx) c w1 hrest hover' hsince'
        (by
          intro h
          have := hnum h
          rw [List.countP_cons] at this
          simp only [hcx, Bool.false_eq_true, if_false, Nat.add_zero] at this
          exact this)
      refine ⟨c', ?_⟩
      rw [← hc']
      simp [newRingReader.rewind, hP, hovx, hcx']

theorem newRingReader.rewind_overrun (env : Env σ) (req : genericRequest) (wl bl : FilterFuncs)
    (sinceTime : Int) (i idx c : Nat) (w w1 : σ) (e : Option Event) (err : Option Error)
    (hP : env.Previous w = ((e, err), w1)) (hov : isRingOverrun e = true) :
    newRingReader.rewind env req wl bl sinceTime (i + 1) idx c w = (.ok (inc64 idx), w1) := by
  simp [newRingReader.rewind, hP, hov]

theorem newRingReader.rewind_before_since (env : Env σ) (req : genericRequest)
    (wl bl : FilterFuncs) (sinceTime : Int) (i idx c : Nat) (w w1 : σ) (e : Event)
    (hP : env.Previous w = ((some e, none), w1)) (hS : req.Since.isSome = true)
    (hc : counted wl bl e = true) (hv : Timestamp.CheckValid e.Timestamp = none)
    (hlt : Timestamp.AsTimeOpt e.Timestamp < sinceTime) :
    newRingReader.rewind env req wl bl sinceTime (i + 1) idx c w = (.ok (inc64 idx), w1) := by
  have hc' : (e.isLostEvent || !filters.Apply wl bl e) = false := by
    simp only [counted, Bool.and_eq_true, Bool.not_eq_true'] at hc
    simp [hc.1, hc.2]
  by_cases hov : isRingOverrun (some e) = true
  · exact newRingReader.rewind_overrun env req wl bl sinceTime i idx c w w1 _ _ hP hov
  · have hov' : isRingOverrun (some e) = false := by simpa using hov
    simp [newRingReader.rewind, hP, hov', hc', hS, hv, hlt]

/-- Outside the two cases in which `newRingReader` places the reader without
reading, it checks `since`, if set, and rewinds from `LastWriteParallel()`. -/
theorem newRingReader_rewinds (env : Env σ) (req : genericRequest) (wl bl : FilterFuncs) (w : σ)
    (h1 : ¬ (req.First = true ∧ req.Since = none))
    (h2 : ¬ (req.Follow = true ∧ req.Number = 0 ∧ req.Since = none)) :
    newRingReader env req wl bl w =
      match req.Since with
      | none => newRingReader.rewound env req wl bl zeroTime w
      | some s =>
        match Timestamp.CheckValid (some s) with
        | some err => (some err, w)
        | none => newRingReader.rewound env req wl bl s.AsTime w := by
  have c1 : (req.First && req.Since.isNone) = false := by
    cases hF : req.First <;> cases hS : req.Since <;> simp
    exact h1 ⟨hF, hS⟩
  have c2 : (req.Follow && req.Number == 0 && req.Since.isNone) = false := by
    cases hF : req.Follow <;> cases hS : req.Since <;> simp
    intro hN
    exact h2 ⟨hF, hN, hS⟩
  unfold newRingReader
  simp only [c1, c2, Bool.false_eq_true, if_false]
  cases hS : req.Since with
  | none => rfl
  | some s =>
    simp only
    cases hV : Timestamp.CheckValid (some s) with
    | some err => rfl
    | none => rfl

/-- The rewind from `LastWriteParallel()` when the calls of `Previous`, at
most `ring.Len()` of them, return the events `pre`, which the rewind passes
over, and then a result at which it stops with `idx++`: the reader returned
starts one after `LastWriteParallel()` moved back once for each event of
`pre`. -/
theorem newRingReader.rewound_stop (env : Env σ) (req : genericRequest) (wl bl : FilterFuncs)
    (sinceTime : Int) (w : σ) (pre : List Event) (stop : Option Event × Option Error)
    (hprev : (env.previousN (pre.length + 1)
        (env.NewRingReader (env.LastWriteParallel w) w)).1 =
      pre.map (fun x => (some x, none)) ++ [stop])
    (hlen : pre.length < env.Len (env.NewRingReader (env.LastWriteParallel w) w))
    (hover : ∀ x ∈ pre, isRingOverrun (some x) = false)
    (hsince : req.Since.isSome = true →
      ∀ x ∈ pre, newRingReader.inRange wl bl sinceTime x = true)
    (hnum : req.Since = none → pre.countP (counted wl bl) < 2 ^ 64 ∧
      (req.Number = 0 ∨ pre.countP (counted wl bl) < req.Number))
    (hstop : isRingOverrun stop.1 = true ∨
      (req.Since.isSome = true ∧ ∃ e, stop = (some e, none) ∧ counted wl bl e = true ∧
        Timestamp.CheckValid e.Timestamp = none ∧
        Timestamp.AsTimeOpt e.Timestamp < sinceTime)) :
    newRingReader.rewound env req wl bl sinceTime w =
      (none, env.NewRingReader (inc64 (dec64^[pre.length] (env.LastWriteParallel w)))
        (env.previousN (pre.length + 1) (env.NewRingReader (env.LastWriteParallel w) w)).2) := by
  obtain ⟨hp1, hp2⟩ := Env.previousN_split env pre stop _ hprev
  obtain ⟨i, hi⟩ : ∃ i, env.Len (env.NewRingReader (env.LastWriteParallel w) w) =
      pre.length + (i + 1) :=
    ⟨env.Len (env.NewRingReader (env.LastWriteParallel w) w) - pre.length - 1, by omega⟩
  obtain ⟨c', hc'⟩ := newRingReader.rewind_pass env req wl bl sinceTime pre (i + 1)
    (env.LastWriteParallel w) 0 (env.NewRingReader (env.LastWriteParallel w) w) hp1 hover hsince
    (by intro h; simpa using hnum h)
  unfold newRingReader.rewound
  rw [hi, hc']
  obtain ⟨e, err⟩ := stop
  rcases hstop with hov | ⟨hS, e', he, hc, hv, hlt⟩
  · rw [newRingReader.rewind_overrun env req wl bl sinceTime i _ c' _ _ e err hp2 hov]
  · simp only [Prod.mk.injEq] at he
    obtain ⟨rfl, rfl⟩ := he
    rw [newRingReader.rewind_before_since env req wl bl sinceTime i _ c' _ _ e' hp2 hS hc hv hlt]

theorem dec64_iterate_of_le (n : Nat) : ∀ (x : Nat), n ≤ x → x < 2 ^ 64 →
    dec64^[n] x = x - n := by
  induction n with
  | zero => intro x _ _; rfl
  | succ n ih =>
    intro x hn hx
    rw [Function.iterate_succ_apply]
    obtain ⟨y, rfl⟩ : ∃ y, x = y + 1 := ⟨x - 1, by omega⟩
    rw [dec64_succ y hx, ih y (by omega) (by omega)]
    omega

theorem dec64_lt (x : Nat) : dec64 x < 2 ^ 64 := by
  unfold dec64
  exact Nat.mod_lt _ (by decide)

theorem sub64_succ (x n : Nat) (hn : n + 1 < 2 ^ 64) : sub64 x (n + 1) = dec64 (sub64 x n) := by
  unfold sub64 dec64
  rw [Nat.mod_eq_of_lt hn, Nat.mod_eq_of_lt (by omega : n < 2 ^ 64)]
  omega

/-- Moving a `uint64` back `n` times is the `uint64` subtraction of `n`. -/
theorem dec64_iterate (n : Nat) : ∀ (x : Nat), x < 2 ^ 64 → n < 2 ^ 64 →
    dec64^[n] x = sub64 x n := by
  induction n with
  | zero =>
    intro x hx _
    unfold sub64
    simp only [Function.iterate_zero, id_eq, Nat.zero_mod, Nat.sub_zero, Nat.add_mod_right]
    exact (Nat.mod_eq_of_lt hx).symm
  | succ n ih =>
    intro x hx hn
    rw [Function.iterate_succ_apply', ih x hx (by omega), sub64_succ x n hn]

/-- On a ring at rest, `i` calls of `Previous` from the position `p + i - 1`
return the `i` events stored from `p` on, newest first, when all of them are
still in the ring. -/
theorem Env.previousN_on_ring (build : List Nat → Except Error FilterFuncs)
    (newMask : List String → Except Error FieldMask) (nodeName : String) (R : Ring)
    (cause : Error) (hist : List Event) (hR : R.Holds hist) (h64 : hist.length < 2 ^ 64)
    (p : Nat) (hp : R.write - R.cap ≤ p) :
    ∀ (i : Nat), p + i ≤ hist.length →
      (ringEnv build newMask nodeName).previousN i (World.at R cause (dec64 (p + i))) =
        (((hist.drop p).take i).reverse.map (fun x => (some x, none)),
          World.at R cause (dec64 p)) := by
  intro i
  induction i with
  | zero => intro _; simp [Env.previousN]
  | succ i ih =>
    intro hi
    have hlt : p + i < hist.length := by omega
    have hcur : dec64 (p + (i + 1)) = p + i := dec64_succ (p + i) (by omega)
    have hd := List.drop_eq_getElem_cons hlt
    have hread := Ring.Read_stored R hist hR (p + i) _ _ hd (by omega)
    have hnl : R.belowFloor (p + i) = false :=
      Ring.belowFloor_of_stored R _ (by omega) (by have := hR.1; omega)
    have hprev : (ringEnv build newMask nodeName).Previous (World.at R cause (p + i)) =
        ((some hist[p + i], none), World.at R cause (dec64 (p + i))) := by
      simp [ringEnv, World.Previous, World.at, hread, hnl]
    rw [hcur, Env.previousN_succ, hprev]
    simp only
    rw [ih (by omega)]
    have htake : (hist.drop p).take (i + 1) = (hist.drop p).take i ++ [hist[p + i]] := by
      have hget : (hist.drop p)[i]? = some hist[p + i] := by
        rw [List.getElem?_drop]
        exact List.getElem?_eq_getElem hlt
      rw [List.take_succ, hget]
      rfl
    rw [htake]
    simp

theorem eventsReader.firstHit_filter (r : eventsReader) :
    ∀ (l : List Event) (p : Nat),
      match r.firstHit l p with
      | none => l.filter r.hit = []
      | some (e, q) => p < q ∧ q ≤ p + l.length ∧
          l.filter r.hit = e :: (l.drop (q - p)).filter r.hit := by
  intro l
  induction l with
  | nil => intro p; simp [eventsReader.firstHit]
  | cons x l ih =>
    intro p
    unfold eventsReader.firstHit
    by_cases hx : r.hit x = true
    · simp only [hx, if_true]
      refine ⟨by omega, by simp, ?_⟩
      have : p + 1 - p = 1 := by omega
      rw [this]
      simp [List.filter_cons, hx]
    · simp only [hx, if_false]
      have := ih (p + 1)
      cases hf : r.firstHit l (p + 1) with
      | none =>
        rw [hf] at this
        simp only at this ⊢
        simp [List.filter_cons, hx, this]
      | some eq =>
        obtain ⟨e, q⟩ := eq
        rw [hf] at this
        simp only at this ⊢
        obtain ⟨h1, h2, h3⟩ := this
        refine ⟨by omega, by simp only [List.length_cons]; omega, ?_⟩
        have hq : q - p = (q - (p + 1)) + 1 := by omega
        rw [hq, List.drop_succ_cons]
        simp [List.filter_cons, hx, h3]

/-- On a ring at rest, the repeated calls of `Next` of a reader without time
range that passes the count check return, from the cursor on, every event
that is a LostEvent or that the filters accept, in order, and then `io.EOF`. -/
theorem eventsReader.drain_on_ring (build : List Nat → Except Error FilterFuncs)
    (newMask : List String → Except Error FieldMask) (nodeName : String) (R : Ring)
    (cause : Error) (hist : List Event) (hR : R.Holds hist) (h64 : hist.length < 2 ^ 64)
    (r : eventsReader) (hf : r.follow = false) (ht : r.timeRange = false)
    (hc : ¬ (r.maxEvents > 0 ∧ r.eventCount ≥ r.maxEvents)) (k : Nat)
    (hk : hist.length + 1 ≤ k) :
    ∀ (n : Nat) (l : List Event) (p : Nat), hist.drop p = l → R.write - R.cap ≤ p →
      p ≤ hist.length → l.length + 1 ≤ n →
      r.drain (ringEnv build newMask nodeName) k n (World.at R cause p) =
        some (l.filter r.hit, .EOF, World.at R cause (p + l.length)) := by
  intro n
  induction n with
  | zero => intro l p _ _ _ hn; omega
  | succ n ih =>
    intro l p hd hp hple hn
    have hll : l.length = hist.length - p := by
      rw [← hd, List.length_drop]
    have hlk : l.length + 1 ≤ k := by omega
    have hN := eventsReader.Next_on_ring build newMask nodeName R cause hist hR h64 r hf ht hc
      l p k hd hp hple hlk
    have hfilter := eventsReader.firstHit_filter r l p
    cases hfh : r.firstHit l p with
    | none =>
      rw [hfh] at hN hfilter
      simp only at hN hfilter
      simp [eventsReader.drain, hN, hfilter]
    | some eq =>
      obtain ⟨e, q⟩ := eq
      rw [hfh] at hN hfilter
      simp only at hN hfilter
      obtain ⟨h1, h2, h3⟩ := hfilter
      have hdq : hist.drop q = l.drop (q - p) := by
        rw [← hd, List.drop_drop]
        congr 1
        omega
      have hrec := ih (l.drop (q - p)) q hdq (by omega) (by omega)
        (by simp only [List.length_drop]; omega)
      have hend : q + (l.drop (q - p)).length = p + l.length := by
        simp only [List.length_drop]; omega
      rw [hend] at hrec
      simp [eventsReader.drain, hN, hrec, h3]

/-- The rewind from `LastWriteParallel()` with `since` unset and `number = 0`,
when the `ring.Len()` calls of `Previous` return events, none of them a
ring-overrun marker: the count never equals `number`, the loop ends when `i`
reaches 0, and the reader returned starts at `LastWriteParallel()` moved back
`ring.Len()` times. -/
theorem newRingReader.rewound_exhausts (env : Env σ) (req : genericRequest)
    (wl bl : FilterFuncs) (sinceTime : Int) (w : σ) (pre : List Event)
    (hS : req.Since = none) (hN : req.Number = 0)
    (hlen : pre.length = env.Len (env.NewRingReader (env.LastWriteParallel w) w))
    (h64 : pre.length < 2 ^ 64)
    (hprev : (env.previousN pre.length (env.NewRingReader (env.LastWriteParallel w) w)).1 =
      pre.map (fun x => (some x, none)))
    (hover : ∀ x ∈ pre, isRingOverrun (some x) = false) :
    newRingReader.rewound env req wl bl sinceTime w =
      (none, env.NewRingReader (dec64^[pre.length] (env.LastWriteParallel w))
        (env.previousN pre.length (env.NewRingReader (env.LastWriteParallel w) w)).2) := by
  have hcount : pre.countP (counted wl bl) ≤ pre.length := List.countP_le_length _
  obtain ⟨c', hc'⟩ := newRingReader.rewind_pass env req wl bl sinceTime pre 0
    (env.LastWriteParallel w) 0 (env.NewRingReader (env.LastWriteParallel w) w) hprev hover
    (by intro h; rw [hS] at h; cases h)
    (by intro _; exact ⟨by omega, Or.inl hN⟩)
  unfold newRingReader.rewound
  rw [← hlen]
  rw [Nat.add_zero] at hc'
  rw [hc']
  rfl

/-- The loop body of `Next` ends the stream with `io.EOF` only for an event
that is not a LostEvent, has a valid timestamp and lies after `until`. -/
theorem eventsReader.examine_EOF (r : eventsReader) (e : Event)
    (h : r.examine e = .Fail .EOF) :
    e.isLostEvent = false ∧ r.timeRange = true ∧ Timestamp.CheckValid e.Timestamp = none ∧
      ∃ u, r.until_ = some u ∧ u < Timestamp.AsTimeOpt e.Timestamp := by
  unfold eventsReader.examine at h
  cases hl : e.isLostEvent with
  | true => simp [hl] at h
  | false =>
    simp only [hl, Bool.not_false, if_true] at h
    cases ht : r.timeRange with
    | false =>
      simp only [ht, Bool.false_eq_true, if_false] at h
      split at h <;> cases h
    | true =>
      simp only [ht, if_true] at h
      cases hv : Timestamp.CheckValid e.Timestamp with
      | some err =>
        obtain ⟨why, rfl⟩ := Timestamp.CheckValid_error _ err hv
        simp [hv] at h
      | none =>
        simp only [hv] at h
        refine ⟨rfl, rfl, rfl, ?_⟩
        cases hu : r.until_ with
        | none =>
          simp only [hu, Bool.false_eq_true, if_false] at h
          split at h
          · cases h
          · split at h <;> cases h
        | some u =>
          refine ⟨u, rfl, ?_⟩
          by_contra hle
          have hd : decide (Timestamp.AsTimeOpt e.Timestamp > u) = false := by
            simp only [decide_eq_false_iff_not]
            omega
          simp only [hu, hd, Bool.false_eq_true, if_false] at h
          split at h
          · cases h
          · split at h <;> cases h

theorem eventsReader.read_follow (env : Env σ) (r : eventsReader) (w : σ)
    (hf : r.follow = true) :
    r.read env w =
      match env.NextFollow w with
      | (none, w1) => (.error .EOF, w1)
      | (some e, w1) => (.ok e, w1) := by
  simp [eventsReader.read, hf]

/-- In follow mode `Next` does not depend on `maxEvents` and `eventCount`. -/
theorem eventsReader.Next_follow_count (env : Env σ) (r : eventsReader) (m c : Nat)
    (hf : r.follow = true) :
    ∀ (fuel : Nat) (w : σ),
      r.Next env fuel w = ({ r with maxEvents := m, eventCount := c }).Next env fuel w := by
  intro fuel
  induction fuel with
  | zero => intro w; rfl
  | succ n ih =>
    intro w
    have hread : r.read env w = ({ r with maxEvents := m, eventCount := c }).read env w := by
      rw [eventsReader.read_follow env r w hf]
      exact (eventsReader.read_follow env { r with maxEvents := m, eventCount := c } w hf).symm
    have hex : ∀ e, r.examine e = ({ r with maxEvents := m, eventCount := c }).examine e :=
      fun _ => rfl
    unfold eventsReader.Next
    rw [← hread]
    cases env.ctxErr w with
    | some err => rfl
    | none =>
      simp only
      rcases r.read env w with ⟨err | e, w1⟩
      · rfl
      · simp only
        rw [← hex e]
        cases r.examine e with
        | Return => rfl
        | Fail err => rfl
        | Continue => exact ih w1

/-- In follow mode `Next` returns `io.EOF` only when `NextFollow` has returned
no event or an event after `until`, provided the context's error is never
`io.EOF`. -/
theorem eventsReader.Next_follow_EOF (env : Env σ) (r : eventsReader) (hf : r.follow = true)
    (hctx : ∀ w, env.ctxErr w ≠ some .EOF) :
    ∀ (fuel : Nat) (w w1 : σ), r.Next env fuel w = some (.error .EOF, w1) →
      ∃ w0, env.NextFollow w0 = (none, w1) ∨
        ∃ e, env.NextFollow w0 = (some e, w1) ∧ r.examine e = .Fail .EOF := by
  intro fuel
  induction fuel with
  | zero => intro w w1 h; simp [eventsReader.Next] at h
  | succ n ih =>
    intro w w1 h
    unfold eventsReader.Next at h
    cases hc : env.ctxErr w with
    | some err =>
      simp only [hc, Option.some.injEq, Prod.mk.injEq, Except.error.injEq] at h
      exact absurd (by rw [hc, h.1]) (hctx w)
    | none =>
      simp only [hc] at h
      rw [eventsReader.read_follow env r w hf] at h
      rcases hN : env.NextFollow w with ⟨_ | e, w2⟩
      · simp only [hN, Option.some.injEq, Prod.mk.injEq, true_and] at h
        exact ⟨w, Or.inl (by rw [hN, h])⟩
      · simp only [hN] at h
        cases hx : r.examine e with
        | Return => simp [hx] at h
        | Fail err =>
          simp only [hx, Option.some.injEq, Prod.mk.injEq, Except.error.injEq] at h
          obtain ⟨rfl, rfl⟩ := h
          exact ⟨w, Or.inr ⟨e, hN, hx⟩⟩
        | Continue =>
          simp only [hx] at h
          exact ih w2 w1 h

/-- A rewind with at least one pass left calls `Previous` at least once: the
state it ends in is the state after some `k` calls, `1 ≤ k ≤ i + 1`. -/
theorem newRingReader.rewind_calls_pos (env : Env σ) (req : genericRequest) (wl bl : FilterFuncs)
    (sinceTime : Int) (i idx c : Nat) (w : σ) :
    ∃ k, 1 ≤ k ∧ k ≤ i + 1 ∧
      (newRingReader.rewind env req wl bl sinceTime (i + 1) idx c w).2 =
        (env.previousN k w).2 := by
  have one : (env.previousN 1 w).2 = (env.Previous w).2 := rfl
  have more : ∀ (idx' c' : Nat), ∃ k, 1 ≤ k ∧ k ≤ i + 1 ∧
      (newRingReader.rewind env req wl bl sinceTime i idx' c' (env.Previous w).2).2 =
        (env.previousN k w).2 := by
    intro idx' c'
    obtain ⟨k, hk, hst⟩ :=
      newRingReader.rewind_calls env req wl bl sinceTime i idx' c' (env.Previous w).2
    exact ⟨k + 1, by omega, by omega, by rw [hst, Env.previousN_succ]⟩
  unfold newRingReader.rewind
  rcases hP : env.Previous w with ⟨⟨e, err⟩, w1⟩
  rw [hP] at one more
  simp only
  split
  · exact ⟨1, by omega, by omega, one.symm⟩
  · cases err with
    | some err => exact ⟨1, by omega, by omega, one.symm⟩
    | none =>
      cases e with
      | none => exact ⟨1, by omega, by omega, one.symm⟩
      | some e =>
        simp only
        split
        · exact more _ _
        · split
          · split
            · exact ⟨1, by omega, by omega, one.symm⟩
            · split
              · exact ⟨1, by omega, by omega, one.symm⟩
              · exact more _ _
          · split
            · exact ⟨1, by omega, by omega, one.symm⟩
            · exact more _ _

/-- The `float64` operations on a few operands: a quotient rounded down
(1/3), a quotient rounded up (1/10), a conversion on a tie, which goes to the
even neighbour, the seconds of one and a half seconds and of minus one
nanosecond, and a division by zero. -/
theorem Float64.round_examples :
    Float64.div (Float64.ofInt 1) (Float64.ofInt 3) = Float64.dyadic 6004799503160661 (-54) ∧
    Float64.div (Float64.ofInt 1) (Float64.ofInt 10) = Float64.dyadic 7205759403792794 (-56) ∧
    Float64.ofInt (2 ^ 53 + 1) = Float64.dyadic (2 ^ 53) 0 ∧
    Float64.ofInt (2 ^ 53 + 3) = Float64.dyadic (2 ^ 53 + 4) 0 ∧
    Duration.Seconds 1500000000 = Float64.dyadic 3 (-1) ∧
    Duration.Seconds (-1) = Float64.div (Float64.ofInt (-1)) (Float64.ofInt 1000000000) ∧
    Float64.div (Float64.ofInt 1) (Float64.ofInt 0) = .PosInf := by
  decide

end Lemmas

/-- C1: `validateRequest` returns the InvalidArgument error exactly when the
request has `first` and `follow` both set, and nil for every other request,
whatever `number`, `since` and `until` are; `GetFlows`, `GetAgentEvents` and
`GetDebugEvents` return that error for such a request with the environment
state unchanged (no hook has run, no ring operation was made) and nothing
sent, for every amount of fuel. -/
theorem validateRequest_first_and_follow {σ : Type} (env : Env σ) (opts : Options σ)
    (fuel : Nat) (req : genericRequest) (freq : GetFlowsRequest) (w : σ) :
    (validateRequest req =
        some (.Status .InvalidArgument "first cannot be specified with follow") ↔
      (req.First = true ∧ req.Follow = true)) ∧
    (validateRequest req = none ↔ ¬ (req.First = true ∧ req.Follow = true)) ∧
    ((freq.First = true ∧ freq.Follow = true) →
      GetFlows env opts fuel freq w =
        some ⟨some (.Status .InvalidArgument "first cannot be specified with follow"),
          w, [], 0⟩) ∧
    ((req.First = true ∧ req.Follow = true) →
      GetAgentEvents env fuel req w =
        some ⟨some (.Status .InvalidArgument "first cannot be specified with follow"),
          w, [], 0⟩) ∧
    ((req.First = true ∧ req.Follow = true) →
      GetDebugEvents env fuel req w =
        some ⟨some (.Status .InvalidArgument "first cannot be specified with follow"),
          w, [], 0⟩) := by
  refine ⟨?_, ?_, ?_, ?_, ?_⟩
  · unfold validateRequest
    by_cases h : (req.First && req.Follow) = true
    · simp only [h, if_true, true_iff]
      simpa using h
    · simp only [h, if_false]
      constructor
      · intro h'
        cases h'
      · intro h'
        exact absurd (by simpa using h') h
  · unfold validateRequest
    by_cases h : (req.First && req.Follow) = true
    · simp only [h, if_true]
      constructor
      · intro h'
        cases h'
      · intro h'
        exact absurd (by simpa using h) h'
    · simp only [h, if_false, true_iff]
      simpa using h
  · rintro ⟨h1, h2⟩
    simp [GetFlows, validateRequest, h1, h2]
  · rintro ⟨h1, h2⟩
    simp [GetAgentEvents, validateRequest, h1, h2]
  · rintro ⟨h1, h2⟩
    simp [GetDebugEvents, validateRequest, h1, h2]

/-- C2: a LostEvent candidate is returned at once. For every `eventsReader`
(any whitelist, blacklist, time window, count and mode), if the context is
live and the candidate read from the ring reader is a LostEvent, the loop
body returns it without a timestamp check or a filter, and `Next` returns
that event with the state the read left. `Next` takes the `eventsReader`
read-only, so `eventCount` is unchanged. -/
theorem Next_LostEvent_unfiltered {σ : Type} (env : Env σ) (r : eventsReader) (fuel : Nat)
    (w w1 : σ) (e : Event) (hctx : env.ctxErr w = none) (hc : r.Candidate env w e w1)
    (hl : e.isLostEvent = true) :
    r.examine e = .Return ∧ r.Next env (fuel + 1) w = some (.ok e, w1) := by
  have hx := eventsReader.examine_lost r e hl
  refine ⟨hx, ?_⟩
  rw [eventsReader.Next_step env r fuel w w1 e hctx hc, hx]

/-- Witness of C2: a blacklist that rejects every event and a time window no
event is in still let the stored LostEvent through. -/
theorem Next_LostEvent_unfiltered_witness :
    rejectAll.examine (lostAt 9) = .Return ∧
      rejectAll.Next testEnv 1 (worldOf 4 [lostAt 9]) =
        some (.ok (lostAt 9), { worldOf 4 [lostAt 9] with idx := 1 }) :=
  Next_LostEvent_unfiltered testEnv rejectAll 0 (worldOf 4 [lostAt 9])
    { worldOf 4 [lostAt 9] with idx := 1 } (lostAt 9) rfl
    (Or.inr ⟨rfl, by decide, by decide⟩) rfl

/-- C5: with `since = T` set (the reader is the one `newEventsReader` builds,
in follow mode or not, with any filters and any `until`), every event `Next`
returns that is not a LostEvent has a valid timestamp that is not before `T`;
a candidate whose timestamp is exactly `T` is never skipped by the since
check (if the loop body skips it, the filters rejected it), and `Next` returns
it when the filters accept it and `T` is not after `until`. -/
theorem Next_since_lower_bound {σ : Type} (env : Env σ) (req : genericRequest)
    (wl bl : FilterFuncs) (r : eventsReader) (T : Timestamp) (hT : req.Since = some T)
    (hr : newEventsReader req wl bl = .ok r) :
    (∀ (fuel : Nat) (w w1 : σ) (e : Event),
      r.Next env fuel w = some (.ok e, w1) → e.isLostEvent = false →
        Timestamp.CheckValid e.Timestamp = none ∧
          ¬ (Timestamp.AsTimeOpt e.Timestamp < T.AsTime)) ∧
    (∀ (e : Event), e.isLostEvent = false → e.HasTime T.AsTime →
      r.examine e = .Continue → filters.Apply wl bl e = false) ∧
    (∀ (fuel : Nat) (w w1 : σ) (e : Event),
      env.ctxErr w = none → r.Candidate env w e w1 → e.isLostEvent = false →
      e.HasTime T.AsTime → filters.Apply wl bl e = true →
      (∀ u, req.Until = some u → T.AsTime ≤ u.AsTime) →
        r.Next env (fuel + 1) w = some (.ok e, w1)) := by
  obtain ⟨hwl, hbl, -, -, htr, -, hs, hu, -, -⟩ := newEventsReader_fields req wl bl r hr
  have htr' : r.timeRange = true := by simp [htr, hT]
  have hs' : r.since = some T.AsTime := by simp [hs, hT]
  have key : ∀ (e : Event), e.isLostEvent = false → e.HasTime T.AsTime →
      r.examine e = (if (match r.until_ with | some u => decide (T.AsTime > u) | none => false)
        then .Fail .EOF
        else if !filters.Apply wl bl e then .Continue else .Return) := by
    intro e hl ⟨hv, ht⟩
    simp [eventsReader.examine, hl, htr', hv, ht, hs', hwl, hbl]
  refine ⟨?_, ?_, ?_⟩
  · intro fuel w w1 e h hl
    have hx := eventsReader.Next_ok_examine env r fuel w w1 e h
    obtain ⟨hv, -, hge⟩ := eventsReader.examine_return_time r e hl htr' hx
    exact ⟨hv, by have := hge _ hs'; omega⟩
  · intro e hl ht hx
    rw [key e hl ht] at hx
    split at hx
    · cases hx
    · split at hx
      · simpa using ‹(!filters.Apply wl bl e) = true›
      · cases hx
  · intro fuel w w1 e hctx hc hl ht hA hU
    rw [eventsReader.Next_step env r fuel w w1 e hctx hc, key e hl ht]
    have hno : (match r.until_ with | some u => decide (T.AsTime > u) | none => false) = false := by
      cases hq : req.Until with
      | none => simp [hu, hq]
      | some u =>
        have := hU u hq
        simp only [hu, hq, Option.map_some', decide_eq_false_iff_not]
        omega
    simp [hno, hA]

/-- Witness of C5: the flow with timestamp exactly `since = 3 s` is returned,
after the flows at 1 s and 2 s have been skipped. -/
theorem Next_since_lower_bound_witness :
    (plainReader 0 (some 3) none).Next testEnv 1
        { worldOf 4 [flowAt 1, flowAt 2, flowAt 3] with idx := 2 } =
      some (.ok (flowAt 3), { worldOf 4 [flowAt 1, flowAt 2, flowAt 3] with idx := 3 }) :=
  (Next_since_lower_bound testEnv (requestOf 0 (some (tsec 3)) none) [] []
    (plainReader 0 (some 3) none) (tsec 3) rfl rfl).2.2 0
    { worldOf 4 [flowAt 1, flowAt 2, flowAt 3] with idx := 2 }
    { worldOf 4 [flowAt 1, flowAt 2, flowAt 3] with idx := 3 } (flowAt 3) rfl
    (Or.inr ⟨rfl, by decide, by decide⟩) rfl ⟨rfl, rfl⟩ rfl (by intro u hu; cases hu)

/-- C6: with `until = U` set (the reader is the one `newEventsReader`
builds), `Next` returns `io.EOF` as soon as the candidate is not a LostEvent
and has a valid timestamp after `U`; it never returns an event that is not a
LostEvent with a timestamp after `U`; a candidate with timestamp exactly `U`
is returned when the filters accept it and `since` is not after `U`. On the
ring of capacity 4 after flows with timestamps 1 to 5, `GetFlows` with
`since = 3` and `until = 4` sends exactly the flows 3 and 4 and returns nil. -/
theorem Next_until_upper_bound {σ : Type} (env : Env σ) (req : genericRequest)
    (wl bl : FilterFuncs) (r : eventsReader) (U : Timestamp) (hU : req.Until = some U)
    (hr : newEventsReader req wl bl = .ok r) :
    (∀ (fuel : Nat) (w w1 : σ) (e : Event) (t : Int),
      env.ctxErr w = none → r.Candidate env w e w1 → e.isLostEvent = false →
      e.HasTime t → U.AsTime < t →
        r.Next env (fuel + 1) w = some (.error .EOF, w1)) ∧
    (∀ (fuel : Nat) (w w1 : σ) (e : Event),
      r.Next env fuel w = some (.ok e, w1) → e.isLostEvent = false →
        Timestamp.CheckValid e.Timestamp = none ∧
          ¬ (U.AsTime < Timestamp.AsTimeOpt e.Timestamp)) ∧
    (∀ (fuel : Nat) (w w1 : σ) (e : Event),
      env.ctxErr w = none → r.Candidate env w e w1 → e.isLostEvent = false →
      e.HasTime U.AsTime → filters.Apply wl bl e = true →
      (∀ s, req.Since = some s → s.AsTime ≤ U.AsTime) →
        r.Next env (fuel + 1) w = some (.ok e, w1)) ∧
    (GetFlows testEnv noHooks 8 (flowsRequest (requestOf 0 (some (tsec 3)) (some (tsec 4))))
        (worldOf 4 [flowAt 1, flowAt 2, flowAt 3, flowAt 4, flowAt 5])).map
      (fun o => (o.err, o.sent)) = some (none, [flowResponse 3, flowResponse 4]) := by
  obtain ⟨hwl, hbl, -, -, htr, -, hs, hu, -, -⟩ := newEventsReader_fields req wl bl r hr
  have htr' : r.timeRange = true := by simp [htr, hU]
  have hu' : r.until_ = some U.AsTime := by simp [hu, hU]
  refine ⟨?_, ?_, ?_, ?_⟩
  · intro fuel w w1 e t hctx hc hl ⟨hv, ht⟩ hgt
    rw [eventsReader.Next_step env r fuel w w1 e hctx hc]
    have : r.examine e = .Fail .EOF := by
      simp [eventsReader.examine, hl, htr', hv, ht, hu', hgt]
    rw [this]
  · intro fuel w w1 e h hl
    have hx := eventsReader.Next_ok_examine env r fuel w w1 e h
    obtain ⟨hv, hle, -⟩ := eventsReader.examine_return_time r e hl htr' hx
    exact ⟨hv, by have := hle _ hu'; omega⟩
  · intro fuel w w1 e hctx hc hl ⟨hv, ht⟩ hA hS
    rw [eventsReader.Next_step env r fuel w w1 e hctx hc]
    have hno : (match r.since with | some s => decide (U.AsTime < s) | none => false) = false := by
      cases hq : req.Since with
      | none => simp [hs, hq]
      | some s =>
        have := hS s hq
        simp only [hs, hq, Option.map_some', decide_eq_false_iff_not]
        omega
    have : r.examine e = .Return := by
      simp [eventsReader.examine, hl, htr', hv, ht, hu', hno, hwl, hbl, hA]
    rw [this]
  · decide

/-- Witness of C6: reading on from the flow at 5 s with `until = 4 s` ends the
stream. -/
theorem Next_until_upper_bound_witness :
    (plainReader 0 (some 3) (some 4)).Next testEnv 1
        { worldOf 8 [flowAt 1, flowAt 2, flowAt 3, flowAt 4, flowAt 5] with idx := 4 } =
      some (.error .EOF,
        { worldOf 8 [flowAt 1, flowAt 2, flowAt 3, flowAt 4, flowAt 5] with idx := 5 }) :=
  (Next_until_upper_bound testEnv (requestOf 0 (some (tsec 3)) (some (tsec 4))) [] []
    (plainReader 0 (some 3) (some 4)) (tsec 4) rfl rfl).1 0
    { worldOf 8 [flowAt 1, flowAt 2, flowAt 3, flowAt 4, flowAt 5] with idx := 4 }
    { worldOf 8 [flowAt 1, flowAt 2, flowAt 3, flowAt 4, flowAt 5] with idx := 5 }
    (flowAt 5) 5000000000 rfl (Or.inr ⟨rfl, by decide, by decide⟩) rfl ⟨rfl, rfl⟩ (by decide)

/-- C7: `Next` never returns an event that is not a LostEvent and that the
filter chain rejects; a rejected candidate that reaches the filters is
skipped, the call going on with the next pass of its loop; the chain accepts
an event iff (the whitelist is empty or some whitelist predicate matches) and
(the blacklist is empty or no blacklist predicate matches); and with both
lists empty and no time range, `Next` with a live context hands on what the
ring reader returns (`Next` after the count check, `NextFollow` in follow
mode), event unchanged. -/
theorem Next_applies_filter_chain {σ : Type} (env : Env σ) (r : eventsReader) :
    (∀ (fuel : Nat) (w w1 : σ) (e : Event),
      r.Next env fuel w = some (.ok e, w1) → e.isLostEvent = false →
        filters.Apply r.whitelist r.blacklist e = true) ∧
    (∀ (fuel : Nat) (w w1 : σ) (e : Event),
      env.ctxErr w = none → r.Candidate env w e w1 → e.isLostEvent = false →
      filters.Apply r.whitelist r.blacklist e = false → r.ReachesFilters e →
        r.Next env (fuel + 1) w = r.Next env fuel w1) ∧
    (∀ (e : Event), filters.Apply r.whitelist r.blacklist e = true ↔
      (r.whitelist = [] ∨ ∃ f ∈ r.whitelist, f e = true) ∧
        (r.blacklist = [] ∨ ∀ f ∈ r.blacklist, f e = false)) ∧
    (r.whitelist = [] → r.blacklist = [] → r.timeRange = false →
      (∀ (e : Event), r.examine e = .Return) ∧
      (∀ (fuel : Nat) (w : σ), env.ctxErr w = none → r.follow = false →
        ¬ (r.maxEvents > 0 ∧ r.eventCount ≥ r.maxEvents) →
          r.Next env (fuel + 1) w = some (ofRingNext (env.Next w))) ∧
      (∀ (fuel : Nat) (w w1 : σ) (e : Event), env.ctxErr w = none → r.follow = true →
        env.NextFollow w = (some e, w1) → r.Next env (fuel + 1) w = some (.ok e, w1))) := by
  refine ⟨?_, ?_, ?_, ?_⟩
  · intro fuel w w1 e h hl
    exact eventsReader.examine_return_accepts r e hl
      (eventsReader.Next_ok_examine env r fuel w w1 e h)
  · intro fuel w w1 e hctx hc hl hA ht
    rw [eventsReader.Next_step env r fuel w w1 e hctx hc,
      eventsReader.examine_reject r e hl hA ht]
  · intro e
    exact filters.Apply_iff r.whitelist r.blacklist e
  · intro hwl hbl htr
    have hx : ∀ (e : Event), r.examine e = .Return := by
      intro e
      simp [eventsReader.examine, htr, hwl, hbl, filters.Apply, FilterFuncs.MatchOne,
        FilterFuncs.MatchNone]
    refine ⟨hx, ?_, ?_⟩
    · intro fuel w hctx hf hc
      simp only [eventsReader.Next, hctx, eventsReader.read, hf, hc, Bool.false_eq_true,
        if_false]
      rcases hN : env.Next w with ⟨⟨_ | e', _ | err⟩, w'⟩ <;> simp [ofRingNext, hx]
    · intro fuel w w1 e hctx hf hN
      rw [eventsReader.Next_step env r fuel w w1 e hctx (Or.inl ⟨hf, hN⟩), hx e]

/-- Witness of C7: the whitelist accepts only flows with `Uuid` at most 1; the
call on the flow with `Uuid` 2 skips it and ends with the end of the ring. -/
theorem Next_applies_filter_chain_witness :
    uuidAtMostOne.Next testEnv 2 { worldOf 4 [flowAt 1, flowAt 2] with idx := 1 } =
      uuidAtMostOne.Next testEnv 1 { worldOf 4 [flowAt 1, flowAt 2] with idx := 2 } ∧
    uuidAtMostOne.Next testEnv 1 { worldOf 4 [flowAt 1, flowAt 2] with idx := 2 } =
      some (.error .EOF, { worldOf 4 [flowAt 1, flowAt 2] with idx := 2 }) :=
  ⟨(Next_applies_filter_chain testEnv uuidAtMostOne).2.1 1
      { worldOf 4 [flowAt 1, flowAt 2] with idx := 1 }
      { worldOf 4 [flowAt 1, flowAt 2] with idx := 2 } (flowAt 2) rfl
      (Or.inr ⟨rfl, by decide, by decide⟩) rfl rfl (Or.inl rfl), rfl⟩

/-- C8: not in follow mode and with a live context, when `maxEvents > 0` and
`eventCount >= maxEvents`, `Next` returns `io.EOF` and leaves the state, the
ring reader's cursor included, as it was; when `maxEvents = 0` the call reads
from the ring reader whatever `eventCount` is; and an error of the ring
reader's `Next`, `io.EOF` or any other, is the error `Next` returns. -/
theorem Next_maxEvents_reached {σ : Type} (env : Env σ) (r : eventsReader) (fuel : Nat)
    (w : σ) (hctx : env.ctxErr w = none) (hf : r.follow = false) :
    (r.maxEvents > 0 → r.eventCount ≥ r.maxEvents →
      r.Next env (fuel + 1) w = some (.error .EOF, w)) ∧
    (r.maxEvents = 0 → r.read env w = ofRingNext (env.Next w)) ∧
    (∀ (x : Option Event) (err : Error) (w1 : σ),
      ¬ (r.maxEvents > 0 ∧ r.eventCount ≥ r.maxEvents) → env.Next w = ((x, some err), w1) →
        r.Next env (fuel + 1) w = some (.error err, w1)) := by
  refine ⟨?_, ?_, ?_⟩
  · intro h1 h2
    simp [eventsReader.Next, hctx, eventsReader.read, hf, h1, h2]
  · intro h0
    simp only [eventsReader.read, hf, h0, Bool.false_eq_true, if_false, gt_iff_lt,
      Nat.lt_irrefl, false_and]
    rcases hN : env.Next w with ⟨⟨_ | e', _ | err⟩, w'⟩ <;> simp [ofRingNext]
  · intro x err w1 hc hN
    simp [eventsReader.Next, hctx, eventsReader.read, hf, hc, hN]

/-- Witness of C8: with `maxEvents = 1` and one event already counted, `Next`
returns `io.EOF` although the ring holds a flow at the cursor. -/
theorem Next_maxEvents_reached_witness :
    { plainReader 1 none none with eventCount := 1 }.Next testEnv 1 (worldOf 4 [flowAt 1]) =
      some (.error .EOF, worldOf 4 [flowAt 1]) :=
  (Next_maxEvents_reached testEnv { plainReader 1 none none with eventCount := 1 } 0
    (worldOf 4 [flowAt 1]) rfl rfl).1 (by decide) (by decide)

/-- C9: when the context is cancelled at the start of a pass of the loop of
`Next`, the first pass or the pass after a skipped candidate, `Next` returns
`ctx.Err()` and no event, and the state is the one that pass started in: no
further event is read. This holds for every `eventsReader`, in follow mode or
not, also when `eventCount >= maxEvents > 0`. -/
theorem Next_cancelled {σ : Type} (env : Env σ) (r : eventsReader) (fuel : Nat) (w : σ)
    (err : Error) :
    (env.ctxErr w = some err → r.Next env (fuel + 1) w = some (.error err, w)) ∧
    (∀ (w0 : σ) (e : Event), env.ctxErr w0 = none → r.Candidate env w0 e w →
      r.examine e = .Continue → env.ctxErr w = some err →
        r.Next env (fuel + 2) w0 = some (.error err, w)) := by
  have h1 : env.ctxErr w = some err → r.Next env (fuel + 1) w = some (.error err, w) := by
    intro h
    simp [eventsReader.Next, h]
  refine ⟨h1, ?_⟩
  intro w0 e hctx hc hx h
  rw [eventsReader.Next_step env r (fuel + 1) w0 w e hctx hc, hx]
  exact h1 h

/-- Witness of C9: a cancelled context wins over the count check of a reader
that has reached `maxEvents`. -/
theorem Next_cancelled_witness :
    { plainReader 1 none none with eventCount := 1 }.Next testEnv 1
        { worldOf 4 [flowAt 1] with ctx := some .Canceled } =
      some (.error .Canceled, { worldOf 4 [flowAt 1] with ctx := some .Canceled }) :=
  (Next_cancelled testEnv { plainReader 1 none none with eventCount := 1 } 0
    { worldOf 4 [flowAt 1] with ctx := some .Canceled } .Canceled).1 rfl

/-- C10, the claim fails: a follow query on an empty ring parks in
`NextFollow` and is cancelled there. `Next` returns `io.EOF`, not the
context's error `context.Canceled`, and `GetFlows` returns nil. -/
theorem follow_cancel_returns_EOF :
    followReader.Next testEnv 1 (worldOf 4 []) =
      some (.error .EOF, { worldOf 4 [] with ctx := some .Canceled }) ∧
    (GetFlows testEnv noHooks 1
        (flowsRequest { Number := 0, Follow := true, Since := none, Until := none,
                        First := false }) (worldOf 4 [])).map
      (fun o => (o.err, o.world.ctx, o.sent)) = some (none, some .Canceled, []) :=
  ⟨rfl, by decide⟩

/-- C10 as amended: in follow mode with a live context, when `NextFollow`
returns no event (the query was cancelled while the reader was parked),
`Next` returns `io.EOF`, and the delivery loop of `GetFlows` returns nil
without sending anything more. -/
theorem Next_follow_no_event_is_EOF {σ : Type} (env : Env σ) (opts : Options σ)
    (mask : FieldMask) (r : eventsReader) (fuel n : Nat) (w w1 : σ)
    (sent : List GetFlowsResponse) (hctx : env.ctxErr w = none) (hf : r.follow = true)
    (hN : env.NextFollow w = (none, w1)) :
    r.Next env (fuel + 1) w = some (.error .EOF, w1) ∧
      GetFlows.loop env opts mask (fuel + 1) (n + 1) r w sent =
        some ⟨none, w1, sent, r.eventCount⟩ := by
  have h : r.Next env (fuel + 1) w = some (.error .EOF, w1) := by
    simp [eventsReader.Next, hctx, eventsReader.read, hf, hN]
  refine ⟨h, ?_⟩
  simp [GetFlows.loop, h, eofIsNil]

/-- Witness of C10 as amended, on the empty ring. -/
theorem Next_follow_no_event_is_EOF_witness :
    followReader.Next testEnv 1 (worldOf 4 []) =
        some (.error .EOF, { worldOf 4 [] with ctx := some .Canceled }) ∧
      GetFlows.loop testEnv noHooks { Active := false, Copy := fun f => f } 1 1 followReader
          (worldOf 4 []) [] =
        some ⟨none, { worldOf 4 [] with ctx := some .Canceled }, [], 0⟩ :=
  Next_follow_no_event_is_EOF testEnv noHooks { Active := false, Copy := fun f => f }
    followReader 0 0 (worldOf 4 []) { worldOf 4 [] with ctx := some .Canceled } [] rfl rfl rfl

/-- C4: on a ring that holds `K <= Cap` events (the ring of capacity `C`
after writing `evs`, with `K` the length of `evs`) and is not written to
during the query, a request with `first` set, `follow` unset, `number = 0`
and no time window makes `newRingReader` start at `ring.OldestWrite()`,
which is 0, and with empty whitelist and blacklist the repeated calls of
`eventsReader.Next` return exactly the events of `evs`, each once and in the
order written, and then `io.EOF`, for every fuel above `K`. -/
theorem first_query_returns_ring_in_order (build : List Nat → Except Error FilterFuncs)
    (newMask : List String → Except Error FieldMask) (nodeName : String) (C : Nat)
    (now : Option Timestamp) (cause : Error) (evs : List Event) (p0 : Nat)
    (hK : evs.length ≤ C) (h64 : evs.length < 2 ^ 64) :
    ((NewRing C now).WriteAll evs).OldestWrite = 0 ∧
    newRingReader (ringEnv build newMask nodeName) firstRequest [] []
        (World.at ((NewRing C now).WriteAll evs) cause p0) =
      (none, World.at ((NewRing C now).WriteAll evs) cause
        ((NewRing C now).WriteAll evs).OldestWrite) ∧
    ∃ r, newEventsReader firstRequest [] [] = .ok r ∧
      ∀ (k n : Nat), evs.length + 1 ≤ k → evs.length + 1 ≤ n →
        r.drain (ringEnv build newMask nodeName) k n
            (World.at ((NewRing C now).WriteAll evs) cause
              ((NewRing C now).WriteAll evs).OldestWrite) =
          some (evs, .EOF, World.at ((NewRing C now).WriteAll evs) cause evs.length) := by
  obtain ⟨hR, hcap⟩ := NewRing_WriteAll_holds C now evs
  have hw : ((NewRing C now).WriteAll evs).write = evs.length := hR.1
  have hO : ((NewRing C now).WriteAll evs).OldestWrite = 0 := by
    unfold Ring.OldestWrite
    rw [hw, hcap]
    omega
  refine ⟨hO, ?_, ?_⟩
  · simp [newRingReader, firstRequest, ringEnv, World.at]
  · refine ⟨plainReader 0 none none, rfl, ?_⟩
    rw [hO]
    generalize hr : plainReader 0 none none = r
    have hf : r.follow = false := by rw [← hr]; rfl
    have ht : r.timeRange = false := by rw [← hr]; rfl
    have hc : ¬ (r.maxEvents > 0 ∧ r.eventCount ≥ r.maxEvents) := by
      rw [← hr]; simp [plainReader]
    have hhit : ∀ e, r.hit e = true := by
      intro e
      rw [← hr]
      simp [plainReader, eventsReader.hit, filters.Apply, FilterFuncs.MatchOne,
        FilterFuncs.MatchNone]
    have key : ∀ (l : List Event) (p k n : Nat), evs.drop p = l → p ≤ evs.length →
        l.length + 1 ≤ k → l.length + 1 ≤ n →
        r.drain (ringEnv build newMask nodeName) k n
            (World.at ((NewRing C now).WriteAll evs) cause p) =
          some (l, .EOF, World.at ((NewRing C now).WriteAll evs) cause (p + l.length)) := by
      intro l
      induction l with
      | nil =>
        intro p k n hd hple hk hn
        obtain ⟨n', rfl⟩ : ∃ n', n = n' + 1 := ⟨n - 1, by simp at hn; omega⟩
        have hN := eventsReader.Next_on_ring build newMask nodeName _ cause evs hR h64 r hf ht
          hc [] p k hd (by rw [hw, hcap]; omega) hple hk
        simp [eventsReader.drain, hN, eventsReader.firstHit]
      | cons e l ih =>
        intro p k n hd hple hk hn
        obtain ⟨n', rfl⟩ : ∃ n', n = n' + 1 := ⟨n - 1, by simp at hn; omega⟩
        have hlen1 := List.lt_length_of_drop_cons evs p e l hd
        have hN := eventsReader.Next_on_ring build newMask nodeName _ cause evs hR h64 r hf ht
          hc (e :: l) p k hd (by rw [hw, hcap]; omega) hple hk
        have hrec := ih (p + 1) k n' (List.drop_succ_of_drop_cons evs p e l hd) (by omega)
          (by simp only [List.length_cons] at hk; omega)
          (by simp only [List.length_cons] at hn; omega)
        have harith : p + 1 + l.length = p + (e :: l).length := by
          simp only [List.length_cons]; omega
        simp [eventsReader.drain, hN, eventsReader.firstHit, hhit e, hrec, harith]
    intro k n hk hn
    have := key evs 0 k n (by simp) (by omega) hk hn
    simpa using this

/-- Witness of C4: the ring of capacity 4 after the flows 1, 2, 3. -/
theorem first_query_returns_ring_in_order_witness :
    (plainReader 0 none none).drain testEnv 4 4
        (World.at ((NewRing 4 none).WriteAll [flowAt 1, flowAt 2, flowAt 3]) .Canceled 0) =
      some ([flowAt 1, flowAt 2, flowAt 3], .EOF,
        World.at ((NewRing 4 none).WriteAll [flowAt 1, flowAt 2, flowAt 3]) .Canceled 3) := by
  obtain ⟨-, -, r, hr, h⟩ := first_query_returns_ring_in_order buildTest noMask "node" 4 none
    .Canceled [flowAt 1, flowAt 2, flowAt 3] 0 (by decide) (by decide)
  have hr' : r = plainReader 0 none none := by
    have : newEventsReader firstRequest [] [] = .ok (plainReader 0 none none) := rfl
    rw [this] at hr
    cases hr
    rfl
  rw [← hr']
  exact h 4 4 (by decide) (by decide)

/-- C3, the claim fails: on the ring of capacity 4 after two flows and an
agent event, without filters, `GetFlows` with `number = 2` sends one flow
response, although the ring holds two flows that the filter chain accepts:
the rewind counted the agent event. -/
theorem number_query_counts_agent_event :
    (GetFlows testEnv noHooks 8 (flowsRequest (requestOf 2 none none))
        (worldOf 4 [flowAt 1, flowAt 2, agentAt 3])).map
      (fun o => (o.err, o.sent)) = some (none, [flowResponse 2]) ∧
    min 2 (acceptedFlows [] [] (readable 4 [flowAt 1, flowAt 2, agentAt 3])) = 2 := by
  decide

/-- C3 as amended: on a ring that is not written to during the query (the
ring of capacity `C` after the writes `hist`), for a `GetFlows` request with
`number = N > 0`, neither `follow` nor `first`, no time window, no delivery
hooks and `OnGetFlows` hooks that let the query pass: if the ring stores no
ring-overrun LostEvent and every event in the ring that the rewind counts
(not a LostEvent, accepted by the filter chain) is a Flow, then `GetFlows`
returns nil after sending exactly `min(N, Q)` flow responses, `Q` being the
number of Flow events in the ring that the chain accepts. The write sequence
is below `2^63`, half the range of the 64-bit sequence numbers. -/
theorem number_query_flow_count (build : List Nat → Except Error FilterFuncs)
    (newMask : List String → Except Error FieldMask) (nodeName : String)
    (opts : Options World) (C : Nat) (now : Option Timestamp) (cause : Error)
    (hist : List Event) (p0 : Nat) (req : GetFlowsRequest) (wl bl : FilterFuncs)
    (mask : FieldMask) (fuel : Nat)
    (h63 : hist.length < 2 ^ 63) (hN0 : 0 < req.Number) (hN64 : req.Number < 2 ^ 64)
    (hfollow : req.Follow = false) (hfirst : req.First = false)
    (hsince : req.Since = none) (huntil : req.Until = none)
    (hdel : opts.OnFlowDelivery = [])
    (hget : runOnGetFlows opts.OnGetFlows req
        (World.at ((NewRing C now).WriteAll hist) cause p0) =
      (none, World.at ((NewRing C now).WriteAll hist) cause p0))
    (hwl : build req.Whitelist = .ok wl) (hbl : build req.Blacklist = .ok bl)
    (hmask : newMask (if req.FieldMask.length = 0 then req.ExperimentalFieldMask
      else req.FieldMask) = .ok mask)
    (hover : ∀ e ∈ readable C hist, isRingOverrun (some e) = false)
    (hflows : ∀ e ∈ readable C hist, e.isLostEvent = false →
      filters.Apply wl bl e = true → e.isFlow = true)
    (hfuel : hist.length + 2 ≤ fuel) :
    ∃ o, GetFlows (ringEnv build newMask nodeName) opts fuel req
          (World.at ((NewRing C now).WriteAll hist) cause p0) = some o ∧
      o.err = none ∧
      (flowResponses o.sent).length = min req.Number (acceptedFlows wl bl (readable C hist)) := by
  obtain ⟨hR, hcap⟩ := NewRing_WriteAll_holds C now hist
  generalize (NewRing C now).WriteAll hist = R at hR hcap hget ⊢
  have hw : R.write = hist.length := hR.1
  have hOW : R.write - R.cap = hist.length - C := by rw [hw, hcap]
  have h64 : hist.length < 2 ^ 64 := by omega
  have hQ := acceptedFlows_eq_counted wl bl (readable C hist) hflows
  rw [hQ]
  unfold readable at hover hflows ⊢
  have hflows' : ∀ e ∈ hist.drop (R.write - R.cap), counted wl bl e = true →
      e.isFlow = true := by
    intro e he hce
    rw [hOW] at he
    simp only [counted, Bool.and_eq_true, Bool.not_eq_true'] at hce
    exact hflows e he hce.1 hce.2
  -- the rewind
  have hrew : ∃ p, newRingReader (ringEnv build newMask nodeName) req.togenericRequest wl bl
        (World.at R cause p0) = (none, World.at R cause p) ∧
      (((hist.drop (hist.length - C)).countP (counted wl bl) < req.Number ∧
          ((hist = [] ∧ p = 0) ∨ (hist ≠ [] ∧ p = dec64 (hist.length - C)))) ∨
        (hist.length - C ≤ p ∧ p < hist.length ∧
          (hist.drop p).countP (counted wl bl) = req.Number)) := by
    by_cases hW0 : hist = []
    · subst hW0
      refine ⟨0, ?_, Or.inl ⟨by simpa using hN0, Or.inl ⟨rfl, rfl⟩⟩⟩
      have hw0 : R.write = 0 := hw
      simp [newRingReader, hfirst, hfollow, hsince, ringEnv, World.at, Ring.LastWriteParallel,
        Ring.Len, hw0, newRingReader.rewind]
    · have hW : 1 ≤ hist.length := by
        rcases Nat.eq_zero_or_pos hist.length with h | h
        · exact absurd (List.length_eq_zero.mp h) hW0
        · exact h
      have hsum : R.write - R.cap + min hist.length C = hist.length := by
        rw [hOW]; omega
      have hrew := newRingReader.rewind_on_ring build newMask nodeName R cause hist hR h64
        req.togenericRequest wl bl zeroTime hsince hN64 (by rw [hOW]; exact hover)
        (min hist.length C) (by omega)
        (by rw [hsum, List.drop_length]; simpa using hN0)
      rw [hsum, List.drop_length, List.countP_nil] at hrew
      have hdecW : dec64 hist.length = hist.length - 1 := by
        have := dec64_succ (hist.length - 1) (by omega)
        rwa [Nat.sub_add_cancel hW] at this
      rw [hdecW, hOW] at hrew
      obtain ⟨p, q, hrw, hres⟩ := hrew
      refine ⟨p, ?_, ?_⟩
      · simp [newRingReader, hfirst, hfollow, hsince, ringEnv, World.at,
          Ring.LastWriteParallel, Ring.Len, hw, hcap]
        simp only [ringEnv, World.at, Ring.LastWriteParallel, Ring.Len] at hrw
        rw [hrw]
      · rcases hres with ⟨h1, h2⟩ | h
        · exact Or.inl ⟨h1, Or.inr ⟨hW0, h2⟩⟩
        · exact Or.inr h
  obtain ⟨p, hring, hres⟩ := hrew
  have hstart : GetFlows (ringEnv build newMask nodeName) opts fuel req (World.at R cause p0) =
      GetFlows.loop (ringEnv build newMask nodeName) opts mask fuel fuel
        (numberReader wl bl req.Number 0) (World.at R cause p) [] := by
    have hv : validateRequest req.togenericRequest = none := by
      simp [validateRequest, hfirst]
    have hb1 : (ringEnv build newMask nodeName).BuildFilterList req.Whitelist = .ok wl := hwl
    have hb2 : (ringEnv build newMask nodeName).BuildFilterList req.Blacklist = .ok bl := hbl
    have hm : (ringEnv build newMask nodeName).NewFieldMask
        (if req.FieldMask.length = 0 then req.ExperimentalFieldMask else req.FieldMask) =
        .ok mask := hmask
    have hnew := newEventsReader_plain req.togenericRequest wl bl hsince huntil
    rw [hfollow] at hnew
    simp only [GetFlows, hv, hget, hb1, hb2, hring, hnew, hm]
    rfl
  rw [hstart]
  rcases hres with ⟨hlt, ⟨hnil, hp⟩ | ⟨hne, hp⟩⟩ | ⟨hp1, hp2, hp3⟩
  · -- an empty ring: the reader starts at 0 and meets the end of the stream
    subst hnil
    subst hp
    obtain ⟨o, ho, herr, hsent⟩ := GetFlows.loop_on_ring build newMask nodeName opts hdel mask R
      cause [] hR h64 wl bl req.Number hN0 hN64 fuel (by omega) hflows' fuel
      [] 0 0 [] rfl (by rw [hw]; simp) (by simp) (by omega)
      (by simp only [List.length_nil]; omega)
    refine ⟨o, ho, herr, ?_⟩
    rw [hsent]
    simp [flowResponses]
  · -- fewer than `Number` counted events: the cursor is one below the floor
    obtain ⟨hlost, hinc⟩ := Ring.Read_before_floor R hist hR C hcap h63 hne
    rw [← hp] at hlost hinc
    obtain ⟨n, rfl⟩ : ∃ n, fuel = n + 1 := ⟨fuel - 1, by omega⟩
    have hcand : (numberReader wl bl req.Number 0).Candidate (ringEnv build newMask nodeName)
        (World.at R cause p) R.getLostEvent (World.at R cause (hist.length - C)) := by
      right
      refine ⟨rfl, by simp only [numberReader]; omega, ?_⟩
      simp [ringEnv, World.at, World.Next, hlost, hinc]
    have hNext := eventsReader.Next_step (ringEnv build newMask nodeName)
      (numberReader wl bl req.Number 0) n (World.at R cause p) (World.at R cause (hist.length - C))
      R.getLostEvent rfl hcand
    rw [eventsReader.examine_lost (numberReader wl bl req.Number 0) R.getLostEvent rfl] at hNext
    obtain ⟨o, ho, herr, hsent⟩ := GetFlows.loop_on_ring build newMask nodeName opts hdel mask R
      cause hist hR h64 wl bl req.Number hN0 hN64 (n + 1) (by omega) hflows' n
      (hist.drop (hist.length - C)) (hist.length - C) 0
      ([] ++ [⟨R.now, nodeName, .LostEvents ⟨.HUBBLE_RING_BUFFER, 1⟩⟩]) rfl (by omega)
      (by omega) (by omega) (by simp only [List.length_drop]; omega)
    refine ⟨o, ?_, herr, ?_⟩
    · simp only [GetFlows.loop, hNext, Ring.getLostEvent]
      simpa [ringEnv] using ho
    · rw [hsent, flowResponses_append_lost]
      simp [flowResponses]
  · -- exactly `Number` counted events lie ahead of the cursor
    have hle : (hist.drop p).countP (counted wl bl) ≤
        (hist.drop (hist.length - C)).countP (counted wl bl) := by
      have h1 : hist.length - C + (p - (hist.length - C)) = p := by omega
      have h2 : hist.drop p = (hist.drop (hist.length - C)).drop (p - (hist.length - C)) := by
        rw [List.drop_drop, h1]
      rw [h2]
      exact countP_drop_le _ _ _
    obtain ⟨o, ho, herr, hsent⟩ := GetFlows.loop_on_ring build newMask nodeName opts hdel mask R
      cause hist hR h64 wl bl req.Number hN0 hN64 fuel (by omega) hflows' fuel
      (hist.drop p) p 0 [] rfl (by omega) (by omega) (by omega)
      (by simp only [List.length_drop]; omega)
    refine ⟨o, ho, herr, ?_⟩
    rw [hsent, hp3]
    simp [flowResponses]
    omega

/-- Witness of C3 as amended: the ring of capacity 4 after the flows 1 and 2,
which has not wrapped, `number = 5`, no filters: two flow responses. -/
theorem number_query_flow_count_witness :
    ∃ o, GetFlows testEnv noHooks 8 (flowsRequest (requestOf 5 none none))
          (World.at ((NewRing 4 none).WriteAll [flowAt 1, flowAt 2]) .Canceled 0) = some o ∧
      o.err = none ∧
      (flowResponses o.sent).length =
        min 5 (acceptedFlows [] [] (readable 4 [flowAt 1, flowAt 2])) :=
  number_query_flow_count buildTest noMask "node" noHooks 4 none .Canceled
    [flowAt 1, flowAt 2] 0 (flowsRequest (requestOf 5 none none)) [] []
    { Active := false, Copy := fun f => f } 8 (by decide) (by decide) (by decide) rfl rfl rfl rfl
    rfl rfl rfl rfl rfl (by decide) (by decide) (by decide)

/-- C12, the claim fails: one monitor event decodes to a flow, no hook stops
it before the counter, and the `OnDecodedEvent` hook stops it. After `Start`
the counter is 1 and no Flow has been written to the ring. -/
theorem counted_flow_not_written :
    ((LocalObserverServer.fresh ([] : List String)).Start testIngest
        ⟨[], [], [namedHook "drop" true none]⟩ [⟨3⟩]).numObservedFlows = 1 ∧
    flowCount ((LocalObserverServer.fresh ([] : List String)).Start testIngest
        ⟨[], [], [namedHook "drop" true none]⟩ [⟨3⟩]).ring = 0 := by
  decide

/-- C12 as amended: for every finite sequence of raw monitor events and every
configuration of hooks, as long as the 64-bit counter does not wrap, the
observed-flows counter never decreases and grows by at most one an event;
after each event its growth is at least the number of Flow events written to
the ring and at most the number of Flow events the decoder has returned. A
Flow that an `OnDecodedEvent` hook stops is counted and not written. `Start`
ends with the counter, ring and decoded events of the loop. -/
theorem numObservedFlows_bounds {η : Type} (env : IngestEnv η) (opts : IngestOptions η) :
    ∀ (events : List MonitorEvent) (s : LocalObserverServer η),
      s.numObservedFlows + events.length < 2 ^ 64 →
      s.numObservedFlows ≤ (s.ingest env opts events).numObservedFlows ∧
      (s.ingest env opts events).numObservedFlows ≤ s.numObservedFlows + events.length ∧
      flowCount (s.ingest env opts events).ring + s.numObservedFlows ≤
        (s.ingest env opts events).numObservedFlows + flowCount s.ring ∧
      (s.ingest env opts events).numObservedFlows + flowCount s.decoded ≤
        s.numObservedFlows + flowCount (s.ingest env opts events).decoded ∧
      (s.Start env opts events).numObservedFlows =
        (s.ingest env opts events).numObservedFlows ∧
      (s.Start env opts events).ring = (s.ingest env opts events).ring ∧
      (s.Start env opts events).decoded = (s.ingest env opts events).decoded := by
  intro events
  induction events with
  | nil =>
    intro s _
    refine ⟨Nat.le_refl _, by simp [LocalObserverServer.ingest], ?_, ?_, rfl, rfl, rfl⟩
    · simp only [LocalObserverServer.ingest, List.foldl_nil]; omega
    · simp only [LocalObserverServer.ingest, List.foldl_nil]; omega
  | cons m ms ih =>
    intro s hlt
    simp only [List.length_cons] at hlt
    rw [LocalObserverServer.ingest_cons]
    have hstep : s.numObservedFlows ≤ (s.handle env opts m).numObservedFlows ∧
        (s.handle env opts m).numObservedFlows ≤ s.numObservedFlows + 1 ∧
        flowCount (s.handle env opts m).ring + s.numObservedFlows ≤
          (s.handle env opts m).numObservedFlows + flowCount s.ring ∧
        (s.handle env opts m).numObservedFlows + flowCount s.decoded ≤
          s.numObservedFlows + flowCount (s.handle env opts m).decoded := by
      have hinc : inc64 s.numObservedFlows = s.numObservedFlows + 1 :=
        inc64_of_lt _ (by omega)
      rcases LocalObserverServer.handle_cases env opts s m with
        ⟨a, b, c⟩ | ⟨ev, hf, c, b, a⟩ | ⟨ev, hf, c, b, a⟩ | ⟨ev, hf, c, b, a⟩
      · rw [a, b, c]; omega
      · rw [b, c, flowCount_append_singleton, hf]
        rcases a with a | a
        · rw [a]; simp only [Bool.false_eq_true, if_false]; omega
        · rw [a, flowCount_append_singleton, hf]; simp only [Bool.false_eq_true, if_false]; omega
      · rw [a, b, c, flowCount_append_singleton, hf]; simp only [if_true]; omega
      · rw [b, c, hinc, flowCount_append_singleton, hf]
        rcases a with a | a
        · rw [a]; simp only [if_true]; omega
        · rw [a, flowCount_append_singleton, hf]; simp only [if_true]; omega
    obtain ⟨i1, i2, i3, i4, -, -, -⟩ := ih (s.handle env opts m) (by omega)
    obtain ⟨s1, s2, s3, s4⟩ := hstep
    refine ⟨by omega, by simp only [List.length_cons]; omega, by omega, by omega, rfl, rfl, rfl⟩

/-- Witness of C12 as amended: three monitor events, a failed decode, an agent
event and a flow that the `OnDecodedEvent` hook stops. -/
theorem numObservedFlows_bounds_witness :
    (0 : Nat) ≤ ((LocalObserverServer.fresh ([] : List String)).ingest testIngest
        ⟨[], [], [namedHook "drop" true none]⟩ [⟨1⟩, ⟨2⟩, ⟨3⟩]).numObservedFlows ∧
    ((LocalObserverServer.fresh ([] : List String)).ingest testIngest
        ⟨[], [], [namedHook "drop" true none]⟩ [⟨1⟩, ⟨2⟩, ⟨3⟩]).numObservedFlows ≤ 0 + 3 :=
  ⟨(numObservedFlows_bounds testIngest ⟨[], [], [namedHook "drop" true none]⟩ [⟨1⟩, ⟨2⟩, ⟨3⟩]
      (LocalObserverServer.fresh ([] : List String)) (by decide)).1,
   (numObservedFlows_bounds testIngest ⟨[], [], [namedHook "drop" true none]⟩ [⟨1⟩, ⟨2⟩, ⟨3⟩]
      (LocalObserverServer.fresh ([] : List String)) (by decide)).2.1⟩

/-- C13: the `OnMonitorEvent` hooks run in the order of the chain (a chain
`pre ++ rest` runs `pre`, then `rest` from the state `pre` left, unless a
hook of `pre` stopped). When the hooks before `f` do not stop and `f` returns
`stop`, the pass of the loop ends in the state `f` left: no later hook and no
decoder has changed it, the ring, the counter, the namespace set and the
decoded events are those of before, and the loop goes on with the next
monitor event. -/
theorem OnMonitorEvent_stop_drops_event {η : Type} (env : IngestEnv η)
    (opts : IngestOptions η) (s : LocalObserverServer η) (m : MonitorEvent)
    (ms : List MonitorEvent) (pre post : List (MonitorEvent → η → (Bool × Option Error) × η))
    (f : MonitorEvent → η → (Bool × Option Error) × η) (h0 h1 : η) (log0 : List LogEntry)
    (err : Option Error) (hchain : opts.OnMonitorEvent = pre ++ f :: post)
    (hpre : runHooks "failed in OnMonitorEvent" pre m s.ext s.log = (false, h0, log0))
    (hf : f m h0 = ((true, err), h1)) :
    s.handle env opts m =
      { s with ext := h1, log := logHookError "failed in OnMonitorEvent" log0 err } ∧
    s.ingest env opts (m :: ms) =
      LocalObserverServer.ingest env opts
        { s with ext := h1, log := logHookError "failed in OnMonitorEvent" log0 err } ms ∧
    (∀ (hs1 hs2 : List (MonitorEvent → η → (Bool × Option Error) × η)) (x : MonitorEvent)
      (h : η) (log : List LogEntry),
      runHooks "failed in OnMonitorEvent" (hs1 ++ hs2) x h log =
        match runHooks "failed in OnMonitorEvent" hs1 x h log with
        | (true, h2, log2) => (true, h2, log2)
        | (false, h2, log2) => runHooks "failed in OnMonitorEvent" hs2 x h2 log2) := by
  have hstop : runHooks "failed in OnMonitorEvent" opts.OnMonitorEvent m s.ext s.log =
      (true, h1, logHookError "failed in OnMonitorEvent" log0 err) := by
    rw [hchain]
    exact runHooks_stops_at _ pre post f m s.ext h0 h1 s.log log0 err hpre hf
  have hh := LocalObserverServer.handle_monitor_stop env opts s m _ _ hstop
  refine ⟨hh, ?_, ?_⟩
  · rw [LocalObserverServer.ingest_cons, hh]
  · intro hs1 hs2 x h log
    exact runHooks_append _ hs1 hs2 x h log

/-- Witness of C13: hook `a` passes, hook `b` stops with an error, hook `c`
and the decoder are not called. -/
theorem OnMonitorEvent_stop_drops_event_witness :
    ((LocalObserverServer.fresh ([] : List String)).handle testIngest
        ⟨[namedHook "a" false none, namedHook "b" true (some (.Other 9)),
          namedHook "c" false none], [], []⟩ ⟨3⟩).effects =
      (["a", "b"], [], 0, [], [], false) := by
  rw [(OnMonitorEvent_stop_drops_event testIngest
    ⟨[namedHook "a" false none, namedHook "b" true (some (.Other 9)),
      namedHook "c" false none], [], []⟩ (LocalObserverServer.fresh ([] : List String)) ⟨3⟩ []
    [namedHook "a" false none] [namedHook "c" false none]
    (namedHook "b" true (some (.Other 9))) ["a"] ["a", "b"] [] (some (.Other 9)) rfl rfl rfl).1]
  rfl

/-- C14: when the hooks of two configurations return the same `stop` flags
(and leave the same state) and differ only in the errors they return, the two
runs of the ingest loop on the same input end with the same hook state, ring
writes, counter, namespace set and decoded events, after every event and
after `Start`; and in every chain a hook that returns `stop` together with an
error still ends the chain with `stop`, so that the event is dropped. -/
theorem hook_errors_do_not_change_ingest {η : Type} (env : IngestEnv η)
    (opts1 opts2 : IngestOptions η)
    (h1 : List.Forall₂ SameStop opts1.OnMonitorEvent opts2.OnMonitorEvent)
    (h2 : List.Forall₂ SameStop opts1.OnDecodedFlow opts2.OnDecodedFlow)
    (h3 : List.Forall₂ SameStop opts1.OnDecodedEvent opts2.OnDecodedEvent) :
    (∀ (events : List MonitorEvent) (s1 s2 : LocalObserverServer η),
      s1.effects = s2.effects →
        (s1.ingest env opts1 events).effects = (s2.ingest env opts2 events).effects) ∧
    (∀ (events : List MonitorEvent) (s : LocalObserverServer η),
      (s.Start env opts1 events).effects = (s.Start env opts2 events).effects) ∧
    (∀ (α : Type) (msg : String) (f : α → η → (Bool × Option Error) × η)
      (fs : List (α → η → (Bool × Option Error) × η)) (x : α) (h h' : η)
      (log : List LogEntry) (e : Error), f x h = ((true, some e), h') →
        runHooks msg (f :: fs) x h log = (true, h', log ++ [⟨.Info, msg, e⟩])) ∧
    (∀ (s : LocalObserverServer η) (m : MonitorEvent)
      (f : MonitorEvent → η → (Bool × Option Error) × η)
      (fs : List (MonitorEvent → η → (Bool × Option Error) × η)) (h' : η) (e : Error),
      opts1.OnMonitorEvent = f :: fs → f m s.ext = ((true, some e), h') →
        (s.handle env opts1 m).effects =
          (h', s.ring, s.numObservedFlows, s.namespaceManager, s.decoded, s.stopped)) := by
  have key : ∀ (events : List MonitorEvent) (s1 s2 : LocalObserverServer η),
      s1.effects = s2.effects →
        (s1.ingest env opts1 events).effects = (s2.ingest env opts2 events).effects := by
    intro events
    induction events with
    | nil => intro s1 s2 hs; exact hs
    | cons m ms ih =>
      intro s1 s2 hs
      rw [LocalObserverServer.ingest_cons, LocalObserverServer.ingest_cons]
      exact ih _ _ (LocalObserverServer.handle_effects env opts1 opts2 h1 h2 h3 s1 s2 m hs)
  refine ⟨key, ?_, ?_, ?_⟩
  · intro events s
    have := key events s s rfl
    simp only [LocalObserverServer.effects, Prod.mk.injEq] at this ⊢
    obtain ⟨e1, e2, e3, e4, e5, -⟩ := this
    simp [LocalObserverServer.Start, e1, e2, e3, e4, e5]
  · intro α msg f fs x h h' log e hf
    exact runHooks_stop msg f fs x h h' log (some e) hf
  · intro s m f fs h' e hchain hf
    have hstop : runHooks "failed in OnMonitorEvent" opts1.OnMonitorEvent m s.ext s.log =
        (true, h', logHookError "failed in OnMonitorEvent" s.log (some e)) := by
      rw [hchain]
      exact runHooks_stop _ f fs m s.ext h' s.log (some e) hf
    rw [LocalObserverServer.handle_monitor_stop env opts1 s m _ _ hstop]
    rfl

/-- Witness of C14: the same three hooks with and without errors, on a failed
decode, an agent event and a flow. -/
theorem hook_errors_do_not_change_ingest_witness :
    ((LocalObserverServer.fresh ([] : List String)).Start testIngest
        ⟨[namedHook "m" false (some (.Other 1))], [namedHook "f" false (some (.Other 2))],
          [namedHook "e" false (some (.Other 3))]⟩ [⟨1⟩, ⟨2⟩, ⟨3⟩]).effects =
      ((LocalObserverServer.fresh ([] : List String)).Start testIngest
        ⟨[namedHook "m" false none], [namedHook "f" false none],
          [namedHook "e" false none]⟩ [⟨1⟩, ⟨2⟩, ⟨3⟩]).effects :=
  (hook_errors_do_not_change_ingest testIngest
    ⟨[namedHook "m" false (some (.Other 1))], [namedHook "f" false (some (.Other 2))],
      [namedHook "e" false (some (.Other 3))]⟩
    ⟨[namedHook "m" false none], [namedHook "f" false none], [namedHook "e" false none]⟩
    (List.Forall₂.cons (fun _ _ => ⟨rfl, rfl⟩) List.Forall₂.nil)
    (List.Forall₂.cons (fun _ _ => ⟨rfl, rfl⟩) List.Forall₂.nil)
    (List.Forall₂.cons (fun _ _ => ⟨rfl, rfl⟩) List.Forall₂.nil)).2.1 [⟨1⟩, ⟨2⟩, ⟨3⟩]
    (LocalObserverServer.fresh ([] : List String))

/-- C15, the claim fails: an `OnFlowDelivery` hook returns an error with
`stop = false` on the first flow. `GetFlows` returns that error and has sent
nothing: neither that flow nor the following one is delivered. -/
theorem delivery_hook_error_ends_query :
    (GetFlows testEnv ⟨[], [fun _ w => ((false, some (.Other 7)), w)]⟩ 8
        (flowsRequest firstRequest) (worldOf 4 [flowAt 1, flowAt 2])).map
      (fun o => (o.err, o.sent)) = some (some (.Other 7), []) := by
  decide

/-- C15 as amended: an error returned by an `OnMonitorEvent`, `OnDecodedFlow`
or `OnDecodedEvent` hook is not fatal: with `stop = false` the chain goes on
with the next hook, and the ingest loop handles every monitor event of its
input whatever the hooks return. An error returned by an `OnFlowDelivery`
hook is fatal to the query, with `stop` set or not: the delivery loop of
`GetFlows` returns it without sending the flow. An error returned by an
`OnGetFlows` hook makes `GetFlows` return it before anything is sent. -/
theorem hook_error_fatality {σ η : Type} (env : Env σ) (opts : Options σ)
    (ienv : IngestEnv η) (iopts : IngestOptions η) :
    (∀ (α : Type) (msg : String) (f : α → η → (Bool × Option Error) × η)
      (fs : List (α → η → (Bool × Option Error) × η)) (x : α) (h h1 : η)
      (log : List LogEntry) (err : Error), f x h = ((false, some err), h1) →
        runHooks msg (f :: fs) x h log = runHooks msg fs x h1 (log ++ [⟨.Info, msg, err⟩])) ∧
    (∀ (s : LocalObserverServer η) (m : MonitorEvent) (ms : List MonitorEvent),
      s.ingest ienv iopts (m :: ms) = (s.handle ienv iopts m).ingest ienv iopts ms) ∧
    (∀ (g : Flow → σ → (Bool × Option Error) × σ)
      (gs : List (Flow → σ → (Bool × Option Error) × σ)) (f : Flow) (w w1 : σ) (stop : Bool)
      (err : Error), g f w = ((stop, some err), w1) →
        runOnFlowDelivery (g :: gs) f w = (.Fail err, w1)) ∧
    (∀ (mask : FieldMask) (k n : Nat) (r : eventsReader) (w w1 w2 : σ)
      (sent : List GetFlowsResponse) (e : Event) (f : Flow) (err : Error),
      r.Next env k w = some (.ok e, w1) → e.Event = .Flow f →
      runOnFlowDelivery opts.OnFlowDelivery f w1 = (.Fail err, w2) →
        GetFlows.loop env opts mask k (n + 1) r w sent =
          some ⟨some err, w2, sent, inc64 r.eventCount⟩) ∧
    (∀ (fuel : Nat) (req : GetFlowsRequest) (w w1 : σ) (err : Error),
      validateRequest req.togenericRequest = none →
      runOnGetFlows opts.OnGetFlows req w = (some err, w1) →
        GetFlows env opts fuel req w = some ⟨some err, w1, [], 0⟩) := by
  refine ⟨?_, ?_, ?_, ?_, ?_⟩
  · intro α msg f fs x h h1 log err hf
    exact runHooks_continue msg f fs x h h1 log (some err) hf
  · intro s m ms
    rfl
  · intro g gs f w w1 stop err hg
    simp [runOnFlowDelivery, hg]
  · intro mask k n r w w1 w2 sent e f err hN hE hD
    simp [GetFlows.loop, hN, hE, hD]
  · intro fuel req w w1 err hv hG
    simp [GetFlows, hv, hG]

/-- C16: when the `OnMonitorEvent` hooks do not stop a monitor event and its
decode returns an error, of the three recognized kinds or any other, the pass
of the loop ends in the state the decoder left: nothing is written to the
ring, the counter, the namespace set and the decoded events are those of
before, no later hook has run; only an error of another kind is logged; and
the loop goes on with the next monitor event. -/
theorem decode_error_drops_event {η : Type} (env : IngestEnv η) (opts : IngestOptions η)
    (s : LocalObserverServer η) (m : MonitorEvent) (ms : List MonitorEvent) (h h1 : η)
    (log : List LogEntry) (err : DecodeError)
    (hrun : runHooks "failed in OnMonitorEvent" opts.OnMonitorEvent m s.ext s.log =
      (false, h, log))
    (hdec : env.Decode m h = (.error err, h1)) :
    s.handle env opts m = { s with ext := h1, log := logDecodeError log err } ∧
    (logDecodeError log .ErrUnknownEventType = log ∧ logDecodeError log .ErrEventSkipped = log ∧
      logDecodeError log .ErrInvalidType = log) ∧
    s.ingest env opts (m :: ms) =
      LocalObserverServer.ingest env opts { s with ext := h1, log := logDecodeError log err } ms := by
  have hh := LocalObserverServer.handle_decode_error env opts s m h h1 log err hrun hdec
  refine ⟨hh, ⟨rfl, rfl, rfl⟩, ?_⟩
  rw [LocalObserverServer.ingest_cons, hh]

/-- Witness of C16: monitor event 1 fails to decode, the flow after it is
still counted and written. -/
theorem decode_error_drops_event_witness :
    ((LocalObserverServer.fresh ([] : List String)).ingest testIngest
        ⟨[], [namedHook "f" false none], [namedHook "e" false none]⟩ [⟨1⟩, ⟨3⟩]).effects =
      (["Decode", "Decode", "f", "e"], [flowAt 3], 1, [], [flowAt 3], false) := by
  rw [(decode_error_drops_event testIngest
    ⟨[], [namedHook "f" false none], [namedHook "e" false none]⟩
    (LocalObserverServer.fresh ([] : List String)) ⟨1⟩ [⟨3⟩] [] ["Decode"] []
    (.Other (.Other 1)) rfl rfl).2.2]
  rfl

/-- C17: `trackNamespaces` calls `AddNamespace` with the source namespace and
the local cluster name iff the source namespace is not empty, then with the
destination namespace and the cluster name iff that namespace is not empty,
and changes nothing else; the namespace of a nil endpoint is empty, so a flow
without source and destination, or with two empty namespaces, adds nothing.
A decoded event that is not a Flow leaves the namespace set as it was. -/
theorem trackNamespaces_calls {η : Type} (env : IngestEnv η) (opts : IngestOptions η)
    (s : LocalObserverServer η) (flow : Flow) :
    s.trackNamespaces env flow =
      { s with namespaceManager := s.namespaceManager ++
          (if Endpoint.GetNamespace flow.Source ≠ "" then
            [⟨Endpoint.GetNamespace flow.Source, env.ClusterName⟩] else []) ++
          (if Endpoint.GetNamespace flow.Destination ≠ "" then
            [⟨Endpoint.GetNamespace flow.Destination, env.ClusterName⟩] else []) } ∧
    (Endpoint.GetNamespace none = "" ∧ ∀ e : Endpoint, Endpoint.GetNamespace (some e) = e.Namespace) ∧
    (Endpoint.GetNamespace flow.Source = "" → Endpoint.GetNamespace flow.Destination = "" →
      s.trackNamespaces env flow = s) ∧
    (∀ (m : MonitorEvent) (h h1 : η) (log : List LogEntry) (ev : Event),
      runHooks "failed in OnMonitorEvent" opts.OnMonitorEvent m s.ext s.log = (false, h, log) →
      env.Decode m h = (.ok ev, h1) → ev.isFlow = false →
        (s.handle env opts m).namespaceManager = s.namespaceManager) ∧
    (s.trackNamespaces env (flowBetween (some "a") (some "b"))).namespaceManager =
        s.namespaceManager ++ [⟨"a", env.ClusterName⟩, ⟨"b", env.ClusterName⟩] ∧
    (s.trackNamespaces env (flowBetween none (some "b"))).namespaceManager =
        s.namespaceManager ++ [⟨"b", env.ClusterName⟩] ∧
    (s.trackNamespaces env (flowBetween (some "") none)).namespaceManager =
        s.namespaceManager := by
  refine ⟨LocalObserverServer.trackNamespaces_eq env s flow, ⟨rfl, fun _ => rfl⟩, ?_, ?_, ?_, ?_,
    ?_⟩
  · intro h1 h2
    rw [LocalObserverServer.trackNamespaces_eq]
    simp [h1, h2]
  · intro m h h1 log ev hrun hdec hfl
    unfold LocalObserverServer.handle
    rw [hrun]
    simp only [hdec]
    cases hE : ev.Event with
    | Flow f => simp [Event.isFlow, hE] at hfl
    | AgentEvent a =>
      exact (LocalObserverServer.writeDecoded_cases opts _ ev).2.2.1
    | DebugEvent a =>
      exact (LocalObserverServer.writeDecoded_cases opts _ ev).2.2.1
    | LostEvent a =>
      exact (LocalObserverServer.writeDecoded_cases opts _ ev).2.2.1
    | Other a =>
      exact (LocalObserverServer.writeDecoded_cases opts _ ev).2.2.1
  · rw [LocalObserverServer.trackNamespaces_eq]
    simp [flowBetween, Endpoint.GetNamespace]
  · rw [LocalObserverServer.trackNamespaces_eq]
    simp [flowBetween, Endpoint.GetNamespace]
  · rw [LocalObserverServer.trackNamespaces_eq]
    simp [flowBetween, Endpoint.GetNamespace]

/-- C11: in the delivery loop of `GetFlows`, an event returned by `Next` that
is neither a Flow nor a LostEvent, and a LostEvent, leave `eventCount` as it
was; a Flow increments it by one, before the delivery hooks and whether it is
then sent or stopped. `Next` takes the `eventsReader` read-only. Hence a
query that is not in follow mode and has `number = N > 0` sends at most `N`
flow responses; LostEvent responses are not limited: with `number = 1` two
LostEvents are sent before the one flow. -/
theorem eventCount_counts_flows {σ : Type} (env : Env σ) (opts : Options σ)
    (mask : FieldMask) :
    (∀ (k n : Nat) (r : eventsReader) (w w1 : σ) (sent : List GetFlowsResponse) (e : Event),
      r.Next env k w = some (.ok e, w1) → e.isFlow = false → e.isLostEvent = false →
        GetFlows.loop env opts mask k (n + 1) r w sent =
          GetFlows.loop env opts mask k n r w1 sent) ∧
    (∀ (k n : Nat) (r : eventsReader) (w w1 : σ) (sent : List GetFlowsResponse) (e : Event)
      (l : LostEvent), r.Next env k w = some (.ok e, w1) → e.Event = .LostEvent l →
        GetFlows.loop env opts mask k (n + 1) r w sent =
          match env.Send ⟨e.Timestamp, env.AbsoluteNodeName, .LostEvents l⟩ w1 with
          | (some err, w2) => some ⟨some err, w2, sent, r.eventCount⟩
          | (none, w2) =>
            GetFlows.loop env opts mask k n r w2
              (sent ++ [⟨e.Timestamp, env.AbsoluteNodeName, .LostEvents l⟩])) ∧
    (∀ (k n : Nat) (r : eventsReader) (w w1 w2 : σ) (sent : List GetFlowsResponse) (e : Event)
      (f : Flow), r.Next env k w = some (.ok e, w1) → e.Event = .Flow f →
      runOnFlowDelivery opts.OnFlowDelivery f w1 = (.Stop, w2) →
        GetFlows.loop env opts mask k (n + 1) r w sent =
          GetFlows.loop env opts mask k n { r with eventCount := inc64 r.eventCount } w2 sent) ∧
    (∀ (k n : Nat) (r : eventsReader) (w w1 w2 w3 : σ) (sent : List GetFlowsResponse)
      (e : Event) (f : Flow), r.Next env k w = some (.ok e, w1) → e.Event = .Flow f →
      runOnFlowDelivery opts.OnFlowDelivery f w1 = (.Pass, w2) →
      env.Send ⟨(if mask.Active then mask.Copy f else f).Time,
        (if mask.Active then mask.Copy f else f).NodeName,
        .Flow (if mask.Active then mask.Copy f else f)⟩ w2 = (none, w3) →
        GetFlows.loop env opts mask k (n + 1) r w sent =
          GetFlows.loop env opts mask k n { r with eventCount := inc64 r.eventCount } w3
            (sent ++ [⟨(if mask.Active then mask.Copy f else f).Time,
              (if mask.Active then mask.Copy f else f).NodeName,
              .Flow (if mask.Active then mask.Copy f else f)⟩])) ∧
    (∀ (fuel : Nat) (req : GetFlowsRequest) (w : σ) (o : Outcome σ GetFlowsResponse),
      req.Follow = false → 0 < req.Number → req.Number < 2 ^ 64 →
      GetFlows env opts fuel req w = some o →
        (flowResponses o.sent).length ≤ req.Number ∧ o.eventCount ≤ req.Number) ∧
    (GetFlows testEnv noHooks 8 (flowsRequest { firstRequest with Number := 1 })
        (worldOf 4 [lostAt 1, lostAt 2, flowAt 3, flowAt 4])).map (fun o => (o.err, o.sent)) =
      some (none, [lostResponse 1, lostResponse 2, flowResponse 3]) := by
  refine ⟨?_, ?_, ?_, ?_, ?_, ?_⟩
  · intro k n r w w1 sent e hN hfl hl
    cases hE : e.Event with
    | Flow f => simp [Event.isFlow, hE] at hfl
    | LostEvent l => simp [Event.isLostEvent, hE] at hl
    | AgentEvent a => simp only [GetFlows.loop, hN, hE]
    | DebugEvent a => simp only [GetFlows.loop, hN, hE]
    | Other a => simp only [GetFlows.loop, hN, hE]
  · intro k n r w w1 sent e l hN hE
    simp only [GetFlows.loop, hN, hE]
  · intro k n r w w1 w2 sent e f hN hE hD
    simp only [GetFlows.loop, hN, hE, hD]
  · intro k n r w w1 w2 w3 sent e f hN hE hD hS
    simp only [GetFlows.loop, hN, hE, hD, hS]
  · intro fuel req w o hf h0 h64 hG
    have trivial_case : ∀ (err : Option Error) (w' : σ),
        (some (⟨err, w', [], 0⟩ : Outcome σ GetFlowsResponse) = some o) →
        (flowResponses o.sent).length ≤ req.Number ∧ o.eventCount ≤ req.Number := by
      intro err w' h
      simp only [Option.some.injEq] at h
      subst h
      simp [flowResponses]
    unfold GetFlows at hG
    cases hv : validateRequest req.togenericRequest with
    | some err => simp only [hv] at hG; exact trivial_case _ _ hG
    | none =>
      simp only [hv] at hG
      rcases hg : runOnGetFlows opts.OnGetFlows req w with ⟨_ | err, w1⟩
      · simp only [hg] at hG
        cases hb1 : env.BuildFilterList req.Whitelist with
        | error err => simp only [hb1] at hG; exact trivial_case _ _ hG
        | ok whitelist =>
          simp only [hb1] at hG
          cases hb2 : env.BuildFilterList req.Blacklist with
          | error err => simp only [hb2] at hG; exact trivial_case _ _ hG
          | ok blacklist =>
            simp only [hb2] at hG
            rcases hrr : newRingReader env req.togenericRequest whitelist blacklist w1 with
              ⟨_ | err, w2⟩
            · simp only [hrr] at hG
              cases hr : newEventsReader req.togenericRequest whitelist blacklist with
              | error err => simp only [hr] at hG; exact trivial_case _ _ hG
              | ok r =>
                simp only [hr] at hG
                generalize (if req.FieldMask.length = 0 then req.ExperimentalFieldMask
                  else req.FieldMask) = fm at hG
                cases hm : env.NewFieldMask fm with
                | error err => simp only [hm] at hG; exact trivial_case _ _ hG
                | ok mask =>
                  simp only [hm] at hG
                  obtain ⟨-, -, hmax, hfol, -, hcnt, -, -, -, -⟩ :=
                    newEventsReader_fields req.togenericRequest _ _ r hr
                  have := GetFlows.loop_count_bound env opts mask fuel fuel r w2 [] o
                    (by rw [hfol]; exact hf) (by rw [hmax]; exact h0)
                    (by rw [hmax]; exact h64) (by rw [hcnt]; omega) hG
                  rw [hmax, hcnt] at this
                  simp only [flowResponses, List.filter_nil, List.length_nil] at this
                  simp only [flowResponses]
                  omega
            · simp only [hrr] at hG; exact trivial_case _ _ hG
      · simp only [hg] at hG; exact trivial_case _ _ hG
  · decide

/-- C18: `newRingReader` places the cursor with `NewRingReader` alone, without
a call of `Previous` or `Next`, in two cases: at `ring.OldestWrite()` when
`first` is set and `since` is not, whatever `number`, `follow` and `until`
are; otherwise at `ring.LastWriteParallel()` when `follow` is set,
`number = 0` and `since` is not set. In every other case, `first` with
`since` included, it takes the rewind path: it checks `since`, if set, and
rewinds from `LastWriteParallel()`. The rewind reads backward: unless
`ring.Len()` is 0, its first call of `Previous` is made on the reader created
at `LastWriteParallel()`, a ring-overrun marker returned by that call puts the
reader one after `LastWriteParallel()` and an error returned by it is
returned; and the state `newRingReader` ends in is the state after `k` calls
of `Previous` on that reader, `1 ≤ k ≤ ring.Len()`. On the ring of capacity 4
after the flows 1 to 3 the reader is placed at 0 for `first`, at 2, which is
`LastWriteParallel()`, for `follow` with `number = 0`, and at 1 for `first`
with `since = 2 s` and for `follow` with `number = 2`. -/
theorem newRingReader_start_position {σ : Type} (env : Env σ) (req : genericRequest)
    (wl bl : FilterFuncs) (w : σ) :
    (req.First = true → req.Since = none →
      newRingReader env req wl bl w = (none, env.NewRingReader (env.OldestWrite w) w)) ∧
    (¬ (req.First = true ∧ req.Since = none) → req.Follow = true → req.Number = 0 →
      req.Since = none →
      newRingReader env req wl bl w = (none, env.NewRingReader (env.LastWriteParallel w) w)) ∧
    (¬ (req.First = true ∧ req.Since = none) →
      ¬ (req.Follow = true ∧ req.Number = 0 ∧ req.Since = none) →
      newRingReader env req wl bl w =
        match req.Since with
        | none => newRingReader.rewound env req wl bl zeroTime w
        | some s =>
          match Timestamp.CheckValid (some s) with
          | some err => (some err, w)
          | none => newRingReader.rewound env req wl bl s.AsTime w) ∧
    (∀ (sinceTime : Int),
      env.Len (env.NewRingReader (env.LastWriteParallel w) w) = 0 →
      newRingReader.rewound env req wl bl sinceTime w =
        (none, env.NewRingReader (env.LastWriteParallel w)
          (env.NewRingReader (env.LastWriteParallel w) w))) ∧
    (∀ (sinceTime : Int) (e : Option Event) (err : Option Error) (w1 : σ),
      0 < env.Len (env.NewRingReader (env.LastWriteParallel w) w) →
      env.Previous (env.NewRingReader (env.LastWriteParallel w) w) = ((e, err), w1) →
      (isRingOverrun e = true →
        newRingReader.rewound env req wl bl sinceTime w =
          (none, env.NewRingReader (inc64 (env.LastWriteParallel w)) w1)) ∧
      (isRingOverrun e = false → ∀ x, err = some x →
        newRingReader.rewound env req wl bl sinceTime w = (some x, w1))) ∧
    (∀ (sinceTime : Int),
      0 < env.Len (env.NewRingReader (env.LastWriteParallel w) w) →
      ∃ k, 1 ≤ k ∧ k ≤ env.Len (env.NewRingReader (env.LastWriteParallel w) w) ∧
        ((∃ err, newRingReader.rewound env req wl bl sinceTime w =
            (some err,
              (env.previousN k (env.NewRingReader (env.LastWriteParallel w) w)).2)) ∨
          (∃ idx, newRingReader.rewound env req wl bl sinceTime w =
            (none, env.NewRingReader idx
              (env.previousN k (env.NewRingReader (env.LastWriteParallel w) w)).2)))) ∧
    (newRingReader testEnv
        { Number := 5, Follow := true, Since := none, Until := none, First := true } [] []
        (worldOf 4 [flowAt 1, flowAt 2, flowAt 3]) =
      (none, { worldOf 4 [flowAt 1, flowAt 2, flowAt 3] with idx := 0 }) ∧
    newRingReader testEnv
        { Number := 0, Follow := true, Since := none, Until := some (tsec 1), First := false }
        [] [] (worldOf 4 [flowAt 1, flowAt 2, flowAt 3]) =
      (none, { worldOf 4 [flowAt 1, flowAt 2, flowAt 3] with idx := 2 }) ∧
    newRingReader testEnv
        { Number := 0, Follow := false, Since := some (tsec 2), Until := none, First := true }
        [] [] (worldOf 4 [flowAt 1, flowAt 2, flowAt 3]) =
      (none, { worldOf 4 [flowAt 1, flowAt 2, flowAt 3] with idx := 1 }) ∧
    newRingReader testEnv
        { Number := 2, Follow := true, Since := none, Until := none, First := false } [] []
        (worldOf 4 [flowAt 1, flowAt 2, flowAt 3]) =
      (none, { worldOf 4 [flowAt 1, flowAt 2, flowAt 3] with idx := 1 })) := by
  refine ⟨?_, ?_, ?_, ?_, ?_, ?_, ⟨by decide, by decide, by decide, by decide⟩⟩
  · intro h1 h2
    simp [newRingReader, h1, h2]
  · intro h1 h2 h3 h4
    have : req.First = false := by
      cases hF : req.First
      · rfl
      · exact absurd ⟨hF, h4⟩ h1
    simp [newRingReader, this, h2, h3, h4]
  · intro h1 h2
    have c1 : (req.First && req.Since.isNone) = false := by
      cases hF : req.First <;> cases hS : req.Since <;> simp
      exact h1 ⟨hF, hS⟩
    have c2 : (req.Follow && req.Number == 0 && req.Since.isNone) = false := by
      cases hF : req.Follow <;> cases hS : req.Since <;> simp
      intro hN
      exact h2 ⟨hF, hN, hS⟩
    unfold newRingReader
    simp only [c1, c2, Bool.false_eq_true, if_false]
    cases hS : req.Since with
    | none => rfl
    | some s =>
      simp only
      cases hV : Timestamp.CheckValid (some s) with
      | some err => rfl
      | none => rfl
  · intro sinceTime hlen
    unfold newRingReader.rewound
    rw [hlen]
    rfl
  · intro sinceTime e err w1 hlen hP
    obtain ⟨i, hi⟩ : ∃ i, env.Len (env.NewRingReader (env.LastWriteParallel w) w) = i + 1 :=
      ⟨env.Len (env.NewRingReader (env.LastWriteParallel w) w) - 1, by omega⟩
    refine ⟨?_, ?_⟩
    · intro hov
      unfold newRingReader.rewound
      rw [hi]
      simp only [newRingReader.rewind, hP, hov, if_true]
    · intro hov x hx
      subst hx
      unfold newRingReader.rewound
      rw [hi]
      simp only [newRingReader.rewind, hP, hov, Bool.false_eq_true, if_false]
  · intro sinceTime hlen
    obtain ⟨i, hi⟩ : ∃ i, env.Len (env.NewRingReader (env.LastWriteParallel w) w) = i + 1 :=
      ⟨env.Len (env.NewRingReader (env.LastWriteParallel w) w) - 1, by omega⟩
    obtain ⟨k, hk1, hk2, hst⟩ := newRingReader.rewind_calls_pos env req wl bl sinceTime i
      (env.LastWriteParallel w) 0 (env.NewRingReader (env.LastWriteParallel w) w)
    refine ⟨k, hk1, by omega, ?_⟩
    unfold newRingReader.rewound
    rw [hi]
    rcases hrw : newRingReader.rewind env req wl bl sinceTime (i + 1)
        (env.LastWriteParallel w) 0 (env.NewRingReader (env.LastWriteParallel w) w)
      with ⟨res, w1⟩
    rw [hrw] at hst
    simp only at hst
    subst hst
    cases res with
    | error err => exact Or.inl ⟨err, rfl⟩
    | ok idx => exact Or.inr ⟨idx, rfl⟩

/-- C19: in the rewind of `newRingReader` with `since` unset and
`number = N > 0`, the events counted are those that are not LostEvents and
that the filter chain accepts. When the calls of `Previous`, fewer than
`ring.Len()`, return the events `pre`, none a ring-overrun marker, with
`N - 1` counted events among them, and then the counted event `e`, the
reader returned starts at `LastWriteParallel()` moved back once for every
event of `pre`, the position `e` was read at. The rewind calls `Previous` at
most `i` times when started with `i = ring.Len()`. On the ring of capacity 4
after flows 1 to 4, `number = 2` starts the reader at the flow 3 and sends
the flows 3 and 4; a rejected flow and a LostEvent in between are not
counted. -/
theorem rewind_stops_at_Nth_counted {σ : Type} (env : Env σ) (req : genericRequest)
    (wl bl : FilterFuncs) (w : σ) (pre : List Event) (e : Event)
    (hfirst : req.First = false) (hs : req.Since = none) (hN0 : 0 < req.Number)
    (hN64 : req.Number < 2 ^ 64)
    (hprev : (env.previousN (pre.length + 1)
        (env.NewRingReader (env.LastWriteParallel w) w)).1 =
      (pre ++ [e]).map (fun x => (some x, none)))
    (hover : ∀ x ∈ pre ++ [e], isRingOverrun (some x) = false)
    (he : counted wl bl e = true) (hcount : pre.countP (counted wl bl) + 1 = req.Number)
    (hlen : pre.length < env.Len (env.NewRingReader (env.LastWriteParallel w) w)) :
    newRingReader env req wl bl w =
      (none, env.NewRingReader (dec64^[pre.length] (env.LastWriteParallel w))
        (env.previousN (pre.length + 1) (env.NewRingReader (env.LastWriteParallel w) w)).2) ∧
    (∀ (req' : genericRequest) (sinceTime : Int) (i idx c : Nat) (w0 : σ), ∃ k, k ≤ i ∧
      (newRingReader.rewind env req' wl bl sinceTime i idx c w0).2 = (env.previousN k w0).2) ∧
    newRingReader testEnv (requestOf 2 none none) [] []
        (worldOf 4 [flowAt 1, flowAt 2, flowAt 3, flowAt 4]) =
      (none, { worldOf 4 [flowAt 1, flowAt 2, flowAt 3, flowAt 4] with idx := 2 }) ∧
    (GetFlows testEnv noHooks 8 (flowsRequest (requestOf 2 none none))
        (worldOf 4 [flowAt 1, flowAt 2, flowAt 3, flowAt 4])).map (fun o => (o.err, o.sent)) =
      some (none, [flowResponse 3, flowResponse 4]) ∧
    (GetFlows testEnv noHooks 8 (flowsRequestWith (requestOf 2 none none) [3])
        (worldOf 4 [flowAt 1, flowAt 5, lostAt 9, flowAt 2])).map (fun o => (o.err, o.sent)) =
      some (none, [flowResponse 1, lostResponse 9, flowResponse 2]) := by
  refine ⟨?_, ?_, by decide, by decide, by decide⟩
  · have hrew := newRingReader.rewind_counts env req wl bl zeroTime hs hN64 e he
      (hover e (by simp)) pre
      (env.Len (env.NewRingReader (env.LastWriteParallel w) w)) (env.LastWriteParallel w) 0
      (env.NewRingReader (env.LastWriteParallel w) w) hprev
      (fun x hx => hover x (by simp [hx])) (by omega) hlen
    have hN : (req.Number == 0) = false := by
      simp only [beq_eq_false_iff_ne, ne_eq]
      omega
    simp only [newRingReader, hfirst, hs, hN, Bool.false_and, Bool.and_false,
      Bool.false_eq_true, if_false, hrew]
  · intro req' sinceTime i idx c w0
    exact newRingReader.rewind_calls env req' wl bl sinceTime i idx c w0

/-- Witness of C19: the ring of capacity 4 after flows 1 to 4 and
`number = 2`: `Previous` returns the flow 4, then the flow 3. -/
theorem rewind_stops_at_Nth_counted_witness :
    newRingReader testEnv (requestOf 2 none none) [] []
        (worldOf 4 [flowAt 1, flowAt 2, flowAt 3, flowAt 4]) =
      (none, { worldOf 4 [flowAt 1, flowAt 2, flowAt 3, flowAt 4] with idx := 2 }) :=
  (rewind_stops_at_Nth_counted testEnv (requestOf 2 none none) [] []
    (worldOf 4 [flowAt 1, flowAt 2, flowAt 3, flowAt 4]) [flowAt 4] (flowAt 3) rfl rfl
    (by decide) (by decide) (by decide) (by decide) (by decide) (by decide) (by decide)).1

/-- C20: in the delivery loop of `GetAgentEvents`, an event returned by `Next`
that is not an AgentEvent (a Flow, a DebugEvent, a LostEvent or anything
else) produces no response and leaves `eventCount` as it was, and an
AgentEvent is passed to `Send` once, in a response that carries its payload
and the event's ring timestamp, with `eventCount` incremented by one. The
same holds for `GetDebugEvents` and DebugEvents. On a ring that holds a flow,
two agent events, a debug event and a LostEvent, `GetAgentEvents` sends the
two agent events and `GetDebugEvents` the debug event. -/
theorem agent_and_debug_endpoints_deliver_own_kind {σ : Type} (env : Env σ) :
    (∀ (k n : Nat) (r : eventsReader) (w w1 : σ) (sent : List GetAgentEventsResponse)
      (e : Event), r.Next env k w = some (.ok e, w1) → (∀ a, e.Event ≠ .AgentEvent a) →
        GetAgentEvents.loop env k (n + 1) r w sent = GetAgentEvents.loop env k n r w1 sent) ∧
    (∀ (k n : Nat) (r : eventsReader) (w w1 : σ) (sent : List GetAgentEventsResponse)
      (e : Event) (a : Nat), r.Next env k w = some (.ok e, w1) → e.Event = .AgentEvent a →
        GetAgentEvents.loop env k (n + 1) r w sent =
          match env.SendAgent ⟨e.Timestamp, env.AbsoluteNodeName, a⟩ w1 with
          | (some err, w2) => some ⟨some err, w2, sent, inc64 r.eventCount⟩
          | (none, w2) =>
            GetAgentEvents.loop env k n { r with eventCount := inc64 r.eventCount } w2
              (sent ++ [⟨e.Timestamp, env.AbsoluteNodeName, a⟩])) ∧
    (∀ (k n : Nat) (r : eventsReader) (w w1 : σ) (sent : List GetDebugEventsResponse)
      (e : Event), r.Next env k w = some (.ok e, w1) → (∀ d, e.Event ≠ .DebugEvent d) →
        GetDebugEvents.loop env k (n + 1) r w sent = GetDebugEvents.loop env k n r w1 sent) ∧
    (∀ (k n : Nat) (r : eventsReader) (w w1 : σ) (sent : List GetDebugEventsResponse)
      (e : Event) (d : Nat), r.Next env k w = some (.ok e, w1) → e.Event = .DebugEvent d →
        GetDebugEvents.loop env k (n + 1) r w sent =
          match env.SendDebug ⟨e.Timestamp, env.AbsoluteNodeName, d⟩ w1 with
          | (some err, w2) => some ⟨some err, w2, sent, inc64 r.eventCount⟩
          | (none, w2) =>
            GetDebugEvents.loop env k n { r with eventCount := inc64 r.eventCount } w2
              (sent ++ [⟨e.Timestamp, env.AbsoluteNodeName, d⟩])) ∧
    (GetAgentEvents testEnv 8 firstRequest
        (worldOf 8 [flowAt 1, agentAt 2, debugAt 3, lostAt 4, agentAt 5])).map
      (fun o => (o.err, o.sent, o.eventCount)) =
      some (none, [⟨some (tsec 2), "node", 2⟩, ⟨some (tsec 5), "node", 5⟩], 2) ∧
    (GetDebugEvents testEnv 8 firstRequest
        (worldOf 8 [flowAt 1, agentAt 2, debugAt 3, lostAt 4, agentAt 5])).map
      (fun o => (o.err, o.sent, o.eventCount)) =
      some (none, [⟨some (tsec 3), "node", 3⟩], 1) := by
  refine ⟨?_, ?_, ?_, ?_, by decide, by decide⟩
  · intro k n r w w1 sent e hN hE
    cases hP : e.Event with
    | AgentEvent a => exact absurd hP (hE a)
    | Flow f => simp only [GetAgentEvents.loop, hN, hP]
    | LostEvent l => simp only [GetAgentEvents.loop, hN, hP]
    | DebugEvent a => simp only [GetAgentEvents.loop, hN, hP]
    | Other a => simp only [GetAgentEvents.loop, hN, hP]
  · intro k n r w w1 sent e a hN hE
    simp only [GetAgentEvents.loop, hN, hE]
  · intro k n r w w1 sent e hN hE
    cases hP : e.Event with
    | DebugEvent a => exact absurd hP (hE a)
    | Flow f => simp only [GetDebugEvents.loop, hN, hP]
    | LostEvent l => simp only [GetDebugEvents.loop, hN, hP]
    | AgentEvent a => simp only [GetDebugEvents.loop, hN, hP]
    | Other a => simp only [GetDebugEvents.loop, hN, hP]
  · intro k n r w w1 sent e d hN hE
    simp only [GetDebugEvents.loop, hN, hE]

/-- C21, the claim fails: at 100 s, on the ring of capacity 2 after five
writes, the scan counts the flows of 90 s and 70 s and stops at the
ring-overrun marker, so `count = 2` and `at - since` is 30 s. The rate
returned is the `float64` `4803839602528529 * 2^-56`, the result of the
`float64` division of 2 by 30, which is not the exact ratio 2/30. -/
theorem getFlowRate_rate_is_rounded :
    getFlowRate testEnv 3 100000000000
        (worldOf 2 [flowAt 30, flowAt 50, agentAt 60, flowAt 70, flowAt 90]) =
      some ((Float64.dyadic 4803839602528529 (-56), none),
        { worldOf 2 [flowAt 30, flowAt 50, agentAt 60, flowAt 70, flowAt 90] with idx := 3 }) ∧
    Float64.isRatio (Float64.dyadic 4803839602528529 (-56)) 2 30 = false ∧
    Float64.isRatio (Float64.dyadic 4803839602528529 (-56)) 4803839602528529 (2 ^ 56) = true ∧
    Time.Sub 100000000000 70000000000 = 30 * 1000000000 := by
  decide

/-- C21 as amended: `getFlowRate(ring, at)` reads backward from a reader
created at `LastWriteParallel()`. When the calls of `Previous` return the
events `pre`, each of them not a Flow or a Flow with a valid timestamp not
before `at - 1 minute`, and then stop the scan, the result is a nil error and
the `float64` quotient `float64(count) / at.Sub(since).Seconds()`, `count`
being the number of Flows in `pre`: with `since = at - 1 minute`, that is
`float64(count) / 60`, when the scan stops at a Flow with a timestamp before
`at - 1 minute` (which is not counted) or at `io.EOF`; and with `since` the
timestamp of the last Flow read (the oldest counted), or `at - 1 minute` when
no Flow was counted, when it stops at a ring-overrun LostEvent. The quotient
is rounded to the nearest `float64`, as is `Seconds()`; `at.Sub(since)` is
`at - since` whenever that fits an `int64`, the `Seconds()` of one minute is
the `float64` 60, and a count of 0 gives the rate 0. On an empty ring the
rate is 0 and the error nil. -/
theorem getFlowRate_counts_last_minute {σ : Type} (env : Env σ) (at_ : Int) (w : σ)
    (pre : List Event) (stop : Option Event × Option Error) (fuel : Nat)
    (hprev : (env.previousN (pre.length + 1)
        (env.NewRingReader (env.LastWriteParallel w) w)).1 =
      pre.map (fun x => (some x, none)) ++ [stop])
    (hpre : ∀ x ∈ pre, getFlowRate.inMinute (at_ - Minute) x = true)
    (hfuel : pre.length + 1 ≤ fuel) :
    (∀ e, stop = (some e, none) → e.isFlow = true →
        Timestamp.CheckValid e.Timestamp = none →
        Timestamp.AsTimeOpt e.Timestamp < at_ - Minute →
      getFlowRate env fuel at_ w =
        some ((Float64.div (Float64.ofInt (flowCount pre)) (Float64.ofInt 60), none),
          (env.previousN (pre.length + 1) (env.NewRingReader (env.LastWriteParallel w) w)).2)) ∧
    (isRingOverrun stop.1 = false → stop.2 = some .EOF →
      getFlowRate env fuel at_ w =
        some ((Float64.div (Float64.ofInt (flowCount pre)) (Float64.ofInt 60), none),
          (env.previousN (pre.length + 1) (env.NewRingReader (env.LastWriteParallel w) w)).2)) ∧
    (isRingOverrun stop.1 = true →
      getFlowRate env fuel at_ w =
        some ((Float64.div (Float64.ofInt (flowCount pre)) (Duration.Seconds (Time.Sub at_
            (match (pre.filter Event.isFlow).getLast? with
              | some l => Timestamp.AsTimeOpt l.Timestamp
              | none => at_ - Minute))), none),
          (env.previousN (pre.length + 1) (env.NewRingReader (env.LastWriteParallel w) w)).2)) ∧
    ((pre.filter Event.isFlow).getLast? = none ↔ flowCount pre = 0) ∧
    (∀ (t u : Int), minDuration ≤ t - u → t - u ≤ maxDuration → Time.Sub t u = t - u) ∧
    Duration.Seconds (Time.Sub at_ (at_ - Minute)) = Float64.ofInt 60 ∧
    Float64.ofInt 60 = Float64.dyadic 60 0 ∧
    Float64.div (Float64.ofInt 0) (Float64.ofInt 60) = .Finite 0 ∧
    (∀ (C n : Nat), getFlowRate testEnv (n + 1) at_ (worldOf C []) =
      some ((.Finite 0, none), worldOf C [])) := by
  obtain ⟨j, rfl⟩ : ∃ j, fuel = pre.length + (j + 1) := ⟨fuel - pre.length - 1, by omega⟩
  obtain ⟨hscan, hstop⟩ := getFlowRate.scan_reaches env (at_ - Minute)
    (env.NewRingReader (env.LastWriteParallel w) w) pre stop j hprev hpre
  obtain ⟨e, err⟩ := stop
  refine ⟨?_, ?_, ?_, ?_, Time.Sub_of_range, Duration.Seconds_minute at_, by decide, by decide,
    ?_⟩
  · intro e' he hfl hv hlt
    simp only [Prod.mk.injEq] at he
    obtain ⟨rfl, rfl⟩ := he
    have hov := Event.not_overrun_of_isFlow e' hfl
    rw [getFlowRate, hscan]
    simp only [getFlowRate.scan, hstop, hov, hfl, hv, hlt]
    simp [Duration.Seconds_minute]
  · intro hov heof
    simp only at hov heof
    subst heof
    rw [getFlowRate, hscan]
    simp only [getFlowRate.scan, hstop, hov]
    simp [Duration.Seconds_minute]
  · intro hov
    simp only at hov
    rw [getFlowRate, hscan]
    simp only [getFlowRate.scan, hstop, hov, lastSeen_eq]
    cases (pre.filter Event.isFlow).getLast? <;> simp
  · simp [flowCount, List.getLast?_eq_none_iff, List.countP_eq_length_filter]
  · intro C n
    have hq : Float64.div (Float64.ofInt 0)
        (Duration.Seconds (Time.Sub at_ (at_ - Minute))) = .Finite 0 := by
      rw [Duration.Seconds_minute]
      decide
    have hb : Ring.belowFloor
        { cap := C, write := 0, data := List.replicate C none, now := none } 0 = false :=
      Ring.belowFloor_of_ahead _ 0 (Nat.zero_le _) (by show 0 < 0 + 2 ^ 63; norm_num)
    simp [getFlowRate, getFlowRate.scan, testEnv, ringEnv, worldOf, NewRing, Ring.WriteAll,
      World.Previous, Ring.Read, Ring.LastWriteParallel, isRingOverrun, Event.GetLostEvent, hq,
      hb]

/-- Witness of C21 as amended: at 100 s, on the ring of capacity 2 after five
writes, the scan counts the flows of 90 s and 70 s and stops at the
ring-overrun marker: the `float64` quotient of two flows by the seconds of
the 30 s since the older of them. -/
theorem getFlowRate_counts_last_minute_witness :
    getFlowRate testEnv 3 100000000000
        (worldOf 2 [flowAt 30, flowAt 50, agentAt 60, flowAt 70, flowAt 90]) =
      some ((Float64.div (Float64.ofInt 2)
          (Duration.Seconds (Time.Sub 100000000000 70000000000)), none),
        { worldOf 2 [flowAt 30, flowAt 50, agentAt 60, flowAt 70, flowAt 90] with idx := 3 }) :=
  (getFlowRate_counts_last_minute testEnv 100000000000
    (worldOf 2 [flowAt 30, flowAt 50, agentAt 60, flowAt 70, flowAt 90])
    [flowAt 90, flowAt 70]
    (some (Ring.getLostEvent
      (worldOf 2 [flowAt 30, flowAt 50, agentAt 60, flowAt 70, flowAt 90]).ring), none)
    3 (by decide) (by decide) (by decide)).2.2.1 (by decide)

/-- C22, the claim fails: at 100 s, on the ring of capacity 2 whose newest
event is a flow with an invalid timestamp, `getFlowRate` returns the error of
`CheckValid` with rate 0, and `ServerStatus` returns a response with
`FlowsRate = 0` and a nil error: the error is logged, not returned. -/
theorem ServerStatus_swallows_flow_rate_error :
    (getFlowRate testEnv 8 100000000000
        (worldOf 2 [flowAt 30, flowAt 50, agentAt 60, flowAt 70, badFlow])).map (fun x => x.1) =
      some (.Finite 0, some (.InvalidTimestamp .Nanos)) ∧
    (ServerStatus testEnv "v" 0 7 8 100000000000 100000000000
        (worldOf 2 [flowAt 30, flowAt 50, agentAt 60, flowAt 70, badFlow])).map
      (fun o => (o.resp, o.err, o.log)) =
      some (some ⟨"v", 2, 2, 7, 100000000000, .Finite 0⟩, none,
        [⟨.Warn, "Failed to get flow rate", .InvalidTimestamp .Nanos⟩]) := by
  decide

/-- C22 as amended: when the scan of `getFlowRate`, after passing over the
events `pre`, gets from `Previous` an error other than `io.EOF` together
with an event that is not a ring-overrun LostEvent, or a Flow whose timestamp
is invalid, `getFlowRate` returns that error with rate 0. `ServerStatus` does
not return it: whatever `getFlowRate` returns, `ServerStatus` returns a nil
error and a response whose `FlowsRate` is the rate `getFlowRate` returned (0
in the case of an error), and it logs the error, if any, as a warning. -/
theorem getFlowRate_error_is_logged {σ : Type} (env : Env σ) (at_ : Int) (w : σ)
    (pre : List Event) (stop : Option Event × Option Error) (fuel : Nat)
    (hprev : (env.previousN (pre.length + 1)
        (env.NewRingReader (env.LastWriteParallel w) w)).1 =
      pre.map (fun x => (some x, none)) ++ [stop])
    (hpre : ∀ x ∈ pre, getFlowRate.inMinute (at_ - Minute) x = true)
    (hfuel : pre.length + 1 ≤ fuel) :
    (∀ err, isRingOverrun stop.1 = false → stop.2 = some err → err ≠ .EOF →
      getFlowRate env fuel at_ w =
        some ((.Finite 0, some err),
          (env.previousN (pre.length + 1) (env.NewRingReader (env.LastWriteParallel w) w)).2)) ∧
    (∀ e err, stop = (some e, none) → e.isFlow = true →
        Timestamp.CheckValid e.Timestamp = some err →
      getFlowRate env fuel at_ w =
        some ((.Finite 0, some err),
          (env.previousN (pre.length + 1) (env.NewRingReader (env.LastWriteParallel w) w)).2)) ∧
    (∀ (version : String) (startTime : Int) (numObservedFlows k : Nat) (now later : Int)
        (w0 w1 : σ) (rate : Float64) (err : Option Error),
      getFlowRate env k now w0 = some ((rate, err), w1) →
      ∃ o, ServerStatus env version startTime numObservedFlows k now later w0 = some o ∧
        o.err = none ∧
        o.resp = some ⟨version, env.Cap w1, env.Len w1, numObservedFlows,
          ((Time.Sub later startTime) % 2 ^ 64).toNat, rate⟩ ∧
        o.log = (match err with
          | some e => [⟨.Warn, "Failed to get flow rate", e⟩]
          | none => []) ∧
        o.world = w1) := by
  obtain ⟨j, rfl⟩ : ∃ j, fuel = pre.length + (j + 1) := ⟨fuel - pre.length - 1, by omega⟩
  obtain ⟨hscan, hstop⟩ := getFlowRate.scan_reaches env (at_ - Minute)
    (env.NewRingReader (env.LastWriteParallel w) w) pre stop j hprev hpre
  obtain ⟨e, serr⟩ := stop
  refine ⟨?_, ?_, ?_⟩
  · intro err hov herr hne
    simp only at hov herr
    subst herr
    have hne' : ¬ (some err = some Error.EOF) := by simpa using hne
    rw [getFlowRate, hscan]
    simp only [getFlowRate.scan, hstop, hov, hne']
    simp
  · intro e' err he hfl hv
    simp only [Prod.mk.injEq] at he
    obtain ⟨rfl, rfl⟩ := he
    have hov := Event.not_overrun_of_isFlow e' hfl
    rw [getFlowRate, hscan]
    simp only [getFlowRate.scan, hstop, hov, hfl, hv]
    simp
  · intro version startTime numObservedFlows k now later w0 w1 rate err hrate
    refine ⟨_, by simp only [ServerStatus, hrate]; rfl, rfl, rfl, rfl, rfl⟩

/-- Witness of C22 as amended: the ring whose newest event is a flow with
an invalid timestamp. -/
theorem getFlowRate_error_is_logged_witness :
    getFlowRate testEnv 8 100000000000
        (worldOf 2 [flowAt 30, flowAt 50, agentAt 60, flowAt 70, badFlow]) =
      some ((.Finite 0, some (.InvalidTimestamp .Nanos)),
        { worldOf 2 [flowAt 30, flowAt 50, agentAt 60, flowAt 70, badFlow] with idx := 3 }) :=
  (getFlowRate_error_is_logged testEnv 100000000000
    (worldOf 2 [flowAt 30, flowAt 50, agentAt 60, flowAt 70, badFlow]) [] (some badFlow, none) 8
    (by decide) (by decide) (by decide)).2.1 badFlow (.InvalidTimestamp .Nanos) rfl (by decide)
    (by decide)

/-- C23, the claim fails: a flows request whose `since` has negative nanos,
and one whose `until` has, are rejected with the error of `CheckValid` and
nothing is sent, but that error is not a status error: its code is not
InvalidArgument. -/
theorem invalid_timestamp_is_not_InvalidArgument :
    (GetFlows testEnv noHooks 8 (flowsRequest (requestOf 0 (some ⟨0, -1⟩) none))
        (worldOf 4 [flowAt 1])).map
      (fun o => (o.err, o.err.map Error.isInvalidArgument, o.sent)) =
      some (some (.InvalidTimestamp .Nanos), some false, []) ∧
    (GetFlows testEnv noHooks 8 (flowsRequest (requestOf 0 none (some ⟨0, -1⟩)))
        (worldOf 4 [flowAt 1])).map
      (fun o => (o.err, o.err.map Error.isInvalidArgument, o.sent)) =
      some (some (.InvalidTimestamp .Nanos), some false, []) := by
  decide

/-- C23 as amended: a streaming request whose `since` or `until` is invalid
delivers no event, for every fuel, and is rejected with the error of
`CheckValid`, which is not a status error and so not of the InvalidArgument
kind. For an invalid `since`, `newRingReader` returns that error before it
reads the ring, and `newEventsReader` returns it too; for an invalid `until`
with `since` unset or valid, `newEventsReader` returns it, after
`newRingReader` has placed the reader. `GetFlows`, `GetAgentEvents` and
`GetDebugEvents` return the error once the request has passed the steps
before (validation, the `OnGetFlows` hooks and the filter lists; for `until`
also `newRingReader`). -/
theorem invalid_timestamp_rejects_query {σ : Type} (env : Env σ) (opts : Options σ) :
    (∀ (t : Option Timestamp) (err : Error), Timestamp.CheckValid t = some err →
      err.isInvalidArgument = false ∧ eofIsNil err = some err) ∧
    (∀ (req : genericRequest) (wl bl : FilterFuncs) (w : σ) (s : Timestamp) (err : Error),
      req.Since = some s → Timestamp.CheckValid (some s) = some err →
        newRingReader env req wl bl w = (some err, w) ∧
          newEventsReader req wl bl = .error err) ∧
    (∀ (req : genericRequest) (wl bl : FilterFuncs) (u : Timestamp) (err : Error),
      (∀ s, req.Since = some s → Timestamp.CheckValid (some s) = none) →
      req.Until = some u → Timestamp.CheckValid (some u) = some err →
        newEventsReader req wl bl = .error err) ∧
    (∀ (fuel : Nat) (req : GetFlowsRequest) (w w1 : σ) (wl bl : FilterFuncs) (s : Timestamp)
        (err : Error),
      validateRequest req.togenericRequest = none →
      runOnGetFlows opts.OnGetFlows req w = (none, w1) →
      env.BuildFilterList req.Whitelist = .ok wl → env.BuildFilterList req.Blacklist = .ok bl →
      req.Since = some s → Timestamp.CheckValid (some s) = some err →
        GetFlows env opts fuel req w = some ⟨some err, w1, [], 0⟩) ∧
    (∀ (fuel : Nat) (req : GetFlowsRequest) (w w1 w2 : σ) (wl bl : FilterFuncs) (u : Timestamp)
        (err : Error),
      validateRequest req.togenericRequest = none →
      runOnGetFlows opts.OnGetFlows req w = (none, w1) →
      env.BuildFilterList req.Whitelist = .ok wl → env.BuildFilterList req.Blacklist = .ok bl →
      newRingReader env req.togenericRequest wl bl w1 = (none, w2) →
      req.Until = some u → Timestamp.CheckValid (some u) = some err →
        GetFlows env opts fuel req w = some ⟨some err, w2, [], 0⟩) ∧
    (∀ (fuel : Nat) (req : genericRequest) (w : σ) (s : Timestamp) (err : Error),
      validateRequest req = none →
      req.Since = some s → Timestamp.CheckValid (some s) = some err →
        GetAgentEvents env fuel req w = some ⟨some err, w, [], 0⟩ ∧
          GetDebugEvents env fuel req w = some ⟨some err, w, [], 0⟩) ∧
    (∀ (fuel : Nat) (req : genericRequest) (w w1 : σ) (u : Timestamp) (err : Error),
      validateRequest req = none → newRingReader env req [] [] w = (none, w1) →
      req.Until = some u → Timestamp.CheckValid (some u) = some err →
        GetAgentEvents env fuel req w = some ⟨some err, w1, [], 0⟩ ∧
          GetDebugEvents env fuel req w = some ⟨some err, w1, [], 0⟩) ∧
    (∀ (fuel : Nat) (req : GetFlowsRequest) (w : σ),
      ((∃ s, req.Since = some s ∧ Timestamp.CheckValid (some s) ≠ none) ∨
        (∃ u, req.Until = some u ∧ Timestamp.CheckValid (some u) ≠ none)) →
      ∃ o, GetFlows env opts fuel req w = some o ∧ o.sent = []) := by
  have kind : ∀ (t : Option Timestamp) (err : Error), Timestamp.CheckValid t = some err →
      err.isInvalidArgument = false ∧ eofIsNil err = some err := by
    intro t err h
    obtain ⟨why, rfl⟩ := Timestamp.CheckValid_error t err h
    exact ⟨rfl, by simp [eofIsNil]⟩
  have ring : ∀ (req : genericRequest) (wl bl : FilterFuncs) (w : σ) (s : Timestamp)
      (err : Error), req.Since = some s → Timestamp.CheckValid (some s) = some err →
      newRingReader env req wl bl w = (some err, w) := by
    intro req wl bl w s err hs hv
    simp [newRingReader, hs, hv]
  have readerSince : ∀ (req : genericRequest) (wl bl : FilterFuncs) (s : Timestamp)
      (err : Error), req.Since = some s → Timestamp.CheckValid (some s) = some err →
      newEventsReader req wl bl = .error err := by
    intro req wl bl s err hs hv
    simp [newEventsReader, hs, hv]
  have readerUntil : ∀ (req : genericRequest) (wl bl : FilterFuncs) (u : Timestamp)
      (err : Error), (∀ s, req.Since = some s → Timestamp.CheckValid (some s) = none) →
      req.Until = some u → Timestamp.CheckValid (some u) = some err →
      newEventsReader req wl bl = .error err := by
    intro req wl bl u err hs hu hv
    cases hS : req.Since with
    | none => simp [newEventsReader, hS, hu, hv]
    | some s => simp [newEventsReader, hS, hs s hS, hu, hv]
  refine ⟨kind, fun req wl bl w s err hs hv => ⟨ring req wl bl w s err hs hv,
    readerSince req wl bl s err hs hv⟩, readerUntil, ?_, ?_, ?_, ?_, ?_⟩
  · intro fuel req w w1 wl bl s err hval hget hwl hbl hs hv
    have hr := ring req.togenericRequest wl bl w1 s err hs hv
    simp only [GetFlows, hval, hget, hwl, hbl, hr, (kind _ err hv).2]
  · intro fuel req w w1 w2 wl bl u err hval hget hwl hbl hr hu hv
    have hne : ∃ e, newEventsReader req.togenericRequest wl bl = .error e :=
      newEventsReader_invalid _ wl bl (Or.inr ⟨u, hu, by rw [hv]; simp⟩)
    obtain ⟨e, he⟩ := hne
    have hee : e = err := by
      cases hS : req.Since with
      | none =>
        have := readerUntil req.togenericRequest wl bl u err (by intro s h; rw [hS] at h; cases h)
          hu hv
        rw [this] at he
        cases he
        rfl
      | some s =>
        cases hvs : Timestamp.CheckValid (some s) with
        | none =>
          have := readerUntil req.togenericRequest wl bl u err
            (by intro s' h; rw [hS] at h; cases h; exact hvs) hu hv
          rw [this] at he
          cases he
          rfl
        | some e' =>
          have := ring req.togenericRequest wl bl w1 s e' hS hvs
          rw [this] at hr
          cases hr
    subst hee
    simp only [GetFlows, hval, hget, hwl, hbl, hr, he]
  · intro fuel req w s err hval hs hv
    have hr := ring req [] [] w s err hs hv
    constructor
    · simp only [GetAgentEvents, hval, hr, (kind _ err hv).2]
    · simp only [GetDebugEvents, hval, hr, (kind _ err hv).2]
  · intro fuel req w w1 u err hval hr hu hv
    have he : newEventsReader req [] [] = .error err := by
      cases hS : req.Since with
      | none =>
        exact readerUntil req [] [] u err (by intro s h; rw [hS] at h; cases h) hu hv
      | some s =>
        cases hvs : Timestamp.CheckValid (some s) with
        | none =>
          exact readerUntil req [] [] u err
            (by intro s' h; rw [hS] at h; cases h; exact hvs) hu hv
        | some e' =>
          have := ring req [] [] w s e' hS hvs
          rw [this] at hr
          cases hr
    constructor
    · simp only [GetAgentEvents, hval, hr, he]
    · simp only [GetDebugEvents, hval, hr, he]
  · intro fuel req w hbad
    unfold GetFlows
    cases hv : validateRequest req.togenericRequest with
    | some err => exact ⟨_, rfl, rfl⟩
    | none =>
      simp only
      rcases hg : runOnGetFlows opts.OnGetFlows req w with ⟨_ | err, w1⟩
      · simp only
        cases hb1 : env.BuildFilterList req.Whitelist with
        | error err => exact ⟨_, rfl, rfl⟩
        | ok wl =>
          simp only
          cases hb2 : env.BuildFilterList req.Blacklist with
          | error err => exact ⟨_, rfl, rfl⟩
          | ok bl =>
            simp only
            rcases hrr : newRingReader env req.togenericRequest wl bl w1 with ⟨_ | err, w2⟩
            · obtain ⟨e, he⟩ := newEventsReader_invalid req.togenericRequest wl bl hbad
              simp only [he]
              exact ⟨_, rfl, rfl⟩
            · exact ⟨_, rfl, rfl⟩
      · exact ⟨_, rfl, rfl⟩

/-- C24: relay `server.New` applies the given options and then
`DefaultOptions` to `defaultOptions`, in order. When one of them fails, `New`
returns that error, wrapped, and tests nothing else. When all are applied,
leaving the options `opts`: `New` returns `ErrNoClientTLSConfig` if and only
if `opts` has no client TLS configuration and not the insecure-client flag;
when that is not the case, `New` returns `ErrNoServerTLSConfig` if and only
if `opts` has no server TLS configuration and not the insecure-server flag;
so with both missing the result is `ErrNoClientTLSConfig`. In each of these
cases no `Server` is returned, and when neither check fails the result is
that of the construction. With neither TLS configuration nor flag the result
is `ErrNoClientTLSConfig`; with the insecure-client flag alone it is
`ErrNoServerTLSConfig`; an option that fails is reported whatever the options
after it set. -/
theorem New_TLS_config_checks {S : Type} (defaultOptions : server.options)
    (DefaultOptions : List server.Option_) (construct : server.options → Except Error S)
    (options : List server.Option_) :
    (∀ err, server.applyOptions (options ++ DefaultOptions) defaultOptions = .error err →
      server.New defaultOptions DefaultOptions construct options = .error (.ApplyOption err)) ∧
    (∀ opts, server.applyOptions (options ++ DefaultOptions) defaultOptions = .ok opts →
      (server.New defaultOptions DefaultOptions construct options =
          .error .ErrNoClientTLSConfig ↔
        (opts.clientTLSConfig = none ∧ opts.insecureClient = false)) ∧
      (¬ (opts.clientTLSConfig = none ∧ opts.insecureClient = false) →
        (server.New defaultOptions DefaultOptions construct options =
            .error .ErrNoServerTLSConfig ↔
          (opts.serverTLSConfig = none ∧ opts.insecureServer = false))) ∧
      (opts.clientTLSConfig = none ∧ opts.insecureClient = false →
        opts.serverTLSConfig = none ∧ opts.insecureServer = false →
        server.New defaultOptions DefaultOptions construct options =
          .error .ErrNoClientTLSConfig) ∧
      (¬ (opts.clientTLSConfig = none ∧ opts.insecureClient = false) →
        ¬ (opts.serverTLSConfig = none ∧ opts.insecureServer = false) →
        server.New defaultOptions DefaultOptions construct options =
          match construct opts with
          | .error err => .error (.Build err)
          | .ok s => .ok s)) ∧
    (∀ (pre post : List server.Option_) (opt : server.Option_) (opts opts1 : server.options)
        (err : Error),
      options ++ DefaultOptions = pre ++ opt :: post →
      server.applyOptions pre defaultOptions = .ok opts → opt opts = (some err, opts1) →
      server.New defaultOptions DefaultOptions construct options = .error (.ApplyOption err)) ∧
    (∀ (f : server.Failure), f = .ErrNoClientTLSConfig ∨ f = .ErrNoServerTLSConfig ∨
        (∃ err, f = .ApplyOption err) →
      ∀ (s : S), (.error f : Except server.Failure S) ≠ .ok s) ∧
    (server.New server.noTLS [] (fun o => (.ok o : Except Error server.options)) [] =
        .error .ErrNoClientTLSConfig ∧
      server.New server.noTLS [] (fun o => (.ok o : Except Error server.options))
          [server.setInsecureClient] = .error .ErrNoServerTLSConfig ∧
      server.New server.noTLS [] (fun o => (.ok o : Except Error server.options))
          [server.setServerTLS 3] = .error .ErrNoClientTLSConfig ∧
      server.New server.noTLS [server.setInsecureServer]
          (fun o => (.ok o : Except Error server.options)) [server.setClientTLS 5] =
        .ok { clientTLSConfig := some 5, serverTLSConfig := none, insecureClient := false,
              insecureServer := true, rest := 0 } ∧
      server.New server.noTLS [] (fun o => (.ok o : Except Error server.options))
          [server.setInsecureClient, server.failing 7, server.setServerTLS 3] =
        .error (.ApplyOption (.Other 7))) := by
  have happ : ∀ (pre post : List server.Option_) (o : server.options),
      server.applyOptions (pre ++ post) o =
        match server.applyOptions pre o with
        | .error err => .error err
        | .ok o1 => server.applyOptions post o1 := by
    intro pre
    induction pre with
    | nil => intro post o; rfl
    | cons f fs ih =>
      intro post o
      simp only [List.cons_append, server.applyOptions]
      rcases hf : f o with ⟨_ | err, o1⟩
      · exact ih post o1
      · rfl
  refine ⟨?_, ?_, ?_, ?_, ⟨rfl, rfl, rfl, rfl, rfl⟩⟩
  · intro err h
    simp [server.New, h]
  · intro opts h
    have hnew : server.New defaultOptions DefaultOptions construct options =
        if opts.clientTLSConfig.isNone && !opts.insecureClient then .error .ErrNoClientTLSConfig
        else if opts.serverTLSConfig.isNone && !opts.insecureServer then
          .error .ErrNoServerTLSConfig
        else
          match construct opts with
          | .error err => .error (.Build err)
          | .ok s => .ok s := by
      simp [server.New, h]
    rw [hnew]
    cases hc : opts.clientTLSConfig <;> cases hic : opts.insecureClient <;>
      cases hs : opts.serverTLSConfig <;> cases hisv : opts.insecureServer <;>
      simp <;> cases construct opts <;> simp
  · intro pre post opt opts opts1 err hsplit hpre hopt
    have : server.applyOptions (options ++ DefaultOptions) defaultOptions = .error err := by
      rw [hsplit, happ, hpre]
      simp [server.applyOptions, hopt]
    simp [server.New, this]
  · intro f _ s h
    cases h

/-- C25: for every finite sequence of raw events, every decoder and every
configuration of hooks, `Start` is defined (it returns once the input is
exhausted, with `stopped` closed), and the events it has written to the ring
are exactly the survivors of the raw events, in channel order and one write
for each: a raw event survives when no `OnMonitorEvent` hook stops it, it
decodes, no `OnDecodedFlow` hook stops it if it is a Flow, and no
`OnDecodedEvent` hook stops it; the value written is the value `Decode`
returned, so the events written are a subsequence of the decoded events. Of
the raw events 0 (unknown type), 1 (decode failure), 2 (agent event), 3, 4
and 5 (flows), with hooks that stop the flow 4 as a flow and the flow 5 as
an event, the events written are the agent event and the flow 3. -/
theorem Start_writes_surviving_events {η : Type} (env : IngestEnv η) (opts : IngestOptions η)
    (s : LocalObserverServer η) (events : List MonitorEvent) :
    (s.Start env opts events).ring = s.ring ++ (survivors env opts events s.ext).1 ∧
    (s.Start env opts events).ext = (survivors env opts events s.ext).2 ∧
    (s.Start env opts events).stopped = true ∧
    (∃ d, (s.Start env opts events).decoded = s.decoded ++ d ∧
      (survivors env opts events s.ext).1.Sublist d) ∧
    (∀ (m : MonitorEvent) (h : η) (ev : Event), (survivor env opts m h).1 = some ev ↔
      ∃ h1 h2 h3, stops opts.OnMonitorEvent m h = (false, h1) ∧
        env.Decode m h1 = (.ok ev, h2) ∧
        (match ev.Event with
          | .Flow flow => stops opts.OnDecodedFlow flow h2
          | _ => (false, h2)) = (false, h3) ∧
        (stops opts.OnDecodedEvent ev h3).1 = false) ∧
    ((LocalObserverServer.fresh ([] : List String)).Start testIngest
        ⟨[], [fun f h => ((decide (f.Uuid = 4), none), h)],
          [fun e h => ((decide (e = flowAt 5), none), h)]⟩
        [⟨0⟩, ⟨1⟩, ⟨2⟩, ⟨3⟩, ⟨4⟩, ⟨5⟩]).ring = [agentAt 2, flowAt 3] := by
  obtain ⟨h1, h2, h3, h4⟩ := LocalObserverServer.ingest_survivors env opts events s
  refine ⟨h1, h2, rfl, h4, ?_, by decide⟩
  intro m h ev
  constructor
  · intro hsurv
    unfold survivor at hsurv
    rcases hm : stops opts.OnMonitorEvent m h with ⟨b, x1⟩
    rw [hm] at hsurv
    cases b
    · simp only at hsurv
      rcases hd : env.Decode m x1 with ⟨err | ev', x2⟩
      · rw [hd] at hsurv; cases hsurv
      · rw [hd] at hsurv
        simp only at hsurv
        rcases hf : (match ev'.Event with
          | .Flow flow => stops opts.OnDecodedFlow flow x2
          | _ => (false, x2)) with ⟨b2, x3⟩
        rw [hf] at hsurv
        cases b2
        · simp only at hsurv
          rcases he : stops opts.OnDecodedEvent ev' x3 with ⟨b3, x4⟩
          rw [he] at hsurv
          cases b3
          · simp only [Option.some.injEq] at hsurv
            subst hsurv
            exact ⟨x1, x2, x3, rfl, hd, hf, by rw [he]⟩
          · cases hsurv
        · cases hsurv
    · cases hsurv
  · rintro ⟨x1, x2, x3, hm, hd, hf, he⟩
    unfold survivor
    rw [hm]
    simp only
    rw [hd]
    simp only
    rw [hf]
    simp only
    rcases hq : stops opts.OnDecodedEvent ev x3 with ⟨b3, x4⟩
    rw [hq] at he
    simp only at he
    subst he
    rfl

/-- C26: in the delivery loop of `GetFlows`, a Flow returned by `Next`
increments `eventCount` before the `OnFlowDelivery` hooks run, whatever they
return: when a hook stops the flow nothing is sent and the loop goes on with
the incremented count, and when a hook or `Send` fails the count the query
ends with is the incremented one. Hence, for a query that is not in follow
mode and has `number = N > 0`, the count of Flows taken from the reader, sent
or stopped, is at most `N`, and at most that many flow responses are sent;
once the count has reached `N` the next pass ends the query with nil, without
reading the ring; and when the hooks stop every flow, no flow response is
sent. On the ring of capacity 4 after the flows 1 to 4, with a hook that
stops every flow, a query with `number = 2` ends with nil after two flows
with nothing sent, from the newest as from the oldest (`first`). -/
theorem stopped_flows_count_against_number {σ : Type} (env : Env σ) (opts : Options σ)
    (mask : FieldMask) :
    (∀ (k n : Nat) (r : eventsReader) (w w1 : σ) (sent : List GetFlowsResponse) (e : Event)
      (f : Flow), r.Next env k w = some (.ok e, w1) → e.Event = .Flow f →
        GetFlows.loop env opts mask k (n + 1) r w sent =
          match runOnFlowDelivery opts.OnFlowDelivery f w1 with
          | (.Fail err, w2) => some ⟨some err, w2, sent, inc64 r.eventCount⟩
          | (.Stop, w2) =>
            GetFlows.loop env opts mask k n { r with eventCount := inc64 r.eventCount } w2 sent
          | (.Pass, w2) =>
            match env.Send ⟨(if mask.Active then mask.Copy f else f).Time,
                (if mask.Active then mask.Copy f else f).NodeName,
                .Flow (if mask.Active then mask.Copy f else f)⟩ w2 with
            | (some err, w3) => some ⟨some err, w3, sent, inc64 r.eventCount⟩
            | (none, w3) =>
              GetFlows.loop env opts mask k n { r with eventCount := inc64 r.eventCount } w3
                (sent ++ [⟨(if mask.Active then mask.Copy f else f).Time,
                  (if mask.Active then mask.Copy f else f).NodeName,
                  .Flow (if mask.Active then mask.Copy f else f)⟩])) ∧
    (∀ (fuel : Nat) (req : GetFlowsRequest) (w : σ) (o : Outcome σ GetFlowsResponse),
      req.Follow = false → 0 < req.Number → req.Number < 2 ^ 64 →
      GetFlows env opts fuel req w = some o →
        o.eventCount ≤ req.Number ∧ (flowResponses o.sent).length ≤ o.eventCount) ∧
    (∀ (k n : Nat) (r : eventsReader) (w : σ) (sent : List GetFlowsResponse),
      r.follow = false → 0 < r.maxEvents → r.maxEvents ≤ r.eventCount → env.ctxErr w = none →
        GetFlows.loop env opts mask (k + 1) (n + 1) r w sent =
          some ⟨none, w, sent, r.eventCount⟩) ∧
    ((∀ (f : Flow) (w : σ), (runOnFlowDelivery opts.OnFlowDelivery f w).1 = .Stop) →
      ∀ (fuel : Nat) (req : GetFlowsRequest) (w : σ) (o : Outcome σ GetFlowsResponse),
        GetFlows env opts fuel req w = some o → flowResponses o.sent = []) ∧
    (GetFlows testEnv stopEveryFlow 8 (flowsRequest (requestOf 2 none none))
        (worldOf 4 [flowAt 1, flowAt 2, flowAt 3, flowAt 4])).map
      (fun o => (o.err, o.sent, o.eventCount, o.world.idx)) = some (none, [], 2, 4) ∧
    (GetFlows testEnv stopEveryFlow 8 (flowsRequest { firstRequest with Number := 2 })
        (worldOf 4 [flowAt 1, flowAt 2, flowAt 3, flowAt 4])).map
      (fun o => (o.err, o.sent, o.eventCount, o.world.idx)) = some (none, [], 2, 2) := by
  refine ⟨?_, ?_, ?_, ?_, by decide, by decide⟩
  · intro k n r w w1 sent e f hN hE
    simp only [GetFlows.loop, hN, hE]
  · intro fuel req w o hf h0 h64 hG
    rcases GetFlows_of_some env opts fuel req w o hG with ⟨hs, hc⟩ | ⟨wl, bl, r, m, w2, hr, hl⟩
    · rw [hs, hc]
      simp [flowResponses]
    · obtain ⟨-, -, hmax, hfol, -, hcnt, -, -, -, -⟩ :=
        newEventsReader_fields req.togenericRequest _ _ r hr
      have := GetFlows.loop_count_bound env opts m fuel fuel r w2 [] o
        (by rw [hfol]; exact hf) (by rw [hmax]; exact h0)
        (by rw [hmax]; exact h64) (by rw [hcnt]; omega) hl
      rw [hmax, hcnt] at this
      simp only [flowResponses, List.filter_nil, List.length_nil] at this
      simp only [flowResponses]
      omega
  · intro k n r w sent hf h0 hle hctx
    have hN : r.Next env (k + 1) w = some (.error .EOF, w) := by
      have hc : r.maxEvents > 0 ∧ r.eventCount ≥ r.maxEvents := ⟨h0, hle⟩
      simp [eventsReader.Next, hctx, eventsReader.read, hf, hc]
    simp [GetFlows.loop, hN, eofIsNil]
  · intro hstop fuel req w o hG
    rcases GetFlows_of_some env opts fuel req w o hG with ⟨hs, -⟩ | ⟨wl, bl, r, m, w2, -, hl⟩
    · rw [hs]; rfl
    · have := GetFlows.loop_all_stopped env opts m fuel hstop fuel r w2 [] o hl
      rw [this]; rfl

/-- C27: in the rewind of `newRingReader` from `LastWriteParallel()`, when the
calls of `Previous`, at most `ring.Len()` of them, return the events `pre`,
which the rewind passes over, and then the result at which it stops, the
reader returned starts at `idx + 1`, where `idx` is `LastWriteParallel()`
moved back once for each event of `pre`, the position the stopping event was
read at; no error is returned. This holds when the stopping result carries a
ring-overrun LostEvent, whatever error `Previous` returned with it, with
`since` unset or set, and when `since` is set and the stopping event is
counted (not a LostEvent, accepted by the filters) with a valid timestamp
before `since`. With `since` set the rewind passes over every event that is
not counted, whatever its timestamp: only counted events are compared with
`since`. On the ring of flows 1 to 5 with `since = 3` the reader starts at
the flow 3, one after the flow 2 that stopped the rewind; an agent event of
time 2 that the whitelist rejects does not stop it; a ring-overrun marker
returned together with an error stops it without error. -/
theorem rewind_stop_backs_off {σ : Type} (env : Env σ) (req : genericRequest)
    (wl bl : FilterFuncs) (w : σ) (pre : List Event) (stop : Option Event × Option Error)
    (h1 : ¬ (req.First = true ∧ req.Since = none))
    (h2 : ¬ (req.Follow = true ∧ req.Number = 0 ∧ req.Since = none))
    (hprev : (env.previousN (pre.length + 1)
        (env.NewRingReader (env.LastWriteParallel w) w)).1 =
      pre.map (fun x => (some x, none)) ++ [stop])
    (hlen : pre.length < env.Len (env.NewRingReader (env.LastWriteParallel w) w))
    (hover : ∀ x ∈ pre, isRingOverrun (some x) = false) :
    (req.Since = none →
      pre.countP (counted wl bl) < 2 ^ 64 ∧
        (req.Number = 0 ∨ pre.countP (counted wl bl) < req.Number) →
      isRingOverrun stop.1 = true →
      newRingReader env req wl bl w =
        (none, env.NewRingReader (inc64 (dec64^[pre.length] (env.LastWriteParallel w)))
          (env.previousN (pre.length + 1)
            (env.NewRingReader (env.LastWriteParallel w) w)).2)) ∧
    (∀ s, req.Since = some s → Timestamp.CheckValid (some s) = none →
      (∀ x ∈ pre, counted wl bl x = true →
        Timestamp.CheckValid x.Timestamp = none ∧ s.AsTime ≤ Timestamp.AsTimeOpt x.Timestamp) →
      (isRingOverrun stop.1 = true ∨
        ∃ e, stop = (some e, none) ∧ counted wl bl e = true ∧
          Timestamp.CheckValid e.Timestamp = none ∧
          Timestamp.AsTimeOpt e.Timestamp < s.AsTime) →
      newRingReader env req wl bl w =
        (none, env.NewRingReader (inc64 (dec64^[pre.length] (env.LastWriteParallel w)))
          (env.previousN (pre.length + 1)
            (env.NewRingReader (env.LastWriteParallel w) w)).2)) ∧
    (newRingReader testEnv (requestOf 0 (some (tsec 3)) none) [] []
          (worldOf 8 [flowAt 1, flowAt 2, flowAt 3, flowAt 4, flowAt 5]) =
        (none, { worldOf 8 [flowAt 1, flowAt 2, flowAt 3, flowAt 4, flowAt 5] with idx := 2 }) ∧
      (GetFlows testEnv noHooks 8 (flowsRequest (requestOf 0 (some (tsec 3)) none))
          (worldOf 8 [flowAt 1, flowAt 2, flowAt 3, flowAt 4, flowAt 5])).map
        (fun o => (o.err, o.sent)) =
        some (none, [flowResponse 3, flowResponse 4, flowResponse 5])) ∧
    ((match buildTest [10] with
        | .ok whitelist =>
          (newRingReader testEnv (requestOf 0 (some (tsec 3)) none) whitelist []
            (worldOf 8 [flowAt 1, flowAt 4, agentAt 2, flowAt 5])).2.idx
        | .error _ => 0) = 1 ∧
      (GetFlows testEnv noHooks 8 (flowsRequestWith (requestOf 0 (some (tsec 3)) none) [10])
          (worldOf 8 [flowAt 1, flowAt 4, agentAt 2, flowAt 5])).map
        (fun o => (o.err, o.sent)) = some (none, [flowResponse 4, flowResponse 5])) ∧
    newRingReader
        { testEnv with
          Previous := fun w => ((some (NewRing 4 none).getLostEvent, some (.Other 1)), w) }
        (requestOf 2 none none) [] [] (worldOf 4 [flowAt 1]) =
      (none, { worldOf 4 [flowAt 1] with idx := 1 }) := by
  refine ⟨?_, ?_, ⟨by decide, by decide⟩, ⟨by decide, by decide⟩, by decide⟩
  · intro hS hnum hov
    rw [newRingReader_rewinds env req wl bl w h1 h2, hS]
    exact newRingReader.rewound_stop env req wl bl zeroTime w pre stop hprev hlen hover
      (by intro h; rw [hS] at h; cases h) (fun _ => hnum) (Or.inl hov)
  · intro s hS hv hpass hstop
    rw [newRingReader_rewinds env req wl bl w h1 h2, hS]
    simp only [hv]
    have hSome : req.Since.isSome = true := by rw [hS]; rfl
    refine newRingReader.rewound_stop env req wl bl s.AsTime w pre stop hprev hlen hover
      (fun _ x hx => (newRingReader.inRange_iff wl bl s.AsTime x).2 ⟨hover x hx, hpass x hx⟩)
      (by intro h; rw [hS] at h; cases h) ?_
    rcases hstop with hov | hbefore
    · exact Or.inl hov
    · exact Or.inr ⟨hSome, hbefore⟩

/-- Witness of C27: the ring of flows 1 to 5 and `since = 3`: `Previous`
returns the flows 5, 4 and 3 and then the flow 2, which is before `since`. -/
theorem rewind_stop_backs_off_witness :
    newRingReader testEnv (requestOf 0 (some (tsec 3)) none) [] []
        (worldOf 8 [flowAt 1, flowAt 2, flowAt 3, flowAt 4, flowAt 5]) =
      (none, { worldOf 8 [flowAt 1, flowAt 2, flowAt 3, flowAt 4, flowAt 5] with idx := 2 }) :=
  (rewind_stop_backs_off testEnv (requestOf 0 (some (tsec 3)) none) [] []
    (worldOf 8 [flowAt 1, flowAt 2, flowAt 3, flowAt 4, flowAt 5])
    [flowAt 5, flowAt 4, flowAt 3] (some (flowAt 2), none)
    (by decide) (by decide) (by decide) (by decide) (by decide)).2.1 (tsec 3) rfl (by decide)
    (by decide) (Or.inr ⟨flowAt 2, rfl, by decide, by decide, by decide⟩)

/-- C28: for a request with `number = 0`, neither `follow` nor `first`, and
`since` unset, `newRingReader` takes the rewind path and not the placement at
`LastWriteParallel()`. The count is never 0 after an increment, so the rewind
ends only in two ways: at a ring-overrun LostEvent returned by `Previous`,
and then the reader returned starts one after the position of that call; or
when the `ring.Len()` calls of `Previous` have returned events, none of them
a ring-overrun marker, and then the reader returned starts at
`LastWriteParallel() - Len()` on `uint64`. With `maxEvents = 0` the count
check of `Next` never ends the stream. On a ring that is not written to
during the query and stores no ring-overrun marker (capacity `C`, writes
`hist`, fewer than `2^63` of them), with no time window, the repeated calls
of `Next` on the reader returned deliver, ring-overrun markers apart, every
readable event that is a LostEvent or that the filters accept, in order, and
then `io.EOF`. On the ring of capacity 4 `GetFlows` sends the flows 1 and 2
after these two writes, and the flows 3 to 6 after the writes of the flows 1
to 6. -/
theorem number_zero_rewinds_whole_ring {σ : Type} (env : Env σ) (req : genericRequest)
    (wl bl : FilterFuncs) (hN : req.Number = 0) (hfollow : req.Follow = false)
    (hfirst : req.First = false) (hS : req.Since = none) :
    (∀ (w : σ) (pre : List Event),
      pre.length = env.Len (env.NewRingReader (env.LastWriteParallel w) w) →
      pre.length < 2 ^ 64 → env.LastWriteParallel w < 2 ^ 64 →
      (env.previousN pre.length (env.NewRingReader (env.LastWriteParallel w) w)).1 =
        pre.map (fun x => (some x, none)) →
      (∀ x ∈ pre, isRingOverrun (some x) = false) →
      newRingReader env req wl bl w =
        (none, env.NewRingReader
          (sub64 (env.LastWriteParallel w)
            (env.Len (env.NewRingReader (env.LastWriteParallel w) w)))
          (env.previousN pre.length (env.NewRingReader (env.LastWriteParallel w) w)).2)) ∧
    (∀ (w : σ) (pre : List Event) (stop : Option Event × Option Error),
      pre.length < env.Len (env.NewRingReader (env.LastWriteParallel w) w) →
      pre.length < 2 ^ 64 →
      (env.previousN (pre.length + 1) (env.NewRingReader (env.LastWriteParallel w) w)).1 =
        pre.map (fun x => (some x, none)) ++ [stop] →
      (∀ x ∈ pre, isRingOverrun (some x) = false) →
      isRingOverrun stop.1 = true →
      newRingReader env req wl bl w =
        (none, env.NewRingReader (inc64 (dec64^[pre.length] (env.LastWriteParallel w)))
          (env.previousN (pre.length + 1)
            (env.NewRingReader (env.LastWriteParallel w) w)).2)) ∧
    (∀ (c : Nat), c + 1 < 2 ^ 64 → inc64 c ≠ req.Number) ∧
    (∀ (r : eventsReader) (w : σ), r.follow = false → r.maxEvents = 0 →
      r.read env w = ofRingNext (env.Next w)) ∧
    (∀ (build : List Nat → Except Error FilterFuncs)
        (newMask : List String → Except Error FieldMask) (nodeName : String) (C : Nat)
        (now : Option Timestamp) (cause : Error) (hist : List Event) (p0 : Nat),
      hist.length < 2 ^ 63 → req.Until = none →
      (∀ e ∈ readable C hist, isRingOverrun (some e) = false) →
      ∃ p, newRingReader (ringEnv build newMask nodeName) req wl bl
            (World.at ((NewRing C now).WriteAll hist) cause p0) =
          (none, World.at ((NewRing C now).WriteAll hist) cause p) ∧
        newEventsReader req wl bl = .ok (numberReader wl bl 0 0) ∧
        ∀ (k n : Nat), hist.length + 2 ≤ k → hist.length + 2 ≤ n →
          ∃ es, (numberReader wl bl 0 0).drain (ringEnv build newMask nodeName) k n
                (World.at ((NewRing C now).WriteAll hist) cause p) =
              some (es, .EOF, World.at ((NewRing C now).WriteAll hist) cause hist.length) ∧
            es.filter (fun e => !isRingOverrun (some e)) =
              (readable C hist).filter (numberReader wl bl 0 0).hit) ∧
    (GetFlows testEnv noHooks 8 (flowsRequest (requestOf 0 none none))
        (worldOf 4 [flowAt 1, flowAt 2])).map (fun o => (o.err, flowResponses o.sent)) =
      some (none, [flowResponse 1, flowResponse 2]) ∧
    (GetFlows testEnv noHooks 8 (flowsRequest (requestOf 0 none none))
        (worldOf 4 [flowAt 1, flowAt 2, flowAt 3, flowAt 4, flowAt 5, flowAt 6])).map
      (fun o => (o.err, flowResponses o.sent)) =
      some (none, [flowResponse 3, flowResponse 4, flowResponse 5, flowResponse 6]) := by
  have h1 : ¬ (req.First = true ∧ req.Since = none) := by rw [hfirst]; simp
  have h2 : ¬ (req.Follow = true ∧ req.Number = 0 ∧ req.Since = none) := by rw [hfollow]; simp
  refine ⟨?_, ?_, ?_, ?_, ?_, by decide, by decide⟩
  · intro w pre hlen h64 hL hprev hover
    rw [newRingReader_rewinds env req wl bl w h1 h2, hS]
    simp only
    rw [newRingReader.rewound_exhausts env req wl bl zeroTime w pre hS hN hlen h64 hprev hover,
      dec64_iterate pre.length _ hL h64, hlen]
  · intro w pre stop hlen h64 hprev hover hstop
    rw [newRingReader_rewinds env req wl bl w h1 h2, hS]
    have hcount : pre.countP (counted wl bl) ≤ pre.length := List.countP_le_length _
    exact newRingReader.rewound_stop env req wl bl zeroTime w pre stop hprev hlen hover
      (by intro h; rw [hS] at h; cases h) (fun _ => ⟨by omega, Or.inl hN⟩) (Or.inl hstop)
  · intro c hc
    rw [hN, inc64_of_lt c hc]
    omega
  · intro r w hf hm
    simp only [eventsReader.read, hf, hm, ofRingNext]
    simp
  · intro build newMask nodeName C now cause hist p0 h63 hU hover
    have h64 : hist.length < 2 ^ 64 := by omega
    obtain ⟨hR, hcap⟩ := NewRing_WriteAll_holds C now hist
    generalize (NewRing C now).WriteAll hist = R at hR hcap ⊢
    have hw : R.write = hist.length := hR.1
    have hnew : newEventsReader req wl bl = .ok (numberReader wl bl 0 0) := by
      rw [newEventsReader_plain req wl bl hS hU, hfollow, hN]
      rfl
    have hcheck : ¬ ((numberReader wl bl 0 0).maxEvents > 0 ∧
        (numberReader wl bl 0 0).eventCount ≥ (numberReader wl bl 0 0).maxEvents) := by
      simp [numberReader]
    have hkeep : ((readable C hist).filter (numberReader wl bl 0 0).hit).filter
        (fun e => !isRingOverrun (some e)) =
        (readable C hist).filter (numberReader wl bl 0 0).hit := by
      rw [List.filter_eq_self]
      intro e he
      rw [hover e (List.mem_of_mem_filter he)]
      rfl
    by_cases hne : hist = []
    · subst hne
      have hw0 : R.write = 0 := hw
      refine ⟨0, ?_, hnew, ?_⟩
      · simp [newRingReader, hfirst, hfollow, hS, ringEnv, World.at, Ring.LastWriteParallel,
          Ring.Len, hw0, newRingReader.rewind]
      · intro k n hk hn
        have hdrain := eventsReader.drain_on_ring build newMask nodeName R cause [] hR h64
          (numberReader wl bl 0 0) rfl rfl hcheck k (by simp only [List.length_nil]; omega) n
          [] 0 rfl (by rw [hw0]; simp) (by simp) (by simp only [List.length_nil]; omega)
        exact ⟨[], hdrain, by simp [readable]⟩
    · have hW : 1 ≤ hist.length := by
        rcases Nat.eq_zero_or_pos hist.length with h | h
        · exact absurd (List.length_eq_zero.mp h) hne
        · exact h
      have hsum : hist.length - C + min hist.length C = hist.length := by omega
      have hdecW : dec64 hist.length = hist.length - 1 := by
        have := dec64_succ (hist.length - 1) (by omega)
        rwa [Nat.sub_add_cancel hW] at this
      have hprevN := Env.previousN_on_ring build newMask nodeName R cause hist hR h64
        (hist.length - C) (by rw [hw, hcap]) (min hist.length C) (by omega)
      rw [hsum, hdecW] at hprevN
      have htake : (hist.drop (hist.length - C)).take (min hist.length C) = readable C hist := by
        unfold readable
        apply List.take_of_length_le
        simp only [List.length_drop]
        omega
      rw [htake] at hprevN
      have hlenr : (readable C hist).reverse.length = min hist.length C := by
        unfold readable
        simp only [List.length_reverse, List.length_drop]
        omega
      have hiter : dec64^[min hist.length C] (hist.length - 1) = dec64 (hist.length - C) := by
        rcases Nat.eq_zero_or_pos C with h | h
        · subst h
          have h0 : min hist.length 0 = 0 := by omega
          rw [h0, Nat.sub_zero, hdecW]
          rfl
        · obtain ⟨m, hm⟩ : ∃ m, min hist.length C = m + 1 :=
            ⟨min hist.length C - 1, by omega⟩
          have harith : hist.length - 1 - m = hist.length - C := by omega
          rw [hm, Function.iterate_succ_apply' dec64 m (hist.length - 1),
            dec64_iterate_of_le m (hist.length - 1) (by omega) (by omega), harith]
      have hring : newRingReader (ringEnv build newMask nodeName) req wl bl
          (World.at R cause p0) = (none, World.at R cause (dec64 (hist.length - C))) := by
        rw [newRingReader_rewinds _ req wl bl _ h1 h2, hS]
        simp only
        have hex := newRingReader.rewound_exhausts (ringEnv build newMask nodeName) req wl bl
          zeroTime (World.at R cause p0) (readable C hist).reverse hS hN
          (by
            rw [hlenr]
            simp only [ringEnv, World.at, Ring.Len, hw, hcap])
          (by rw [hlenr]; omega)
          (by
            rw [hlenr]
            have : (ringEnv build newMask nodeName).NewRingReader
                ((ringEnv build newMask nodeName).LastWriteParallel (World.at R cause p0))
                (World.at R cause p0) = World.at R cause (hist.length - 1) := by
              simp only [ringEnv, World.at, Ring.LastWriteParallel, hw]
            rw [this, hprevN])
          (by
            intro x hx
            exact hover x (List.mem_reverse.1 hx))
        rw [hex, hlenr]
        have hL : (ringEnv build newMask nodeName).LastWriteParallel (World.at R cause p0) =
            hist.length - 1 := by
          simp only [ringEnv, World.at, Ring.LastWriteParallel, hw]
        have hNR : (ringEnv build newMask nodeName).NewRingReader (hist.length - 1)
            (World.at R cause p0) = World.at R cause (hist.length - 1) := rfl
        rw [hL, hNR, hprevN, hiter]
        rfl
      refine ⟨dec64 (hist.length - C), hring, hnew, ?_⟩
      intro k n hk hn
      obtain ⟨k', rfl⟩ : ∃ k', k = k' + 1 := ⟨k - 1, by omega⟩
      obtain ⟨n', rfl⟩ : ∃ n', n = n' + 1 := ⟨n - 1, by omega⟩
      obtain ⟨hlost, hinc⟩ := Ring.Read_before_floor R hist hR C hcap h63 hne
      have hcand : (numberReader wl bl 0 0).Candidate (ringEnv build newMask nodeName)
          (World.at R cause (dec64 (hist.length - C))) R.getLostEvent
          (World.at R cause (hist.length - C)) := by
        right
        refine ⟨rfl, hcheck, ?_⟩
        simp [ringEnv, World.at, World.Next, hlost, hinc]
      have hNext := eventsReader.Next_step (ringEnv build newMask nodeName)
        (numberReader wl bl 0 0) k' (World.at R cause (dec64 (hist.length - C)))
        (World.at R cause (hist.length - C)) R.getLostEvent rfl hcand
      rw [eventsReader.examine_lost (numberReader wl bl 0 0) R.getLostEvent rfl] at hNext
      have hdrain := eventsReader.drain_on_ring build newMask nodeName R cause hist hR h64
        (numberReader wl bl 0 0) rfl rfl hcheck (k' + 1) (by omega) n'
        (hist.drop (hist.length - C)) (hist.length - C) rfl (by rw [hw, hcap]) (by omega)
        (by simp only [List.length_drop]; omega)
      have hend : hist.length - C + (hist.drop (hist.length - C)).length = hist.length := by
        simp only [List.length_drop]; omega
      rw [hend] at hdrain
      refine ⟨R.getLostEvent :: (readable C hist).filter (numberReader wl bl 0 0).hit, ?_, ?_⟩
      · simp only [eventsReader.drain, hNext, hdrain]
        rfl
      · have hmark : isRingOverrun (some R.getLostEvent) = true := rfl
        rw [List.filter_cons, hmark]
        exact hkeep

/-- Witness of C28: the ring of capacity 4 after the flows 1 and 2, which has
not wrapped: the reader that `newRingReader` returns delivers, ring-overrun
markers apart, the flows 1 and 2. -/
theorem number_zero_rewinds_whole_ring_witness :
    ∃ p, newRingReader testEnv (requestOf 0 none none) [] []
          (World.at ((NewRing 4 none).WriteAll [flowAt 1, flowAt 2]) .Canceled 0) =
        (none, World.at ((NewRing 4 none).WriteAll [flowAt 1, flowAt 2]) .Canceled p) ∧
      newEventsReader (requestOf 0 none none) [] [] = .ok (numberReader [] [] 0 0) ∧
      ∀ (k n : Nat), [flowAt 1, flowAt 2].length + 2 ≤ k → [flowAt 1, flowAt 2].length + 2 ≤ n →
        ∃ es, (numberReader [] [] 0 0).drain testEnv k n
              (World.at ((NewRing 4 none).WriteAll [flowAt 1, flowAt 2]) .Canceled p) =
            some (es, .EOF,
              World.at ((NewRing 4 none).WriteAll [flowAt 1, flowAt 2]) .Canceled
                [flowAt 1, flowAt 2].length) ∧
          es.filter (fun e => !isRingOverrun (some e)) =
            (readable 4 [flowAt 1, flowAt 2]).filter (numberReader [] [] 0 0).hit :=
  (number_zero_rewinds_whole_ring testEnv (requestOf 0 none none) [] [] rfl rfl rfl
    rfl).2.2.2.2.1 buildTest noMask "node" 4 none .Canceled [flowAt 1, flowAt 2] 0 (by decide)
    rfl (by decide)

/-- C29: in follow mode `eventsReader.Next` never consults `maxEvents`: it
reads its candidate through `NextFollow`, whatever `maxEvents` and
`eventCount` are, so its result is the same for every value of the two, and
with `eventCount >= maxEvents > 0` it still returns the next event that
passes the time range and the filters. It returns `io.EOF` only when
`NextFollow` has returned no event, or an event that is not a LostEvent, has
a valid timestamp and lies after `until` (the context's error is never
`io.EOF`). A follow reader with `maxEvents = 1` and `eventCount = 5` returns
the next flow of the ring, and a follow query with `number = 1` and
`since = 2 s` on the ring of flows 1 to 4 delivers three flows: `number` does
not bound what a follow query delivers. -/
theorem follow_ignores_maxEvents {σ : Type} (env : Env σ) :
    (∀ (r : eventsReader) (w : σ), r.follow = true →
      r.read env w =
        match env.NextFollow w with
        | (none, w1) => (.error .EOF, w1)
        | (some e, w1) => (.ok e, w1)) ∧
    (∀ (r : eventsReader) (m c fuel : Nat) (w : σ), r.follow = true →
      r.Next env fuel w = ({ r with maxEvents := m, eventCount := c }).Next env fuel w) ∧
    (∀ (r : eventsReader) (fuel : Nat) (w w1 : σ) (e : Event), r.follow = true →
      0 < r.maxEvents → r.maxEvents ≤ r.eventCount →
      env.ctxErr w = none → env.NextFollow w = (some e, w1) → r.examine e = .Return →
      r.Next env (fuel + 1) w = some (.ok e, w1)) ∧
    (∀ (r : eventsReader) (fuel : Nat) (w w1 : σ), r.follow = true →
      (∀ w0, env.ctxErr w0 ≠ some .EOF) → r.Next env fuel w = some (.error .EOF, w1) →
      ∃ w0, env.NextFollow w0 = (none, w1) ∨
        ∃ e, env.NextFollow w0 = (some e, w1) ∧ e.isLostEvent = false ∧
          r.timeRange = true ∧ Timestamp.CheckValid e.Timestamp = none ∧
          ∃ u, r.until_ = some u ∧ u < Timestamp.AsTimeOpt e.Timestamp) ∧
    ({ followReader with maxEvents := 1, eventCount := 5 }).Next testEnv 1
        (worldOf 4 [flowAt 1, flowAt 2]) =
      some (.ok (flowAt 1), { worldOf 4 [flowAt 1, flowAt 2] with idx := 1 }) ∧
    (GetFlows testEnv noHooks 8
        (flowsRequest { Number := 1, Follow := true, Since := some (tsec 2), Until := none,
                        First := false })
        (worldOf 8 [flowAt 1, flowAt 2, flowAt 3, flowAt 4])).map
      (fun o => (o.err, o.sent, o.eventCount)) =
      some (none, [flowResponse 2, flowResponse 3, flowResponse 4], 3) := by
  refine ⟨?_, ?_, ?_, ?_, rfl, by decide⟩
  · intro r w hf
    exact eventsReader.read_follow env r w hf
  · intro r m c fuel w hf
    exact eventsReader.Next_follow_count env r m c hf fuel w
  · intro r fuel w w1 e hf _ _ hctx hN hx
    have hcand : r.Candidate env w e w1 := Or.inl ⟨hf, hN⟩
    rw [eventsReader.Next_step env r fuel w w1 e hctx hcand, hx]
  · intro r fuel w w1 hf hctx h
    obtain ⟨w0, hw0⟩ := eventsReader.Next_follow_EOF env r hf hctx fuel w w1 h
    refine ⟨w0, ?_⟩
    rcases hw0 with hnone | ⟨e, he, hx⟩
    · exact Or.inl hnone
    · exact Or.inr ⟨e, he, eventsReader.examine_EOF r e hx⟩

end Observer
